import Mathlib

/-!
Verification development for the property-management core of
`plotly/basedatatypes.py` (the `BaseFigure` / `BasePlotlyType` engine).

The Python source is shallowly embedded: nested Python dict/list values
become the inductive type `JVal`, property-path tuples become `List PathEl`,
and the stateful figure operations become pure functions from a `Figure`
record to a new record plus a list of observable events (sync messages to
the front end and change-callback invocations).
-/

namespace PlotlyModel

/-- One element of a property path tuple, as produced by
`BaseFigure._str_to_dict_path`: either a field-name string or an integer
index. -/
inductive PathEl where
  | name (s : String)
  | idx (i : Int)
deriving DecidableEq, Repr

/-- Universe of Python values stored in the figure's backing state
dictionaries (`BaseFigure._data`, `BaseFigure._layout`).  `null` models
Python `None`; `undefined` models the `Undefined` sentinel object of
`basedatatypes.py` (a value distinct from `None` that means "leave the
existing value unmodified"). -/
inductive JVal where
  | null
  | undefined
  | jb (b : Bool)
  | ji (n : Int)
  | jf (q : Option ℚ)
  | js (s : String)
  | jlist (xs : List JVal)
  | jdict (entries : List (PathEl × JVal))
deriving Repr

abbrev JEntries := List (PathEl × JVal)

/-- Dict lookup on an insertion-ordered association list (Python `d[k]` /
`d.get(k)`). -/
def alGet {κ α : Type} [DecidableEq κ] : List (κ × α) → κ → Option α
  | [], _ => none
  | (k2, v) :: rest, k => if k2 = k then some v else alGet rest k

/-- Dict assignment `d[k] = v` on an insertion-ordered association list:
updates the value in place if the key is present, appends otherwise. -/
def alSet {κ α : Type} [DecidableEq κ] : List (κ × α) → κ → α → List (κ × α)
  | [], k, v => [(k, v)]
  | (k2, w) :: rest, k, v =>
    if k2 = k then (k2, v) :: rest else (k2, w) :: alSet rest k v

/-- Dict removal `d.pop(k)` (first occurrence) on an association list. -/
def alRemove {κ α : Type} [DecidableEq κ] : List (κ × α) → κ → List (κ × α)
  | [], _ => []
  | (k2, w) :: rest, k => if k2 = k then rest else (k2, w) :: alRemove rest k

/-- Membership `k in d`. -/
def alHas {κ α : Type} [DecidableEq κ] (l : List (κ × α)) (k : κ) : Bool :=
  (alGet l k).isSome

/-- The numeric value of a scalar under Python's numeric tower: bools
count as `0`/`1`, ints and finite floats by their value, and a float
`NaN` (modelled as `jf none`) is numeric but carries no value. -/
def numVal : JVal → Option (Option ℚ)
  | .jb b => some (some (if b then 1 else 0))
  | .ji n => some (some (n : ℚ))
  | .jf q => some q
  | _ => none

/-- Python `==` on the scalar values of `JVal` (`None`, the sentinel,
bools, ints, floats, strings).  Numbers compare across types by value
(`True == 1`, `1.0 == 1`), `NaN` is unequal to every number including
itself, and a scalar never equals a list or a dict. -/
def scalarEq : JVal → JVal → Bool
  | .null, .null => true
  | .undefined, .undefined => true
  | .js a, .js b => a == b
  | a, b =>
    match numVal a, numVal b with
    | some (some x), some (some y) => x == y
    | _, _ => false

mutual

/-- `BasePlotlyType._vals_equal`: recursive equality that treats lists
element-wise and dicts by key-set plus per-key recursive equality; every
other pair of values is compared by native equality. -/
def valsEqual : JVal → JVal → Bool
  | .jlist xs, v2 =>
    match v2 with
    | .jlist ys => xs.length == ys.length && valsEqualZip xs ys
    | _ => false
  | .jdict xs, v2 =>
    match v2 with
    | .jdict ys =>
      xs.all (fun e => alHas ys e.1) && ys.all (fun e => alHas xs e.1) &&
        valsEqualEntries xs ys
    | _ => false
  | v1, v2 => scalarEq v1 v2

/-- Element-wise recursive equality of two lists (zipped). -/
def valsEqualZip : List JVal → List JVal → Bool
  | [], _ => true
  | _, [] => true
  | x :: xs, y :: ys => valsEqual x y && valsEqualZip xs ys

/-- For each entry of the first dict, recursive equality with the value
stored under the same key in the second dict. -/
def valsEqualEntries : JEntries → JEntries → Bool
  | [], _ => true
  | (k, v) :: rest, ys =>
    (match alGet ys k with
     | some w => valsEqual v w
     | none => false) && valsEqualEntries rest ys

end

/-! ## Path strings: `BaseFigure._str_to_dict_path` -/

/-- Python `str.split('.')`: split a character list on every occurrence of
the dot, keeping empty pieces (`''.split('.') == ['']`). -/
def splitDot : List Char → List (List Char)
  | [] => [[]]
  | c :: rest =>
    if c = '.' then [] :: splitDot rest
    else
      match splitDot rest with
      | [] => [[c]]
      | h :: t => (c :: h) :: t

/-- `re.fullmatch('(.*)\[(\d+)\]', piece)` with a greedy `.*`: succeeds
exactly when the piece ends in a bracketed nonempty digit run, returning
the (longest possible) prefix and the digit run.  `\d` is modelled over
the ASCII digits; Python's `re` additionally matches Unicode decimal
digits, which the ASCII restriction in `goodName` keeps out of scope. -/
def bracketSplit (cs : List Char) : Option (List Char × List Char) :=
  match cs.reverse with
  | [] => none
  | c :: rest =>
    if c = ']' then
      let ds := rest.takeWhile Char.isDigit
      match rest.drop ds.length with
      | [] => none
      | c2 :: pre =>
        if c2 = '[' then
          if ds.isEmpty then none else some (pre.reverse, ds.reverse)
        else none
    else none

/-- Digit-list to number, most significant digit first. -/
def natOfDigits (cs : List Char) : Nat :=
  cs.foldl (fun a c => a * 10 + (c.toNat - 48)) 0

/-- The ASCII whitespace characters stripped by Python `int()`: tab
through carriage return and the space.  (Above `\x7f` Python also strips
Unicode whitespace such as `\x85`; the round-trip hypothesis below
restricts names to ASCII, where this set is exact.) -/
def isPySpace (c : Char) : Bool :=
  c = ' ' || c = '\t' || c = '\n' || c = '\x0b' || c = '\x0c' || c = '\r'

/-- The digit run of `int()` after the leading digit: further digits
with single underscore separators allowed between digits (`1_0` parses;
`1_`, `1__0` do not).  `acc` is the value of the digits consumed so far
and `afterUnd` records that the previous character was an underscore
(which must be followed by a digit). -/
def digitsUndGo (acc : Nat) (afterUnd : Bool) : List Char → Option Nat
  | [] => if afterUnd then none else some acc
  | c :: rest =>
    if c.isDigit then digitsUndGo (acc * 10 + (c.toNat - 48)) false rest
    else if c = '_' && !afterUnd then digitsUndGo acc true rest
    else none

/-- A nonempty digit run with underscore separators, as accepted by
`int()` after sign processing (an underscore may not lead). -/
def digitsUnd : List Char → Option Nat
  | [] => none
  | c :: rest =>
    if c.isDigit then digitsUndGo (c.toNat - 48) false rest else none

/-- Python `int(s)` on ASCII strings: strip surrounding ASCII whitespace,
an optional single sign, then a nonempty digit run with optional single
underscore separators between digits.  (On non-ASCII input Python also
accepts Unicode decimal digits and whitespace; the round-trip hypothesis
below restricts names to ASCII, where this model is exact.) -/
def pyToInt (s : String) : Option Int :=
  let cs := (((s.data.dropWhile isPySpace).reverse.dropWhile isPySpace).reverse)
  match cs with
  | [] => none
  | c :: rest =>
    if c = '+' then (digitsUnd rest).map (fun n => (n : Int))
    else if c = '-' then (digitsUnd rest).map (fun n => -(n : Int))
    else (digitsUnd (c :: rest)).map (fun n => (n : Int))

/-- Bracket extraction applied to one dot-separated piece
(`key_path2.extend(match.groups())` on a match, else keep the piece). -/
def expandPiece (p : List Char) : List (List Char) :=
  match bracketSplit p with
  | some (pre, ds) => [pre, ds]
  | none => [p]

/-- `int(...)` conversion of one resulting piece (`try: int(...) except
ValueError: pass`). -/
def convertPiece (cs2 : List Char) : PathEl :=
  match pyToInt (String.mk cs2) with
  | some n => PathEl.idx n
  | none => PathEl.name (String.mk cs2)

/-- `BaseFigure._str_to_dict_path` on the character list of a string key:
split on dots, split out one trailing bracket index per piece, then
convert the pieces that parse as Python ints to integer path elements. -/
def parseChars (cs : List Char) : List PathEl :=
  (((splitDot cs).map expandPiece).flatten).map convertPiece

/-- `BaseFigure._str_to_dict_path` on a string key. -/
def strToDictPath (s : String) : List PathEl :=
  parseChars s.data

/-- The trailing-integer strip performed by
`BaseFigure._is_key_path_compatible` before testing path membership. -/
def stripTrailingIdx (p : List PathEl) : List PathEl :=
  match p.getLast? with
  | some (.idx _) => p.dropLast
  | _ => p

/-- Keys of an association list are pairwise distinct (always true of the
image of a Python dict). -/
def nodupKeys {κ α : Type} [DecidableEq κ] : List (κ × α) → Bool
  | [] => true
  | (k, _) :: rest => !alHas rest k && nodupKeys rest

mutual

/-- A `JVal` is in the image of a Python value: every dict that occurs in
it has pairwise-distinct keys. -/
def wfVal : JVal → Bool
  | .jlist xs => wfList xs
  | .jdict es => nodupKeys es && wfEntries es
  | _ => true

/-- All list elements are well formed. -/
def wfList : List JVal → Bool
  | [] => true
  | x :: xs => wfVal x && wfList xs

/-- All dict entry values are well formed. -/
def wfEntries : JEntries → Bool
  | [] => true
  | (_, v) :: rest => wfVal v && wfEntries rest

end

mutual

/-- No float `NaN` occurs anywhere in the value.  `_vals_equal` is
reflexive exactly on such values: Python `==` makes `NaN` unequal to
itself, so a value containing `NaN` is not `_vals_equal` to itself. -/
def nanFree : JVal → Bool
  | .jf none => false
  | .jlist xs => nanFreeList xs
  | .jdict es => nanFreeEntries es
  | _ => true

/-- No list element contains `NaN`. -/
def nanFreeList : List JVal → Bool
  | [] => true
  | x :: xs => nanFree x && nanFreeList xs

/-- No dict entry value contains `NaN`. -/
def nanFreeEntries : JEntries → Bool
  | [] => true
  | (_, v) :: rest => nanFree v && nanFreeEntries rest

end

/-! ## `BaseFigure._set_in` -/

/-- Python list indexing resolution: non-negative indices must be below
the length, negative indices count from the end. -/
def pyResolveIdx (len : Nat) (i : Int) : Option Nat :=
  if 0 ≤ i then (if i < (len : Int) then some i.toNat else none)
  else
    let j := (len : Int) + i
    if 0 ≤ j then some j.toNat else none

/-- Python `xs[i]` on a list (`None` on `IndexError`). -/
def pyListGet (xs : List JVal) (i : Int) : Option JVal :=
  (pyResolveIdx xs.length i).bind (fun j => xs[j]?)

/-- Python `xs[i] = v` on a list (identity when the index is invalid; the
callers below only use it at indices that resolve). -/
def pyListSet (xs : List JVal) (i : Int) (v : JVal) : List JVal :=
  match pyResolveIdx xs.length i with
  | some j => xs.set j v
  | none => xs

/-- The `while len(val_parent) <= key_path_el: val_parent.append(None)`
padding loop of `_set_in`: extend the list with `None` entries until the
index is strictly below the length (no effect for a negative index). -/
def listPad (xs : List JVal) (i : Int) : List JVal :=
  if i < 0 then xs
  else xs ++ List.replicate (i.toNat + 1 - xs.length) JVal.null

/-- The per-step container preparation in `_set_in`'s navigation loop:
pad a list parent for an integer key; insert an empty list or dict into a
dict parent missing the key (list when the next key element is an
integer); leave every other parent untouched. -/
def prepareChild (parent : JVal) (k : PathEl) (next : Option PathEl) : JVal :=
  match parent, k with
  | .jlist xs, .idx i => .jlist (listPad xs i)
  | .jdict es, k =>
    if alHas es k then .jdict es
    else
      match next with
      | some (.idx _) => .jdict (alSet es k (.jlist []))
      | _ => .jdict (alSet es k (.jdict []))
  | p, _ => p

/-- `val_parent[key_path_el]` after preparation: dict lookup (KeyError),
list indexing (IndexError / TypeError for a string key), and a TypeError
on any non-container parent. -/
def getChild (parent : JVal) (k : PathEl) : Except String JVal :=
  match parent, k with
  | .jdict es, k =>
    match alGet es k with
    | some v => Except.ok v
    | none => Except.error "KeyError"
  | .jlist xs, .idx i =>
    match pyListGet xs i with
    | some v => Except.ok v
    | none => Except.error "IndexError"
  | .jlist _, .name _ => Except.error "TypeError: list index must be an integer"
  | _, _ => Except.error "TypeError: value is not subscriptable"

/-- Write back a navigated child into its parent slot (only used where
`getChild` succeeded, so the slot exists). -/
def putChild (parent : JVal) (k : PathEl) (c : JVal) : JVal :=
  match parent, k with
  | .jdict es, k => .jdict (alSet es k c)
  | .jlist xs, .idx i => .jlist (pyListSet xs i c)
  | p, _ => p

/-- The `v is None` branch of `_set_in`'s terminal step: remove a present
dict key, or overwrite a valid list slot with `None` (reporting a change
in both cases, even when the slot already held `None`); silently report
no change otherwise; raise on a non-container parent. -/
def setInTerminalNull (parent : JVal) (lastKey : PathEl) :
    Except String (JVal × Bool) :=
  match parent, lastKey with
  | .jdict es, k =>
    if alHas es k then Except.ok (.jdict (alRemove es k), true)
    else Except.ok (.jdict es, false)
  | .jlist xs, .idx i =>
    if 0 ≤ i ∧ i < (xs.length : Int) then
      Except.ok (.jlist (xs.set i.toNat JVal.null), true)
    else Except.ok (.jlist xs, false)
  | .jlist xs, .name _ => Except.ok (.jlist xs, false)
  | _, _ => Except.error "ValueError: cannot remove element at location"

/-- The concrete-value branch of `_set_in`'s terminal step: write (and
report a change) only when the stored value is not `_vals_equal` to the
new one, padding a list parent with `None` entries first; raise on a
non-container parent. -/
def setInTerminalConcrete (parent : JVal) (lastKey : PathEl) (v : JVal) :
    Except String (JVal × Bool) :=
  match parent, lastKey with
  | .jdict es, k =>
    match alGet es k with
    | some w =>
      if valsEqual w v then Except.ok (.jdict es, false)
      else Except.ok (.jdict (alSet es k v), true)
    | none => Except.ok (.jdict (alSet es k v), true)
  | .jlist xs, .idx i =>
    let xs2 := listPad xs i
    match pyListGet xs2 i with
    | some w =>
      if valsEqual w v then Except.ok (.jlist xs2, false)
      else Except.ok (.jlist (pyListSet xs2 i v), true)
    | none => Except.error "IndexError"
  | .jlist xs, .name _ => Except.ok (.jlist xs, false)
  | _, _ => Except.error "ValueError: cannot set element at location"

/-- The terminal assignment step of `_set_in` at the last key path
element: `Undefined` leaves the parent untouched; `None` and concrete
values are handled by the two branches above.  Returns the new parent and
the `val_changed` flag. -/
def setInTerminal (parent : JVal) (lastKey : PathEl) (v : JVal) :
    Except String (JVal × Bool) :=
  match v with
  | .undefined => Except.ok (parent, false)
  | .null => setInTerminalNull parent lastKey
  | v => setInTerminalConcrete parent lastKey v

/-- Recursive core of `BaseFigure._set_in` over a parsed key path:
navigate (creating or padding intermediate containers), then perform the
terminal assignment, threading the updated containers back up. -/
def setInGo : JVal → List PathEl → JVal → Except String (JVal × Bool)
  | _, [], _ => Except.error "IndexError: empty key path"
  | parent, [lastKey], v => setInTerminal parent lastKey v
  | parent, k :: next :: rest, v =>
    let parent2 := prepareChild parent k (some next)
    match getChild parent2 k with
    | Except.error e => Except.error e
    | Except.ok child =>
      match setInGo child (next :: rest) v with
      | Except.error e => Except.error e
      | Except.ok (child2, changed) =>
        Except.ok (putChild parent2 k child2, changed)

/-- `BaseFigure._set_in(d, key_path_str, v)`: asserts the root is a dict,
parses the key path string, then runs the navigation/assignment core.
Returns the updated dict together with the `val_changed` flag. -/
def setIn (d : JVal) (keyPathStr : String) (v : JVal) :
    Except String (JVal × Bool) :=
  match d with
  | .jdict _ => setInGo d (strToDictPath keyPathStr) v
  | _ => Except.error "AssertionError: d is not a dict"

/-- Raw read of the stored value at a path inside nested dicts/lists
(used to model the fresh re-read of callback argument values). -/
def getIn : JVal → List PathEl → Option JVal
  | v, [] => some v
  | .jdict es, k :: rest => (alGet es k).bind (fun w => getIn w rest)
  | .jlist xs, .idx i :: rest => (pyListGet xs i).bind (fun w => getIn w rest)
  | _, _ => none

/-! ## Serialisation of property paths

There is no serialiser in `basedatatypes.py`; the spec describes the
serialised form of a path ("joins field names with `.` and wraps indices
in `[]`").  The next definitions are modelled from that description. -/

/-- Decimal digits of a natural number, least significant first
(fuel-structured so the kernel can evaluate it; the fuel `n + 1` always
suffices). -/
def natRevDigitsGo : Nat → Nat → List Char
  | _, 0 => []
  | n, fuel + 1 =>
    let d : Char := Char.ofNat (48 + n % 10)
    if n < 10 then [d] else d :: natRevDigitsGo (n / 10) fuel

/-- Decimal digits of a natural number, least significant first. -/
def natRevDigits (n : Nat) : List Char := natRevDigitsGo n (n + 1)

/-- Decimal digits, most significant first. -/
def natDigits (n : Nat) : List Char := (natRevDigits n).reverse

/-- Modelled from the spec: the serialised form of a property path joins
field names with `.` and wraps integer indices in `[]` (no dot before a
bracket).  This is the tail of the serialisation, emitting a separating
dot before each field name. -/
def serializeTail : List PathEl → List Char
  | [] => []
  | .name s :: rest => '.' :: (s.data ++ serializeTail rest)
  | .idx n :: rest => '[' :: (natDigits n.toNat ++ (']' :: serializeTail rest))

/-- Modelled from the spec: serialised form of a whole property path
(`['foo', 0, 'bar']` becomes `"foo[0].bar"`). -/
def serializePath : List PathEl → String
  | [] => ""
  | .name s :: rest => String.mk (s.data ++ serializeTail rest)
  | .idx n :: rest => String.mk ('[' :: (natDigits n.toNat ++ (']' :: serializeTail rest)))

/-- A field name that survives the parse/serialise round trip: ASCII
(so that the `int()` and regex `\d` models above are exact), free of the
two structural characters, and not parseable as a Python int (the claim's
"not an ambiguous numeric field name"). -/
def goodName (s : String) : Bool :=
  s.data.all (fun c => decide (c.toNat < 128)) &&
    !(decide ('.' ∈ s.data)) && !(decide ('[' ∈ s.data)) && (pyToInt s).isNone

/-- Tail of a round-trippable path: every name is good, every index is
non-negative, and no index immediately follows another index. -/
def serOkTail : List PathEl → Bool
  | [] => true
  | .name s :: rest => goodName s && serOkTail rest
  | .idx n :: rest =>
    decide (0 ≤ n) &&
      (match rest with
       | .idx _ :: _ => false
       | _ => serOkTail rest)

/-- A round-trippable path: starts with a good field name, and its tail
is round-trippable. -/
def serOk : List PathEl → Bool
  | .name s :: rest => goodName s && serOkTail rest
  | _ => false

/-! ## Figure state, observable events, and external context

The figure's authoritative state (`BaseFigure._data`, `BaseFigure._layout`,
the batch flag and the two pending-edit collections) becomes a record.
Outbound sync messages (the `_send_*_msg` transport stubs) and change
callback invocations become an explicit event list so that ordering and
multiplicity claims are statable.  The generated schema classes and the
validators are external collaborators (spec section 1), so path-membership
tests (`__contains__`) are oracles carried in a context record,
`validate_coerce` is modelled as the identity, and `present` as the raw
stored value. -/

/-- Observable events: the five sync-message kinds emitted by the figure
plus one `invoke` event per change-callback invocation (`cid` identifies
the registered callback; `args` are the freshly read values at its
registered paths, `none` when the lookup finds nothing). -/
inductive Ev where
  | restyleMsg (style : List (String × JVal)) (traceIndexes : List Int)
  | relayoutMsg (layoutData : List (String × JVal))
  | updateMsg (restyleData relayoutData : List (String × JVal)) (traceIndexes : List Int)
  | deleteTracesMsg (deleteInds : List Nat)
  | moveTracesMsg (currentInds newInds : List Nat)
  | invoke (cid : Nat) (args : List (Option JVal))
deriving Repr

/-- Is this event a sync message to the front end? -/
def isSyncMsg : Ev → Bool
  | .invoke _ _ => false
  | _ => true

/-- Is this event a change-callback invocation? -/
def isInvokeEv : Ev → Bool
  | .invoke _ _ => true
  | _ => false

/-- The callback id of an invocation event. -/
def invokeCid : Ev → Option Nat
  | .invoke c _ => some c
  | _ => none

/-- How many times callback `cid` fires in an event list. -/
def countInvoke (evs : List Ev) (cid : Nat) : Nat :=
  evs.countP (fun e => invokeCid e == some cid)

/-- Every notification (callback invocation) occurs before every sync
message: once a sync message appears, no invocation may follow it. -/
def notifyPrecedesSync : List Ev → Bool
  | [] => true
  | e :: rest =>
    (if isSyncMsg e then rest.all (fun x => !isInvokeEv x) else true) &&
      notifyPrecedesSync rest

/-- Every sync message occurs before every notification. -/
def syncPrecedesNotify : List Ev → Bool
  | [] => true
  | e :: rest =>
    (if isInvokeEv e then rest.all (fun x => !isSyncMsg x) else true) &&
      syncPrecedesNotify rest

/-- One `on_change` registration on a node: the tuple of registered
property paths (`arg_tuples`) and the callbacks registered under it. -/
structure Reg where
  argPaths : List (List PathEl)
  cids : List Nat
deriving Repr, DecidableEq

/-- The `_change_callbacks` registries of the property nodes living under
one root object, keyed by the node's path below the root.  Only paths
that resolve to a `BasePlotlyType` node carry registrations. -/
abbrev NodeRegs := List (List PathEl × List Reg)

/-- All callback ids appearing in a registry. -/
def allCids (regs : NodeRegs) : List Nat :=
  regs.flatMap (fun pr => pr.2.flatMap (fun r => r.cids))

/-- External context of one figure operation: path-membership oracles for
the trace and layout schemas (standing for `__contains__`, which walks
the generated validator classes) and the callback registries, per trace
position and for the layout. -/
structure FigCtx where
  traceContains : Nat → List PathEl → Bool
  layoutContains : List PathEl → Bool
  traceRegs : List NodeRegs
  layoutRegs : NodeRegs

/-- Figure state: the authoritative per-trace property dicts
(`BaseFigure._data`), the parallel defaults (`_data_defaults`), the layout
property dict (`_layout`), the batch-mode flag and the two pending
batch-edit collections. -/
structure Figure where
  fdata : List JVal
  fdataDefaults : List JVal
  flayout : JVal
  inBatch : Bool
  batchTraceEdits : List (Nat × List (String × JVal))
  batchLayoutEdits : List (String × JVal)
deriving Repr

/-- `BaseFigure._normalize_trace_indexes` input: `None`, a scalar index,
or a list of indexes. -/
inductive TraceIndexArg where
  | noneArg
  | one (i : Int)
  | many (l : List Int)
deriving Repr

/-- `BaseFigure._normalize_trace_indexes`: `None` becomes all trace
positions in order; a scalar is wrapped in a singleton list. -/
def normalizeTraceIndexes (nTraces : Nat) : TraceIndexArg → List Int
  | .noneArg => (List.range nTraces).map (fun n => (n : Int))
  | .one i => [i]
  | .many l => l

/-- `BaseFigure._is_key_path_compatible`: parse the key path string,
strip one trailing integer element, and test membership through the
schema oracle. -/
def isKeyPathCompatible (contains : List PathEl → Bool) (keyPathStr : String) : Bool :=
  contains (stripTrailingIdx (strToDictPath keyPathStr))

/-- `trace_v = v[i % len(v)] if isinstance(v, list) else v`: the restyle
value for the trace at enumeration position `i`; a list value is cycled
modulo its length (`ZeroDivisionError` on an empty list), any other value
is used as is. -/
def cycledValue (v : JVal) (i : Nat) : Except String JVal :=
  match v with
  | .jlist xs =>
    match xs with
    | [] => Except.error "ZeroDivisionError: integer division or modulo by zero"
    | _ => Except.ok (xs.getD (i % xs.length) JVal.null)
  | v => Except.ok v

/-- The `Undefined` identity test `trace_v is not Undefined` (negated). -/
def JVal.isUndefined : JVal → Bool
  | .undefined => true
  | _ => false

/-- The inner loop of `BaseFigure._perform_plotly_restyle` for one
`(key_path_str, v)` item: walk the enumerated target trace indexes,
checking the range, cycling the value, skipping `Undefined`, checking path
compatibility, and applying `_set_in` to that trace's property dict.
Returns the (possibly partially) updated trace dicts and either the
`any_vals_changed` flag or the raised error. -/
def restyleKeyStep (tc : Nat → List PathEl → Bool) (keyPathStr : String)
    (v : JVal) :
    List JVal → Nat → List Int → Bool → List JVal × Except String Bool
  | data, _, [], anyChanged => (data, Except.ok anyChanged)
  | data, i, ti :: rest, anyChanged =>
    if (data.length : Int) ≤ ti then
      (data, Except.error "ValueError: Trace index out of range")
    else
      match cycledValue v i with
      | Except.error e => (data, Except.error e)
      | Except.ok traceV =>
        if traceV.isUndefined then
          restyleKeyStep tc keyPathStr v data (i + 1) rest anyChanged
        else
          match pyResolveIdx data.length ti with
          | none => (data, Except.error "IndexError: list index out of range")
          | some pos =>
            if !isKeyPathCompatible (tc pos) keyPathStr then
              (data, Except.error "ValueError: Invalid property path for trace class")
            else
              match setIn (data.getD pos (.jdict [])) keyPathStr traceV with
              | Except.error e => (data, Except.error e)
              | Except.ok (tr2, ch) =>
                restyleKeyStep tc keyPathStr v (data.set pos tr2) (i + 1) rest
                  (anyChanged || ch)

/-- `BaseFigure._perform_plotly_restyle`: process each restyle item in
order, collecting into the changeset exactly the items whose pass changed
at least one targeted trace dict. -/
def performRestyleGo (tc : Nat → List PathEl → Bool) :
    List JVal → List (String × JVal) → List Int → List (String × JVal) →
    List JVal × Except String (List (String × JVal))
  | data, [], _, changes => (data, Except.ok changes)
  | data, (k, v) :: restKeys, tis, changes =>
    match restyleKeyStep tc k v data 0 tis false with
    | (data2, Except.error e) => (data2, Except.error e)
    | (data2, Except.ok anyChanged) =>
      performRestyleGo tc data2 restKeys tis
        (if anyChanged then changes ++ [(k, v)] else changes)

/-- `BaseFigure._perform_plotly_restyle` (entry point). -/
def performRestyle (tc : Nat → List PathEl → Bool) (data : List JVal)
    (rd : List (String × JVal)) (tis : List Int) :
    List JVal × Except String (List (String × JVal)) :=
  performRestyleGo tc data rd tis []

/-- `BaseFigure._perform_plotly_relayout`: apply each relayout item to
the layout dict after a compatibility check, collecting the items that
changed the layout dict. -/
def performRelayoutGo (lc : List PathEl → Bool) :
    JVal → List (String × JVal) → List (String × JVal) →
    JVal × Except String (List (String × JVal))
  | layout, [], changes => (layout, Except.ok changes)
  | layout, (k, v) :: rest, changes =>
    if !isKeyPathCompatible lc k then
      (layout, Except.error "ValueError: Invalid property path for layout")
    else
      match setIn layout k v with
      | Except.error e => (layout, Except.error e)
      | Except.ok (l2, ch) =>
        performRelayoutGo lc l2 rest (if ch then changes ++ [(k, v)] else changes)

/-- `BaseFigure._perform_plotly_relayout` (entry point). -/
def performRelayout (lc : List PathEl → Bool) (layout : JVal)
    (rld : List (String × JVal)) :
    JVal × Except String (List (String × JVal)) :=
  performRelayoutGo lc layout rld []

/-! ## Change-callback dispatch -/

/-- Append values under a key of an association list whose values are
lists, creating the key at the end when absent (mirrors
`dispatch_plan[key] = set()` followed by `update`). -/
def alAppend {κ β : Type} [DecidableEq κ] :
    List (κ × List β) → κ → List β → List (κ × List β)
  | [], k, vs => [(k, vs)]
  | (k2, l) :: rest, k, vs =>
    if k2 = k then (k2, l ++ vs) :: rest else (k2, l) :: alAppend rest k vs

/-- The nonempty prefixes of a path
(`[keys_left[:i+1] for i in range(len(keys_left))]`). -/
def nePrefixes (l : List PathEl) : List (List PathEl) :=
  (List.range l.length).map (fun i => l.take (i + 1))

/-- A dispatch plan: for each proper ancestor prefix of some changed key
path, the touched path suffixes below it (a Python `set`; only membership
is ever consulted, so duplicates in the list are harmless). -/
abbrev DispatchPlan := List (List PathEl × List (List PathEl))

/-- The inner loop of `BaseFigure._build_dispatch_plan` for one parsed
key path: walk down the path, adding all nonempty prefixes of the
remaining path under the prefix walked so far. -/
def buildPlanGo : DispatchPlan → List PathEl → List PathEl → DispatchPlan
  | plan, _, [] => plan
  | plan, pre, next :: rest =>
    buildPlanGo (alAppend plan pre (nePrefixes (next :: rest))) (pre ++ [next]) rest

/-- `BaseFigure._build_dispatch_plan` over the changed key path strings. -/
def buildDispatchPlan (keys : List String) : DispatchPlan :=
  keys.foldl (fun plan k => buildPlanGo plan [] (strToDictPath k)) []

/-- The registrations of the node at a prefix (empty when the prefix does
not resolve to a registered `BasePlotlyType`). -/
def regsAt (regs : NodeRegs) (pre : List PathEl) : List Reg :=
  (alGet regs pre).getD []

/-- `BasePlotlyType._dispatch_change_callbacks` for one node: every
registration whose path set intersects the touched suffixes fires all of
its callbacks once, with the current value freshly read at each of its
originally registered paths (relative to the node, i.e. at
`pre ++ argPath` below the root). -/
def dispatchRegsAt (regs : List Reg) (suffixes : List (List PathEl))
    (root : JVal) (pre : List PathEl) : List Ev :=
  regs.flatMap (fun reg =>
    if reg.argPaths.any (fun a => suffixes.contains a) then
      let args := reg.argPaths.map (fun a => getIn root (pre ++ a))
      reg.cids.map (fun c => Ev.invoke c args)
    else [])

/-- `BaseFigure._dispatch_layout_change_callbacks`. -/
def dispatchLayoutCbs (ctx : FigCtx) (keys : List String) (layout : JVal) :
    List Ev :=
  (buildDispatchPlan keys).flatMap (fun pc =>
    dispatchRegsAt (regsAt ctx.layoutRegs pc.1) pc.2 layout pc.1)

/-- `BaseFigure._dispatch_trace_change_callbacks`: for each plan entry,
dispatch on the node of every targeted trace in turn. -/
def dispatchTraceCbs (ctx : FigCtx) (keys : List String) (tis : List Int)
    (data : List JVal) : List Ev :=
  (buildDispatchPlan keys).flatMap (fun pc =>
    tis.flatMap (fun ti =>
      match pyResolveIdx data.length ti with
      | some pos =>
        dispatchRegsAt (regsAt (ctx.traceRegs.getD pos []) pc.1) pc.2
          (data.getD pos (.jdict [])) pc.1
      | none => []))

/-! ## The three figure mutation operations -/

/-- Result of one figure operation: the new figure state (partial when an
error was raised mid-operation, as the Python code mutates in place), the
emitted events, and the raised error if any. -/
structure OpResult where
  fig : Figure
  events : List Ev
  err : Option String
deriving Repr

/-- `BaseFigure.plotly_restyle`: normalize the trace indexes, perform the
restyle on the trace dicts, and if the changeset is nonempty send the
restyle message and then dispatch the trace change callbacks. -/
def plotlyRestyle (ctx : FigCtx) (f : Figure) (rd : List (String × JVal))
    (tia : TraceIndexArg) : OpResult :=
  let tis := normalizeTraceIndexes f.fdata.length tia
  match performRestyle ctx.traceContains f.fdata rd tis with
  | (data2, Except.error e) => ⟨{f with fdata := data2}, [], some e⟩
  | (data2, Except.ok changes) =>
    let f2 := {f with fdata := data2}
    if changes.isEmpty then ⟨f2, [], none⟩
    else
      ⟨f2,
        Ev.restyleMsg changes tis ::
          dispatchTraceCbs ctx (changes.map (fun c => c.1)) tis data2,
        none⟩

/-- `BaseFigure.plotly_relayout`: perform the relayout on the layout
dict, and if the changeset is nonempty send the relayout message and then
dispatch the layout change callbacks. -/
def plotlyRelayout (ctx : FigCtx) (f : Figure) (rld : List (String × JVal)) :
    OpResult :=
  match performRelayout ctx.layoutContains f.flayout rld with
  | (l2, Except.error e) => ⟨{f with flayout := l2}, [], some e⟩
  | (l2, Except.ok changes) =>
    let f2 := {f with flayout := l2}
    if changes.isEmpty then ⟨f2, [], none⟩
    else
      ⟨f2,
        Ev.relayoutMsg changes ::
          dispatchLayoutCbs ctx (changes.map (fun c => c.1)) l2,
        none⟩

/-- `BaseFigure._perform_plotly_update`: early exit when both update
dicts are falsy, otherwise relayout first, then restyle. -/
def performUpdate (ctx : FigCtx) (f : Figure)
    (rd rld : Option (List (String × JVal))) (tia : TraceIndexArg) :
    Figure ×
      Except String
        (Option (List (String × JVal) × List (String × JVal) × List Int)) :=
  if (rd.getD []).isEmpty && (rld.getD []).isEmpty then (f, Except.ok none)
  else
    let tis := normalizeTraceIndexes f.fdata.length tia
    match performRelayout ctx.layoutContains f.flayout (rld.getD []) with
    | (l2, Except.error e) => ({f with flayout := l2}, Except.error e)
    | (l2, Except.ok rlyChanges) =>
      match performRestyle ctx.traceContains f.fdata (rd.getD []) tis with
      | (data2, Except.error e) =>
        ({f with flayout := l2, fdata := data2}, Except.error e)
      | (data2, Except.ok rstChanges) =>
        ({f with flayout := l2, fdata := data2},
          Except.ok (some (rstChanges, rlyChanges, tis)))

/-- `BaseFigure.plotly_update`: perform the update; send one update
message when either changeset is nonempty; then dispatch trace callbacks
(when the restyle changeset is nonempty) followed by layout callbacks
(when the relayout changeset is nonempty). -/
def plotlyUpdate (ctx : FigCtx) (f : Figure)
    (rd rld : Option (List (String × JVal))) (tia : TraceIndexArg) :
    OpResult :=
  match performUpdate ctx f rd rld tia with
  | (f2, Except.error e) => ⟨f2, [], some e⟩
  | (f2, Except.ok none) => ⟨f2, [], none⟩
  | (f2, Except.ok (some (rst, rly, tis))) =>
    let msgEvs :=
      if !rst.isEmpty || !rly.isEmpty then [Ev.updateMsg rst rly tis] else []
    let rstDispatch :=
      if !rst.isEmpty then
        dispatchTraceCbs ctx (rst.map (fun c => c.1)) tis f2.fdata
      else []
    let rlyDispatch :=
      if !rly.isEmpty then
        dispatchLayoutCbs ctx (rly.map (fun c => c.1)) f2.flayout
      else []
    ⟨f2, msgEvs ++ rstDispatch ++ rlyDispatch, none⟩

/-! ## Property writes through the object hierarchy and batch mode

A scalar property assignment on a node attached under a figure reaches
`BasePlotlyType._set_prop`, whose effective properties dict is a slot of
the figure's authoritative state located at the node's path; the
notification bubbles up through `_send_prop_set` / `_prop_set_child`
building a dotted key path string, and reaches the figure's
`_restyle_child` / `_relayout_child`, which either emit and dispatch
immediately or record into the pending batch-edit collections. -/

/-- `BasePlotlyType._props` resolution through a chain of
`_get_child_props` calls: a compound child is `parent_props.get(name)`
(missing means uninitialized, i.e. `None`), a compound-array element is
the list slot when the list is long enough. -/
def childPropsAt : Option JVal → List PathEl → Option JVal
  | none, _ => none
  | some v, [] => some v
  | some (.jdict es), .name s :: rest => childPropsAt (alGet es (.name s)) rest
  | some (.jlist xs), .idx i :: rest =>
    childPropsAt (if 0 ≤ i then xs[i.toNat]? else none) rest
  | some _, _ => none

/-- `BasePlotlyType._init_props` through `_init_child_props`: ensure a
properties dict exists at the node's path, inserting `{}` for a missing
compound child and creating/padding a list of `{}` entries for a
compound-array child. -/
def initChildPropsAt : JVal → List PathEl → JVal
  | root, [] => root
  | .jdict es, .name s :: .idx i :: rest =>
    let n := i.toNat
    let xs :=
      match alGet es (.name s) with
      | some (.jlist xs) => xs
      | _ => []
    let xs2 := xs ++ List.replicate (n + 1 - xs.length) (JVal.jdict [])
    let elem2 := initChildPropsAt (xs2.getD n (.jdict [])) rest
    .jdict (alSet es (.name s) (.jlist (xs2.set n elem2)))
  | .jdict es, .name s :: rest =>
    let child :=
      match alGet es (.name s) with
      | some c => c
      | none => .jdict []
    .jdict (alSet es (.name s) (initChildPropsAt child rest))
  | root, _ => root

/-- Rewrite the properties dict of the node at a path inside the root
value, leaving the root unchanged when the path does not resolve. -/
def mapNodeProps : JVal → List PathEl → (JEntries → JEntries) → JVal
  | .jdict es, [], fn => .jdict (fn es)
  | .jdict es, .name s :: rest, fn =>
    match alGet es (.name s) with
    | some c => .jdict (alSet es (.name s) (mapNodeProps c rest fn))
    | none => .jdict es
  | .jlist xs, .idx i :: rest, fn =>
    if 0 ≤ i then
      match xs[i.toNat]? with
      | some c => .jlist (xs.set i.toNat (mapNodeProps c rest fn))
      | none => .jlist xs
    else .jlist xs
  | v, _, _ => v

/-- Decimal rendering of a path element, as used by `_prop_set_child`
(`'name.ind.prop'`; array indexes are emitted as bare decimal segments,
not in brackets). -/
def pathElStr : PathEl → String
  | .name s => s
  | .idx i => String.mk (natDigits i.toNat)

/-- The dotted key path string built by the `_send_prop_set` /
`_prop_set_child` bubbling from a node at `nodePath` for property
`prop`. -/
def dotJoinPath (nodePath : List PathEl) (prop : String) : String :=
  String.intercalate "." ((nodePath ++ [PathEl.name prop]).map pathElStr)

/-- Target of a property write: a trace node (by trace position, the
identity index computed by `_index_is`) or the layout node. -/
inductive PropTarget where
  | trace (t : Nat)
  | layout
deriving Repr, DecidableEq

/-- The figure's `_restyle_child` / `_relayout_child`: outside batch mode,
send the restyle/relayout message for this single property and dispatch
the change callbacks; in batch mode, record the edit in the pending
batch collections instead. -/
def propSetChildRoot (ctx : FigCtx) (f : Figure) (tgt : PropTarget)
    (kps : String) (val : JVal) : Figure × List Ev :=
  match tgt with
  | .trace t =>
    if !f.inBatch then
      (f,
        Ev.restyleMsg [(kps, .jlist [val])] [(t : Int)] ::
          dispatchTraceCbs ctx [kps] [(t : Int)] f.fdata)
    else
      ({f with
          batchTraceEdits :=
            alSet f.batchTraceEdits t
              (alSet ((alGet f.batchTraceEdits t).getD []) kps val)},
        [])
  | .layout =>
    if !f.inBatch then
      (f,
        Ev.relayoutMsg [(kps, val)] ::
          dispatchLayoutCbs ctx [kps] f.flayout)
    else
      ({f with batchLayoutEdits := alSet f.batchLayoutEdits kps val}, [])

/-- The root state dict of a write target. -/
def targetRoot (f : Figure) (tgt : PropTarget) : JVal :=
  match tgt with
  | .trace t => f.fdata.getD t (.jdict [])
  | .layout => f.flayout

/-- Store back the root state dict of a write target. -/
def setTargetRoot (f : Figure) (tgt : PropTarget) (root : JVal) : Figure :=
  match tgt with
  | .trace t => {f with fdata := f.fdata.set t root}
  | .layout => {f with flayout := root}

/-- `BasePlotlyType._set_prop` for a node at `nodePath` under the target
root: `Undefined` returns immediately; `None` removes the property (and
notifies) only when the node's dict is truthy and holds the property;
a concrete value first runs `_init_props` (which creates containers in
the authoritative state even in batch mode), then writes and notifies
only when the stored value differs.  State writes are skipped in batch
mode; the notification is routed through `propSetChildRoot`.
`validate_coerce` is modelled as the identity. -/
def setProp (ctx : FigCtx) (f : Figure) (tgt : PropTarget)
    (nodePath : List PathEl) (prop : String) (v : JVal) : Figure × List Ev :=
  match v with
  | .undefined => (f, [])
  | .null =>
    let props := childPropsAt (some (targetRoot f tgt)) nodePath
    let hasIt :=
      match props with
      | some (.jdict es) => !es.isEmpty && alHas es (.name prop)
      | _ => false
    if hasIt then
      let f2 :=
        if !f.inBatch then
          setTargetRoot f tgt
            (mapNodeProps (targetRoot f tgt) nodePath
              (fun es => alRemove es (.name prop)))
        else f
      propSetChildRoot ctx f2 tgt (dotJoinPath nodePath prop) JVal.null
    else (f, [])
  | v =>
    let root2 := initChildPropsAt (targetRoot f tgt) nodePath
    let f1 := setTargetRoot f tgt root2
    let changed :=
      match childPropsAt (some root2) nodePath with
      | some (.jdict es) =>
        match alGet es (.name prop) with
        | some w => !valsEqual w v
        | none => true
      | _ => false
    if changed then
      let f2 :=
        if !f1.inBatch then
          setTargetRoot f1 tgt
            (mapNodeProps root2 nodePath (fun es => alSet es (.name prop) v))
        else f1
      propSetChildRoot ctx f2 tgt (dotJoinPath nodePath prop) v
    else (f1, [])

/-- One property write performed inside (or outside) a `batch_update`
body. -/
inductive BatchOp where
  | traceWrite (t : Nat) (nodePath : List PathEl) (prop : String) (v : JVal)
  | layoutWrite (nodePath : List PathEl) (prop : String) (v : JVal)

/-- Apply one property write. -/
def applyBatchOp (ctx : FigCtx) (f : Figure) : BatchOp → Figure × List Ev
  | .traceWrite t np prop v => setProp ctx f (.trace t) np prop v
  | .layoutWrite np prop v => setProp ctx f .layout np prop v

/-- Apply a sequence of property writes, accumulating events. -/
def applyBatchOps (ctx : FigCtx) (f : Figure) (ops : List BatchOp) :
    Figure × List Ev :=
  ops.foldl
    (fun acc op =>
      let r := applyBatchOp ctx acc.1 op
      (r.1, acc.2 ++ r.2))
    (f, [])

/-- Insert into a sorted list (kernel-computable sorting, standing for
Python `sorted`). -/
def insertLe {α : Type} (le : α → α → Bool) (a : α) : List α → List α
  | [] => [a]
  | b :: rest => if le a b then a :: b :: rest else b :: insertLe le a rest

/-- Insertion sort by a Boolean order, standing for Python `sorted`. -/
def sortLe {α : Type} (le : α → α → Bool) : List α → List α
  | [] => []
  | a :: rest => insertLe le a (sortLe le rest)

/-- `sorted(set(l))` for naturals. -/
def sortedDedupNat (l : List Nat) : List Nat :=
  sortLe (fun a b => decide (a ≤ b)) l.eraseDups

/-- `sorted(set(l))` for strings (Python compares strings by code
points). -/
def sortedDedupStr (l : List String) : List String :=
  sortLe (fun a b => decide (a ≤ b)) l.eraseDups

/-- Replace one slot of a list value (used to fill a batch restyle value
list). -/
def fillSlot (v : JVal) (pos : Nat) (w : JVal) : JVal :=
  match v with
  | .jlist l => .jlist (l.set pos w)
  | x => x

/-- `BaseFigure._build_update_params_from_batch`: the target trace
indexes are the sorted distinct keys of `_batch_trace_edits`; for every
property appearing in any trace's edits, the restyle value is a list with
one slot per target index, `Undefined`-padded, filled with each trace's
recorded value; the relayout data is the pending layout edit dict. -/
def buildUpdateParamsFromBatch (f : Figure) :
    List (String × JVal) × List (String × JVal) × List Int :=
  let tis := sortedDedupNat (f.batchTraceEdits.map (fun e => e.1))
  let allProps :=
    sortedDedupStr
      (f.batchTraceEdits.flatMap (fun te => te.2.map (fun pv => pv.1)))
  let restyle0 : List (String × JVal) :=
    allProps.map
      (fun p => (p, JVal.jlist (List.replicate tis.length JVal.undefined)))
  let restyleData :=
    f.batchTraceEdits.foldl
      (fun acc te =>
        te.2.foldl
          (fun acc2 pv =>
            let pos := tis.indexOf te.1
            alSet acc2 pv.1 (fillSlot ((alGet acc2 pv.1).getD JVal.null) pos pv.2))
          acc)
      restyle0
  (restyleData, f.batchLayoutEdits, tis.map (fun n => (n : Int)))

/-- The `finally` block of `BaseFigure.batch_update` on outermost exit:
clear the batch flag, build the update params from the pending edits, run
`plotly_update`, then clear the pending edit collections (skipped, as in
Python, when `plotly_update` raises). -/
def batchUpdateExit (ctx : FigCtx) (f : Figure) : Figure × List Ev × Option String :=
  let f1 := {f with inBatch := false}
  let p := buildUpdateParamsFromBatch f1
  let r := plotlyUpdate ctx f1 (some p.1) (some p.2.1) (.many p.2.2)
  match r.err with
  | some e => (r.fig, r.events, some e)
  | none => ({r.fig with batchTraceEdits := [], batchLayoutEdits := []}, r.events, none)

/-- `with fig.batch_update(): body` where the body performs `ops` and
returns normally: an already-open batch is a pass-through (`yield` with
no `finally`), otherwise the flag is set, the body runs, and the
`finally` block commits. -/
def batchUpdateRun (ctx : FigCtx) (f : Figure) (ops : List BatchOp) :
    Figure × List Ev × Option String :=
  if f.inBatch then
    let (f2, evs) := applyBatchOps ctx f ops
    (f2, evs, none)
  else
    let (f2, evs) := applyBatchOps ctx {f with inBatch := true} ops
    let (f3, evs2, err) := batchUpdateExit ctx f2
    (f3, evs ++ evs2, err)

/-- `with fig.batch_update(): body` where the body performs `ops` and
then raises `exc`: the generator-based context manager still executes the
`finally` block on the outermost level before the exception propagates.
If the commit's `plotly_update` itself raises inside the `finally`, that
exception supersedes the body's (Python's semantics for an exception
raised in a `finally` block); a nested (pass-through) level has no
`finally` and just propagates the body's exception. -/
def batchUpdateRaise (ctx : FigCtx) (f : Figure) (ops : List BatchOp)
    (exc : String) : Figure × List Ev × Option String :=
  if f.inBatch then
    let (f2, evs) := applyBatchOps ctx f ops
    (f2, evs, some exc)
  else
    let (f2, evs) := applyBatchOps ctx {f with inBatch := true} ops
    let (f3, evs2, err) := batchUpdateExit ctx f2
    (f3, evs ++ evs2, some (err.getD exc))

/-- The figure state after the body of an outermost `batch_update` block
has run and the exit handler has cleared the batch flag (but before the
commit): the input to `_build_update_params_from_batch`. -/
def batchBody (ctx : FigCtx) (f : Figure) (ops : List BatchOp) : Figure :=
  {(applyBatchOps ctx {f with inBatch := true} ops).1 with inBatch := false}

/-! ## The `data` setter (bulk trace removal / reordering) -/

/-- One element of the value assigned to `figure.data`: either a trace
node (carrying its `uid`) or some other value. -/
inductive DataElem where
  | traceElem (uid : String)
  | notTrace
deriving Repr, DecidableEq

/-- The value assigned to `figure.data`: a list/tuple of elements, or a
value of some other type. -/
inductive DataArg where
  | notSeq
  | seq (elems : List DataElem)
deriving Repr, DecidableEq

/-- `_trace['uid']` on one entry of `BaseFigure._data` (uids are modelled
as strings, their concrete type in the library). -/
def jdictUid : JVal → Except String String
  | .jdict es =>
    match alGet es (.name "uid") with
    | some (.js u) => Except.ok u
    | some _ => Except.error "TypeError: uid is not a string"
    | none => Except.error "KeyError: uid"
  | _ => Except.error "TypeError: trace data is not a dict"

/-- `[_trace['uid'] for _trace in self._data]`. -/
def origUidsOf (data : List JVal) : Except String (List String) :=
  data.mapM jdictUid

/-- Does the list contain a duplicate (the `collections.Counter` check)? -/
def hasDup : List String → Bool
  | [] => false
  | x :: rest => rest.contains x || hasDup rest

/-- The `data` property setter of `BaseFigure`: validate that the input
is a sequence of trace nodes forming a duplicate-free selection of the
current uids, then delete the traces whose uid disappeared (emitting a
delete message), reorder the remainder to the new uid order (emitting a
move message only for a non-identity permutation), and install the new
collections.  All four validations precede any state mutation, as in the
source. -/
def setData (f : Figure) (arg : DataArg) : Figure × List Ev × Option String :=
  match arg with
  | .notSeq => (f, [], some "ValueError: data must be assigned a list or tuple")
  | .seq elems =>
    if elems.any (fun e => match e with | .notTrace => true | _ => false) then
      (f, [], some "ValueError: received element that is not a trace")
    else
      match origUidsOf f.fdata with
      | Except.error e => (f, [], some e)
      | Except.ok origU =>
        let newUids :=
          elems.filterMap
            (fun e => match e with | .traceElem u => some u | _ => none)
        if !newUids.all (fun u => origU.contains u) then
          (f, [], some "ValueError: invalid trace uids")
        else if hasDup newUids then
          (f, [], some "ValueError: duplicated trace uids")
        else
          let paired := origU.zip f.fdata
          let pairedDef := origU.zip f.fdataDefaults
          let deleteInds :=
            (List.range origU.length).filter
              (fun i => !newUids.contains (origU.getD i ""))
          let kept := paired.filter (fun p => newUids.contains p.1)
          let keptDef := pairedDef.filter (fun p => newUids.contains p.1)
          let evDel :=
            if deleteInds.isEmpty then [] else [Ev.deleteTracesMsg deleteInds]
          let newInds := kept.map (fun p => newUids.indexOf p.1)
          let currentInds := List.range kept.length
          let needMove := !(newInds == currentInds)
          let evMove :=
            if needMove then [Ev.moveTracesMsg currentInds newInds] else []
          let sortedData :=
            (sortLe (fun a b => decide (a.1 ≤ b.1))
                (newInds.zip (kept.map (fun p => p.2)))).map
              (fun p => p.2)
          let dataFinal := if needMove then sortedData else kept.map (fun p => p.2)
          let defFinal :=
            (sortLe (fun a b => decide (a.1 ≤ b.1))
                (newInds.zip (keptDef.map (fun p => p.2)))).map
              (fun p => p.2)
          ({f with fdata := dataFinal, fdataDefaults := defFinal},
            evDel ++ evMove, none)

/-! ## Auxiliary notions used only in theorem statements -/

/-- `a` is an initial segment of `l` (used to phrase "a change at or
strictly below a registered path", at any depth). -/
def pathLeads : List PathEl → List PathEl → Bool
  | [], _ => true
  | _ :: _, [] => false
  | x :: xs, y :: ys => decide (x = y) && pathLeads xs ys

/-- Membership of a suffix in a dispatch plan entry. -/
def planMem (plan : DispatchPlan) (pre a : List PathEl) : Bool :=
  match alGet plan pre with
  | some sfx => sfx.contains a
  | none => false

/-- All callback ids registered at one node path of a registry. -/
def cidsAt (regs : NodeRegs) (p : List PathEl) : List Nat :=
  (regsAt regs p).flatMap (fun r => r.cids)

/-- The navigation part of `_set_in` needs no container creation, no list
padding and no failing lookup along this path inside this value: every
intermediate dict key is present and every intermediate list index is
below the length. -/
def noCreatePath : JVal → List PathEl → Bool
  | _, [] => true
  | _, [_] => true
  | parent, k :: next :: rest =>
    match parent, k with
    | .jdict es, k =>
      match alGet es k with
      | some child => noCreatePath child (next :: rest)
      | none => false
    | .jlist xs, .idx i =>
      decide (i < (xs.length : Int)) &&
        (match pyListGet xs i with
         | some child => noCreatePath child (next :: rest)
         | none => false)
    | _, _ => false

/-- A figure context whose schema oracles accept every path, with one
registered callback (id 7) on the root node of trace 0 watching path
`a`, and one (id 5) on the layout root watching path `a`. -/
def cexCtx : FigCtx :=
  { traceContains := fun _ _ => true
    layoutContains := fun _ => true
    traceRegs := [[([], [⟨[[.name "a"]], [7]⟩])]]
    layoutRegs := [([], [⟨[[.name "a"]], [5]⟩])] }

/-- A one-trace figure with empty trace and layout dicts, not in batch
mode. -/
def cexFig : Figure :=
  ⟨[.jdict []], [.jdict []], .jdict [], false, [], []⟩

/-- Reference (spec-shaped) formulation of `_perform_plotly_restyle`: the
changeset is the filter of the edit items by the per-item
`any_vals_changed` flag of its pass, rather than an accumulator. -/
def restyleSpecGo (tc : Nat → List PathEl → Bool) :
    List JVal → List (String × JVal) → List Int →
    List JVal × Except String (List (String × JVal))
  | data, [], _ => (data, Except.ok [])
  | data, (k, v) :: restKeys, tis =>
    match restyleKeyStep tc k v data 0 tis false with
    | (d2, Except.error e) => (d2, Except.error e)
    | (d2, Except.ok flag) =>
      match restyleSpecGo tc d2 restKeys tis with
      | (d3, Except.error e) => (d3, Except.error e)
      | (d3, Except.ok ch) =>
        (d3, Except.ok (if flag then (k, v) :: ch else ch))

/-! ## Supporting lemmas -/

theorem alGet_alSet_self {κ α : Type} [DecidableEq κ] (es : List (κ × α))
    (k : κ) (v : α) : alGet (alSet es k v) k = some v := by
  induction es with
  | nil => simp [alSet, alGet]
  | cons e rest ih =>
    obtain ⟨k2, w⟩ := e
    by_cases h : k2 = k
    · subst h; simp [alSet, alGet]
    · simp [alSet, alGet, h, ih]

theorem alSet_alSet_self {κ α : Type} [DecidableEq κ] (es : List (κ × α))
    (k : κ) (v w : α) : alSet (alSet es k v) k w = alSet es k w := by
  induction es with
  | nil => simp [alSet]
  | cons e rest ih =>
    obtain ⟨k2, u⟩ := e
    by_cases h : k2 = k
    · subst h; simp [alSet]
    · simp [alSet, h, ih]

theorem alSet_of_alGet {κ α : Type} [DecidableEq κ] (es : List (κ × α))
    (k : κ) (v : α) (h : alGet es k = some v) : alSet es k v = es := by
  induction es with
  | nil => simp [alGet] at h
  | cons e rest ih =>
    obtain ⟨k2, u⟩ := e
    by_cases hk : k2 = k
    · subst hk
      simp [alGet] at h
      simp [alSet, h]
    · simp [alGet, hk] at h
      simp [alSet, hk, ih h]

theorem alHas_alSet_self {κ α : Type} [DecidableEq κ] (es : List (κ × α))
    (k : κ) (v : α) : alHas (alSet es k v) k = true := by
  simp [alHas, alGet_alSet_self]

theorem listGetq_set_self (xs : List JVal) (j : Nat) (v : JVal)
    (h : xs[j]? = some v) : xs.set j v = xs := by
  induction xs generalizing j with
  | nil => simp at h
  | cons x rest ih =>
    cases j with
    | zero => simp at h; simp [h]
    | succ j2 => simp at h; simp [ih j2 h]

theorem listGetq_set_eq (xs : List JVal) (j : Nat) (v : JVal)
    (h : j < xs.length) : (xs.set j v)[j]? = some v := by
  induction xs generalizing j with
  | nil => simp at h
  | cons x rest ih =>
    cases j with
    | zero => simp
    | succ j2 =>
      simp only [List.length_cons, Nat.succ_lt_succ_iff] at h
      simpa using ih j2 h

theorem listPad_of_lt (xs : List JVal) (i : Int) (h : i < (xs.length : Int)) :
    listPad xs i = xs := by
  unfold listPad
  by_cases h0 : i < 0
  · simp [h0]
  · have : i.toNat + 1 - xs.length = 0 := by omega
    simp [h0, this]

theorem listPad_length (xs : List JVal) (i : Int) (h : 0 ≤ i) :
    (listPad xs i).length = max xs.length (i.toNat + 1) := by
  unfold listPad
  have : ¬i < 0 := by omega
  simp [this]
  omega

theorem pyResolveIdx_of_nonneg (len : Nat) (i : Int) (h0 : 0 ≤ i)
    (h1 : i < (len : Int)) : pyResolveIdx len i = some i.toNat := by
  simp [pyResolveIdx, h0, h1]

theorem pyResolveIdx_lt (len : Nat) (i : Int) (j : Nat)
    (h : pyResolveIdx len i = some j) : j < len := by
  unfold pyResolveIdx at h
  split at h
  · split at h
    · simp at h; omega
    · simp at h
  · dsimp only at h
    split at h
    · simp at h; omega
    · simp at h

theorem alHas_of_mem {κ α : Type} [DecidableEq κ] {es : List (κ × α)}
    {k : κ} {v : α} (h : (k, v) ∈ es) : alHas es k = true := by
  induction es with
  | nil => simp at h
  | cons e rest ih =>
    obtain ⟨k2, w⟩ := e
    rcases List.mem_cons.mp h with h1 | h1
    · cases h1; simp [alHas, alGet]
    · by_cases hk : k2 = k
      · simp [alHas, alGet, hk]
      · simpa [alHas, alGet, hk] using ih h1

theorem alGet_of_nodupKeys {κ α : Type} [DecidableEq κ] {es : List (κ × α)}
    (hn : nodupKeys es = true) {k : κ} {v : α} (h : (k, v) ∈ es) :
    alGet es k = some v := by
  induction es with
  | nil => simp at h
  | cons e rest ih =>
    obtain ⟨k2, w⟩ := e
    simp only [nodupKeys, Bool.and_eq_true, Bool.not_eq_true'] at hn
    rcases List.mem_cons.mp h with h1 | h1
    · cases h1; simp [alGet]
    · by_cases hk : k2 = k
      · subst hk
        have := alHas_of_mem h1
        rw [this] at hn
        simp at hn
      · simpa [alGet, hk] using ih hn.2 h1

theorem wfList_mem {xs : List JVal} (hw : wfList xs = true) {x : JVal}
    (h : x ∈ xs) : wfVal x = true := by
  induction xs with
  | nil => simp at h
  | cons y rest ih =>
    simp only [wfList, Bool.and_eq_true] at hw
    rcases List.mem_cons.mp h with h1 | h1
    · subst h1; exact hw.1
    · exact ih hw.2 h1

theorem wfEntries_mem {es : JEntries} (hw : wfEntries es = true)
    {e : PathEl × JVal} (h : e ∈ es) : wfVal e.2 = true := by
  induction es with
  | nil => simp at h
  | cons y rest ih =>
    obtain ⟨k, v⟩ := y
    simp only [wfEntries, Bool.and_eq_true] at hw
    rcases List.mem_cons.mp h with h1 | h1
    · subst h1; exact hw.1
    · exact ih hw.2 h1

theorem nanFreeList_mem {xs : List JVal} (hw : nanFreeList xs = true)
    {x : JVal} (h : x ∈ xs) : nanFree x = true := by
  induction xs with
  | nil => simp at h
  | cons y rest ih =>
    simp only [nanFreeList, Bool.and_eq_true] at hw
    rcases List.mem_cons.mp h with h1 | h1
    · subst h1; exact hw.1
    · exact ih hw.2 h1

theorem nanFreeEntries_mem {es : JEntries} (hw : nanFreeEntries es = true)
    {e : PathEl × JVal} (h : e ∈ es) : nanFree e.2 = true := by
  induction es with
  | nil => simp at h
  | cons y rest ih =>
    obtain ⟨k, v⟩ := y
    simp only [nanFreeEntries, Bool.and_eq_true] at hw
    rcases List.mem_cons.mp h with h1 | h1
    · subst h1; exact hw.1
    · exact ih hw.2 h1

theorem valsEqualZip_of_refl (xs : List JVal)
    (h : ∀ x ∈ xs, valsEqual x x = true) : valsEqualZip xs xs = true := by
  induction xs with
  | nil => rfl
  | cons x rest ih =>
    simp only [valsEqualZip, Bool.and_eq_true]
    exact ⟨h x (by simp), ih (fun y hy => h y (by simp [hy]))⟩

theorem valsEqualEntries_of (xs ys : JEntries)
    (h : ∀ e ∈ xs, ∃ w, alGet ys e.1 = some w ∧ valsEqual e.2 w = true) :
    valsEqualEntries xs ys = true := by
  induction xs with
  | nil => rfl
  | cons e rest ih =>
    obtain ⟨k, v⟩ := e
    obtain ⟨w, hget, heq⟩ := h (k, v) (by simp)
    simp only [valsEqualEntries, hget, Bool.and_eq_true]
    exact ⟨heq, ih (fun e2 he2 => h e2 (by simp [he2]))⟩

theorem valsEqual_refl_aux :
    ∀ (n : Nat) (v : JVal), sizeOf v ≤ n → wfVal v = true →
      nanFree v = true → valsEqual v v = true := by
  intro n
  induction n with
  | zero =>
    intro v hv _ _
    cases v <;> simp at hv
  | succ n ih =>
    intro v hv hw hnf
    match v with
    | .null => rfl
    | .undefined => rfl
    | .jb b => simp [valsEqual, scalarEq, numVal]
    | .ji m => simp [valsEqual, scalarEq, numVal]
    | .jf q =>
      match q with
      | some x => simp [valsEqual, scalarEq, numVal]
      | none => simp [nanFree] at hnf
    | .js s => simp [valsEqual, scalarEq]
    | .jlist xs =>
      simp only [wfVal] at hw
      simp only [nanFree] at hnf
      have hx : ∀ x ∈ xs, valsEqual x x = true := by
        intro x hmem
        have hlt := List.sizeOf_lt_of_mem hmem
        have hs : sizeOf (JVal.jlist xs) = 1 + sizeOf xs := by simp
        exact ih x (by omega) (wfList_mem hw hmem) (nanFreeList_mem hnf hmem)
      simp [valsEqual, valsEqualZip_of_refl xs hx]
    | .jdict es =>
      simp only [wfVal, Bool.and_eq_true] at hw
      simp only [nanFree] at hnf
      have hsz : ∀ e ∈ es, sizeOf e.2 ≤ n := by
        intro e hmem
        have hlt := List.sizeOf_lt_of_mem hmem
        obtain ⟨k2, v2⟩ := e
        have h1 : sizeOf (JVal.jdict es) = 1 + sizeOf es := by simp
        have h2 : sizeOf (k2, v2) = 1 + sizeOf k2 + sizeOf v2 := by simp
        simp only [h2] at hlt
        simp only []
        omega
      have hvals : ∀ e ∈ es, ∃ w, alGet es e.1 = some w ∧ valsEqual e.2 w = true := by
        intro e hmem
        obtain ⟨k2, v2⟩ := e
        refine ⟨v2, alGet_of_nodupKeys hw.1 hmem, ?_⟩
        exact ih v2 (hsz (k2, v2) hmem) (wfEntries_mem hw.2 hmem)
          (nanFreeEntries_mem hnf hmem)
      have hhas : es.all (fun e => alHas es e.1) = true := by
        rw [List.all_eq_true]
        intro e hmem
        obtain ⟨k2, v2⟩ := e
        exact alHas_of_mem hmem
      simp [valsEqual, hhas, valsEqualEntries_of es es hvals]

/-- `_vals_equal` is reflexive on well-formed `NaN`-free values (dicts of
a Python value always have distinct keys; plain `==` at the leaves makes
`NaN` unequal to itself, so `NaN`-freedom is required). -/
theorem valsEqual_refl (v : JVal) (hw : wfVal v = true)
    (hnf : nanFree v = true) : valsEqual v v = true :=
  valsEqual_refl_aux (sizeOf v) v (Nat.le_refl _) hw hnf

theorem pyListGet_eq_some (xs : List JVal) (i : Int) (w : JVal) :
    pyListGet xs i = some w ↔
      ∃ j, pyResolveIdx xs.length i = some j ∧ xs[j]? = some w := by
  simp [pyListGet, Option.bind_eq_some]

theorem listPad_of_resolve (xs : List JVal) (i : Int) (j : Nat)
    (h : pyResolveIdx xs.length i = some j) : listPad xs i = xs := by
  unfold pyResolveIdx at h
  by_cases h0 : 0 ≤ i
  · simp only [h0, if_true] at h
    split at h
    · exact listPad_of_lt xs i (by omega)
    · simp at h
  · have hneg : i < 0 := by omega
    simp [listPad, hneg]

theorem pyListSet_of_resolve (xs : List JVal) (i : Int) (j : Nat) (v : JVal)
    (h : pyResolveIdx xs.length i = some j) : pyListSet xs i v = xs.set j v := by
  simp [pyListSet, h]

theorem setInTerminal_concrete_eq (parent : JVal) (k : PathEl) (v : JVal)
    (hn : v ≠ JVal.null) (hu : v ≠ JVal.undefined) :
    setInTerminal parent k v = setInTerminalConcrete parent k v := by
  cases v <;> first | rfl | simp at hn hu

theorem setInTerminalConcrete_idem (parent : JVal) (k : PathEl) (v r : JVal)
    (c : Bool) (hw : wfVal v = true) (hnf : nanFree v = true)
    (h : setInTerminalConcrete parent k v = Except.ok (r, c)) :
    setInTerminalConcrete r k v = Except.ok (r, false) := by
  match parent, k with
  | .jdict es, k =>
    simp only [setInTerminalConcrete] at h
    cases hget : alGet es k with
    | some w =>
      simp only [hget] at h
      by_cases heq : valsEqual w v = true
      · rw [if_pos heq] at h
        simp only [Except.ok.injEq, Prod.mk.injEq] at h
        obtain ⟨hr, _⟩ := h
        subst hr
        simp only [setInTerminalConcrete, hget, if_pos heq]
      · rw [if_neg heq] at h
        simp only [Except.ok.injEq, Prod.mk.injEq] at h
        obtain ⟨hr, _⟩ := h
        subst hr
        simp only [setInTerminalConcrete, alGet_alSet_self,
          if_pos (valsEqual_refl v hw hnf)]
    | none =>
      simp only [hget] at h
      simp only [Except.ok.injEq, Prod.mk.injEq] at h
      obtain ⟨hr, _⟩ := h
      subst hr
      simp only [setInTerminalConcrete, alGet_alSet_self,
        if_pos (valsEqual_refl v hw hnf)]
  | .jlist xs, .idx i =>
    simp only [setInTerminalConcrete] at h
    cases hget : pyListGet (listPad xs i) i with
    | none => simp only [hget] at h; simp at h
    | some w =>
      simp only [hget] at h
      obtain ⟨j, hres, hj⟩ := (pyListGet_eq_some _ _ _).mp hget
      by_cases heq : valsEqual w v = true
      · rw [if_pos heq] at h
        simp only [Except.ok.injEq, Prod.mk.injEq] at h
        obtain ⟨hr, _⟩ := h
        subst hr
        simp only [setInTerminalConcrete, listPad_of_resolve _ _ _ hres, hget,
          if_pos heq]
      · rw [if_neg heq] at h
        simp only [Except.ok.injEq, Prod.mk.injEq] at h
        obtain ⟨hr, _⟩ := h
        subst hr
        rw [pyListSet_of_resolve _ _ _ _ hres]
        have hlen : ((listPad xs i).set j v).length = (listPad xs i).length :=
          List.length_set ..
        have hres2 : pyResolveIdx ((listPad xs i).set j v).length i = some j := by
          rw [hlen]; exact hres
        have hget2 : pyListGet ((listPad xs i).set j v) i = some v := by
          rw [pyListGet_eq_some]
          exact ⟨j, hres2, listGetq_set_eq _ _ _ (pyResolveIdx_lt _ _ _ hres)⟩
        simp only [setInTerminalConcrete, listPad_of_resolve _ _ _ hres2, hget2,
          if_pos (valsEqual_refl v hw hnf), pyListSet_of_resolve _ _ _ _ hres2,
          List.set_set]
  | .jlist xs, .name s =>
    simp only [setInTerminalConcrete] at h
    simp only [Except.ok.injEq, Prod.mk.injEq] at h
    obtain ⟨hr, _⟩ := h
    subst hr
    simp only [setInTerminalConcrete]
  | .null, _ => simp [setInTerminalConcrete] at h
  | .undefined, _ => simp [setInTerminalConcrete] at h
  | .jb _, _ => simp [setInTerminalConcrete] at h
  | .ji _, _ => simp [setInTerminalConcrete] at h
  | .jf _, _ => simp [setInTerminalConcrete] at h
  | .js _, _ => simp [setInTerminalConcrete] at h

theorem getChild_ok_cases (parent2 : JVal) (k : PathEl) (child : JVal)
    (h : getChild parent2 k = Except.ok child) :
    (∃ es, parent2 = .jdict es ∧ alGet es k = some child) ∨
      (∃ xs i j, parent2 = .jlist xs ∧ k = .idx i ∧
        pyResolveIdx xs.length i = some j ∧ xs[j]? = some child) := by
  match parent2, k with
  | .jdict es, k =>
    left
    refine ⟨es, rfl, ?_⟩
    simp only [getChild] at h
    cases hget : alGet es k with
    | some w => simp only [hget] at h; simp at h; simp [h]
    | none => simp only [hget] at h; simp at h
  | .jlist xs, .idx i =>
    right
    simp only [getChild] at h
    cases hget : pyListGet xs i with
    | some w =>
      simp only [hget] at h
      simp only [Except.ok.injEq] at h
      subst h
      obtain ⟨j, hres, hj⟩ := (pyListGet_eq_some _ _ _).mp hget
      exact ⟨xs, i, j, rfl, rfl, hres, hj⟩
    | none => simp only [hget] at h; simp at h
  | .jlist xs, .name s => simp [getChild] at h
  | .null, _ => simp [getChild] at h
  | .undefined, _ => simp [getChild] at h
  | .jb _, _ => simp [getChild] at h
  | .ji _, _ => simp [getChild] at h
  | .js _, _ => simp [getChild] at h

/-- Applying `_set_in` a second time with the same concrete (non-`None`,
non-`Undefined`) value changes nothing and reports no change. -/
theorem setInGo_concrete_idem :
    ∀ (p : List PathEl) (parent v r : JVal) (c : Bool),
      wfVal v = true → nanFree v = true → v ≠ JVal.null →
      v ≠ JVal.undefined →
      setInGo parent p v = Except.ok (r, c) →
      setInGo r p v = Except.ok (r, false) := by
  intro p
  induction p with
  | nil =>
    intro parent v r c _ _ _ _ h
    simp [setInGo] at h
  | cons k rest ih =>
    intro parent v r c hw hnf hn hu h
    cases rest with
    | nil =>
      simp only [setInGo] at h ⊢
      rw [setInTerminal_concrete_eq parent k v hn hu] at h
      rw [setInTerminal_concrete_eq r k v hn hu]
      exact setInTerminalConcrete_idem parent k v r c hw hnf h
    | cons next rest2 =>
      simp only [setInGo] at h ⊢
      cases hget : getChild (prepareChild parent k (some next)) k with
      | error e => simp only [hget] at h; simp at h
      | ok child =>
        simp only [hget] at h
        cases hrec : setInGo child (next :: rest2) v with
        | error e => simp only [hrec] at h; simp at h
        | ok pr =>
          obtain ⟨child2, ch⟩ := pr
          simp only [hrec] at h
          simp only [Except.ok.injEq, Prod.mk.injEq] at h
          obtain ⟨hr, _⟩ := h
          have hrec2 := ih child v child2 ch hw hnf hn hu hrec
          rcases getChild_ok_cases _ _ _ hget with
            ⟨es, hp2, _⟩ | ⟨xs, i, j, hp2, hk, hres, hj⟩
          · rw [hp2] at hr
            rw [putChild] at hr
            subst hr
            have hprep :
                prepareChild (JVal.jdict (alSet es k child2)) k (some next) =
                  JVal.jdict (alSet es k child2) := by
              simp [prepareChild, alHas_alSet_self]
            have hget2 :
                getChild (JVal.jdict (alSet es k child2)) k =
                  Except.ok child2 := by
              simp [getChild, alGet_alSet_self]
            simp only [hprep, hget2, hrec2, putChild, alSet_alSet_self]
          · subst hk
            rw [hp2] at hr
            rw [putChild, pyListSet_of_resolve _ _ _ _ hres] at hr
            subst hr
            have hlen : (xs.set j child2).length = xs.length := List.length_set ..
            have hres2 : pyResolveIdx (xs.set j child2).length i = some j := by
              rw [hlen]; exact hres
            have hprep :
                prepareChild (JVal.jlist (xs.set j child2)) (.idx i) (some next) =
                  JVal.jlist (xs.set j child2) := by
              simp only [prepareChild, listPad_of_resolve _ _ _ hres2]
            have hget2 :
                getChild (JVal.jlist (xs.set j child2)) (.idx i) =
                  Except.ok child2 := by
              have hg : pyListGet (xs.set j child2) i = some child2 := by
                rw [pyListGet_eq_some]
                exact ⟨j, hres2, listGetq_set_eq _ _ _ (pyResolveIdx_lt _ _ _ hres)⟩
              simp only [getChild, hg]
            simp only [hprep, hget2, hrec2, putChild,
              pyListSet_of_resolve _ _ _ _ hres2, List.set_set]

theorem setInTerminalNull_root_dict (es : JEntries) (k : PathEl) (r : JVal)
    (c : Bool) (h : setInTerminalNull (.jdict es) k = Except.ok (r, c)) :
    ∃ es2, r = JVal.jdict es2 := by
  simp only [setInTerminalNull] at h
  split at h <;> (simp at h; exact ⟨_, h.1.symm⟩)

theorem setInTerminalConcrete_root_dict (es : JEntries) (k : PathEl)
    (v r : JVal) (c : Bool)
    (h : setInTerminalConcrete (.jdict es) k v = Except.ok (r, c)) :
    ∃ es2, r = JVal.jdict es2 := by
  simp only [setInTerminalConcrete] at h
  cases hget : alGet es k with
  | some w =>
    simp only [hget] at h
    split at h <;> (simp at h; exact ⟨_, h.1.symm⟩)
  | none =>
    simp only [hget] at h
    simp at h
    exact ⟨_, h.1.symm⟩

theorem setInTerminal_root_dict (es : JEntries) (k : PathEl) (v r : JVal)
    (c : Bool) (h : setInTerminal (.jdict es) k v = Except.ok (r, c)) :
    ∃ es2, r = JVal.jdict es2 := by
  match v with
  | .undefined =>
    simp only [setInTerminal] at h
    simp at h
    exact ⟨es, h.1.symm⟩
  | .null =>
    simp only [setInTerminal] at h
    exact setInTerminalNull_root_dict es k r c h
  | .jb b =>
    simp only [setInTerminal] at h
    exact setInTerminalConcrete_root_dict es k _ r c h
  | .jf q =>
    simp only [setInTerminal] at h
    exact setInTerminalConcrete_root_dict es k _ r c h
  | .ji n =>
    simp only [setInTerminal] at h
    exact setInTerminalConcrete_root_dict es k _ r c h
  | .js s =>
    simp only [setInTerminal] at h
    exact setInTerminalConcrete_root_dict es k _ r c h
  | .jlist xs =>
    simp only [setInTerminal] at h
    exact setInTerminalConcrete_root_dict es k _ r c h
  | .jdict es2 =>
    simp only [setInTerminal] at h
    exact setInTerminalConcrete_root_dict es k _ r c h

theorem setInGo_root_dict (p : List PathEl) (es : JEntries) (v r : JVal)
    (c : Bool) (h : setInGo (.jdict es) p v = Except.ok (r, c)) :
    ∃ es2, r = JVal.jdict es2 := by
  match p with
  | [] => simp [setInGo] at h
  | [k] =>
    simp only [setInGo] at h
    exact setInTerminal_root_dict es k v r c h
  | k :: next :: rest =>
    simp only [setInGo] at h
    cases hget : getChild (prepareChild (.jdict es) k (some next)) k with
    | error e => simp only [hget] at h; simp at h
    | ok child =>
      simp only [hget] at h
      cases hrec : setInGo child (next :: rest) v with
      | error e => simp only [hrec] at h; simp at h
      | ok pr =>
        obtain ⟨child2, ch⟩ := pr
        simp only [hrec] at h
        simp only [Except.ok.injEq, Prod.mk.injEq] at h
        obtain ⟨hr, _⟩ := h
        simp only [prepareChild] at hr
        split at hr
        · simp only [putChild] at hr
          exact ⟨_, hr.symm⟩
        · cases next <;> (simp only [putChild] at hr; exact ⟨_, hr.symm⟩)

/-- `BaseFigure._set_in` applied a second time with the same concrete
value leaves the dict unchanged and reports no change. -/
theorem setIn_concrete_idem (d : JVal) (s : String) (v d1 : JVal) (c : Bool)
    (hw : wfVal v = true) (hnf : nanFree v = true) (hn : v ≠ JVal.null)
    (hu : v ≠ JVal.undefined) (h : setIn d s v = Except.ok (d1, c)) :
    setIn d1 s v = Except.ok (d1, false) := by
  match d with
  | .jdict es =>
    simp only [setIn] at h
    obtain ⟨es2, hd1⟩ := setInGo_root_dict _ _ _ _ _ h
    subst hd1
    simp only [setIn]
    exact setInGo_concrete_idem _ _ _ _ _ hw hnf hn hu h
  | .null => simp [setIn] at h
  | .undefined => simp [setIn] at h
  | .jb _ => simp [setIn] at h
  | .ji _ => simp [setIn] at h
  | .jf _ => simp [setIn] at h
  | .js _ => simp [setIn] at h
  | .jlist _ => simp [setIn] at h

theorem alRemove_of_not_has {κ α : Type} [DecidableEq κ] (es : List (κ × α))
    (k : κ) (h : alHas es k = false) : alRemove es k = es := by
  induction es with
  | nil => rfl
  | cons e rest ih =>
    obtain ⟨k2, w⟩ := e
    by_cases hk : k2 = k
    · subst hk; simp [alHas, alGet] at h
    · simp only [alHas, alGet, hk, if_neg hk] at h
      simp only [alRemove, if_neg hk]
      rw [ih h]

theorem setInGo_undefined_flag :
    ∀ (p : List PathEl) (d r : JVal) (c : Bool),
      setInGo d p JVal.undefined = Except.ok (r, c) → c = false := by
  intro p
  induction p with
  | nil => intro d r c h; simp [setInGo] at h
  | cons k rest ih =>
    intro d r c h
    cases rest with
    | nil =>
      simp only [setInGo, setInTerminal] at h
      simp at h
      exact h.2
    | cons next rest2 =>
      simp only [setInGo] at h
      cases hget : getChild (prepareChild d k (some next)) k with
      | error e => simp only [hget] at h; simp at h
      | ok child =>
        simp only [hget] at h
        cases hrec : setInGo child (next :: rest2) JVal.undefined with
        | error e => simp only [hrec] at h; simp at h
        | ok pr =>
          obtain ⟨child2, ch⟩ := pr
          simp only [hrec] at h
          simp only [Except.ok.injEq, Prod.mk.injEq] at h
          rw [← h.2]
          exact ih child child2 ch hrec

theorem setInGo_undefined_noCreate :
    ∀ (p : List PathEl) (d : JVal),
      p ≠ [] → noCreatePath d p = true →
      setInGo d p JVal.undefined = Except.ok (d, false) := by
  intro p
  induction p with
  | nil => intro d hne _; exact absurd rfl hne
  | cons k rest ih =>
    intro d _ hnc
    cases rest with
    | nil => simp [setInGo, setInTerminal]
    | cons next rest2 =>
      simp only [setInGo]
      match d, k, hnc with
      | .jdict es, k, hnc =>
        simp only [noCreatePath] at hnc
        cases hget : alGet es k with
        | none => rw [hget] at hnc; simp at hnc
        | some child =>
          rw [hget] at hnc
          have hhas : alHas es k = true := by simp [alHas, hget]
          have hprep :
              prepareChild (JVal.jdict es) k (some next) = JVal.jdict es := by
            simp [prepareChild, hhas]
          have hget2 : getChild (JVal.jdict es) k = Except.ok child := by
            simp [getChild, hget]
          simp only [hprep, hget2, ih child (by simp) hnc, putChild,
            alSet_of_alGet es k child hget]
      | .jlist xs, .idx i, hnc =>
        simp only [noCreatePath, Bool.and_eq_true, decide_eq_true_eq] at hnc
        obtain ⟨hlt, hnc2⟩ := hnc
        cases hget : pyListGet xs i with
        | none => rw [hget] at hnc2; simp at hnc2
        | some child =>
          rw [hget] at hnc2
          obtain ⟨j, hres, hj⟩ := (pyListGet_eq_some _ _ _).mp hget
          have hprep :
              prepareChild (JVal.jlist xs) (.idx i) (some next) =
                JVal.jlist xs := by
            simp only [prepareChild, listPad_of_lt xs i hlt]
          have hget2 : getChild (JVal.jlist xs) (.idx i) = Except.ok child := by
            simp [getChild, hget]
          simp only [hprep, hget2, ih child (by simp) hnc2, putChild,
            pyListSet_of_resolve _ _ _ _ hres, listGetq_set_self xs j child hj]

/-- C3 (corrected) — counterexample to the claim as stated: on
`d = {'a': [None]}`, `_set_in(d, 'a[0]', None)` returns `True` although
the dict is observably unchanged (the already-`None` list slot is
re-assigned `None` and the write is reported as a change), so "`True` iff
the call observably changed `d`" is false. -/
theorem setIn_changed_without_change :
    setIn (.jdict [(.name "a", .jlist [JVal.null])]) "a[0]" JVal.null =
      Except.ok (.jdict [(.name "a", .jlist [JVal.null])], true) := by
  rfl

/-- C3 (amended): `_set_in` returns `True` iff the terminal step modified
the terminal container according to its policy — for `None`, a present
dict key is removed, or a valid list slot is assigned `None` (reported as
a change even when the slot already held `None`); for a concrete value,
the value is assigned exactly when it is not `_vals_equal` to the stored
one, where `_vals_equal` compares leaves with plain `==`, under which a
float `NaN` is unequal to itself.  Consequently applying `_set_in` twice
in succession with the same `NaN`-free concrete value reports a change
only on the first call (and the second call leaves the dict unchanged),
while a repeated write of the same `NaN` value reports a change every
time. -/
theorem setIn_return_policy :
    (∀ (d : JVal) (s : String) (v d1 : JVal) (c : Bool),
        wfVal v = true → nanFree v = true → v ≠ JVal.null →
        v ≠ JVal.undefined →
        setIn d s v = Except.ok (d1, c) →
        setIn d1 s v = Except.ok (d1, false)) ∧
    (∀ (es : JEntries) (k : PathEl),
        setInGo (.jdict es) [k] JVal.null =
          Except.ok (.jdict (alRemove es k), alHas es k)) ∧
    (∀ (es : JEntries) (nm : PathEl) (xs : List JVal) (i : Int),
        alGet es nm = some (.jlist xs) → 0 ≤ i → i < (xs.length : Int) →
        setInGo (.jdict es) [nm, .idx i] JVal.null =
          Except.ok (.jdict (alSet es nm (.jlist (xs.set i.toNat JVal.null))),
            true)) ∧
    (setIn (.jdict [(.name "x", .jf none)]) "x" (.jf none) =
      Except.ok (.jdict [(.name "x", .jf none)], true)) := by
  refine ⟨setIn_concrete_idem, ?_, ?_, rfl⟩
  · intro es k
    simp only [setInGo, setInTerminal, setInTerminalNull]
    cases hhas : alHas es k with
    | true => simp
    | false => simp [alRemove_of_not_has es k hhas]
  · intro es nm xs i hget h0 hlen
    have hhas : alHas es nm = true := by simp [alHas, hget]
    have hprep :
        prepareChild (JVal.jdict es) nm (some (.idx i)) = JVal.jdict es := by
      simp [prepareChild, hhas]
    have hget2 : getChild (JVal.jdict es) nm = Except.ok (.jlist xs) := by
      simp [getChild, hget]
    have hterm :
        setInTerminal (JVal.jlist xs) (PathEl.idx i) JVal.null =
          Except.ok (.jlist (xs.set i.toNat JVal.null), true) := by
      simp [setInTerminal, setInTerminalNull, h0, hlen]
    simp only [setInGo, hprep, hget2, hterm, putChild]

/-- C3 witness: the amended statement applied at concrete inputs. -/
theorem setIn_return_policy_witness :
    setIn (.jdict [(.name "x", .ji 5)]) "x" (.ji 5) =
        Except.ok (.jdict [(.name "x", .ji 5)], false) ∧
    setInGo (.jdict [(.name "a", .ji 1)]) [.name "a"] JVal.null =
        Except.ok (.jdict [], true) ∧
    setInGo (.jdict [(.name "a", .jlist [JVal.null])]) [.name "a", .idx 0]
        JVal.null =
      Except.ok (.jdict [(.name "a", .jlist [JVal.null])], true) := by
  refine ⟨?_, ?_, ?_⟩
  · exact setIn_return_policy.1 (.jdict []) "x" (.ji 5)
      (.jdict [(.name "x", .ji 5)]) true rfl rfl (by intro hc; cases hc)
      (by intro hc; cases hc) rfl
  · exact setIn_return_policy.2.1 [(.name "a", .ji 1)] (.name "a")
  · exact setIn_return_policy.2.2.1 [(.name "a", .jlist [JVal.null])]
      (.name "a") [JVal.null] 0 rfl (by decide) (by decide)

/-- C7 (corrected) — counterexample to the claim as stated: writing the
`Undefined` sentinel through `_set_in` at a multi-segment path whose
intermediate containers do not exist mutates the backing map (the
navigation loop creates `{'a': {}}` inside an empty dict) even though no
change is reported, so the operation is not a complete no-op on the
state. -/
theorem setIn_undefined_creates_containers :
    setIn (.jdict []) "a.b" JVal.undefined =
      Except.ok (.jdict [(.name "a", .jdict [])], false) := by
  rfl

/-- C7 (amended): a write of the `Undefined` sentinel never reports a
change and fires no notification or sync message; the backing map is left
completely unchanged whenever the path's intermediate containers already
exist (in particular for single-segment paths), the only possible state
effect being the creation/padding of intermediate containers during
navigation; a scalar property assignment (`_set_prop`) of `Undefined` is
a complete no-op with no state change and no events. -/
theorem undefined_write_noop :
    (∀ (p : List PathEl) (d r : JVal) (c : Bool),
        setInGo d p JVal.undefined = Except.ok (r, c) → c = false) ∧
    (∀ (p : List PathEl) (d : JVal),
        p ≠ [] → noCreatePath d p = true →
        setInGo d p JVal.undefined = Except.ok (d, false)) ∧
    (∀ (ctx : FigCtx) (f : Figure) (tgt : PropTarget) (np : List PathEl)
        (prop : String),
        setProp ctx f tgt np prop JVal.undefined = (f, [])) := by
  refine ⟨setInGo_undefined_flag, setInGo_undefined_noCreate, ?_⟩
  intro ctx f tgt np prop
  rfl

/-- C7 witness: the amended statement applied at concrete inputs. -/
theorem undefined_write_noop_witness :
    setInGo (.jdict [(.name "a", .jdict [(.name "b", .ji 1)])])
        [.name "a", .name "b"] JVal.undefined =
      Except.ok (.jdict [(.name "a", .jdict [(.name "b", .ji 1)])], false) := by
  exact undefined_write_noop.2.1 [.name "a", .name "b"]
    (.jdict [(.name "a", .jdict [(.name "b", .ji 1)])])
    (by intro hc; cases hc) rfl

/-! ## Round trip of path serialisation (C8) -/

theorem digit_char_isDigit (m : Nat) (h : m < 10) :
    (Char.ofNat (48 + m)).isDigit = true := by
  interval_cases m <;> decide

theorem digit_char_toNat (m : Nat) (h : m < 10) :
    (Char.ofNat (48 + m)).toNat = 48 + m := by
  interval_cases m <;> decide

theorem natRevDigitsGo_all_digit (fuel : Nat) :
    ∀ (n : Nat), ∀ c ∈ natRevDigitsGo n fuel, c.isDigit = true := by
  induction fuel with
  | zero => intro n c hc; simp [natRevDigitsGo] at hc
  | succ fuel ih =>
    intro n c hc
    rw [natRevDigitsGo] at hc
    have hm : n % 10 < 10 := Nat.mod_lt _ (by omega)
    split at hc
    · simp at hc
      subst hc
      exact digit_char_isDigit _ hm
    · rcases List.mem_cons.mp hc with h1 | h1
      · subst h1; exact digit_char_isDigit _ hm
      · exact ih (n / 10) c h1

theorem natRevDigits_all_digit (n : Nat) :
    ∀ c ∈ natRevDigits n, c.isDigit = true :=
  natRevDigitsGo_all_digit (n + 1) n

theorem natRevDigits_ne_nil (n : Nat) : natRevDigits n ≠ [] := by
  rw [natRevDigits, natRevDigitsGo]
  split <;> simp

theorem natOfDigits_append_one (xs : List Char) (c : Char) :
    natOfDigits (xs ++ [c]) = 10 * natOfDigits xs + (c.toNat - 48) := by
  simp [natOfDigits, List.foldl_append]
  omega

theorem natOfDigits_natRevDigitsGo (fuel : Nat) :
    ∀ (n : Nat), n < fuel →
      natOfDigits ((natRevDigitsGo n fuel).reverse) = n := by
  induction fuel with
  | zero => intro n hn; omega
  | succ fuel ih =>
    intro n hn
    rw [natRevDigitsGo]
    have hm : n % 10 < 10 := Nat.mod_lt _ (by omega)
    split
    · simp only [List.reverse_cons, List.reverse_nil, List.nil_append]
      simp [natOfDigits, digit_char_toNat _ hm]
      omega
    · rw [List.reverse_cons, natOfDigits_append_one]
      have hq : n / 10 < fuel := by omega
      rw [ih (n / 10) hq, digit_char_toNat _ hm]
      omega

theorem natOfDigits_natDigits (n : Nat) : natOfDigits (natDigits n) = n :=
  natOfDigits_natRevDigitsGo (n + 1) n (by omega)

theorem isDigit_ne_space (c : Char) (h : c.isDigit = true) : ¬(c = ' ') := by
  intro he; subst he; exact absurd h (by decide)

theorem isDigit_ne_plus (c : Char) (h : c.isDigit = true) : ¬(c = '+') := by
  intro he; subst he; exact absurd h (by decide)

theorem isDigit_ne_minus (c : Char) (h : c.isDigit = true) : ¬(c = '-') := by
  intro he; subst he; exact absurd h (by decide)

theorem isDigit_ne_dot (c : Char) (h : c.isDigit = true) : ¬(c = '.') := by
  intro he; subst he; exact absurd h (by decide)

theorem isDigit_ne_lbracket (c : Char) (h : c.isDigit = true) : ¬(c = '[') := by
  intro he; subst he; exact absurd h (by decide)

theorem isDigit_ne_of (c d : Char) (h : c.isDigit = true)
    (hd : d.isDigit = false) : ¬(c = d) := by
  intro he
  subst he
  rw [h] at hd
  cases hd

theorem isDigit_not_pySpace (c : Char) (h : c.isDigit = true) :
    isPySpace c = false := by
  simp [isPySpace, isDigit_ne_of c ' ' h (by decide),
    isDigit_ne_of c '\t' h (by decide), isDigit_ne_of c '\n' h (by decide),
    isDigit_ne_of c '\x0b' h (by decide),
    isDigit_ne_of c '\x0c' h (by decide),
    isDigit_ne_of c '\r' h (by decide)]

theorem dropWhile_pySpace_of_digits (l : List Char)
    (h : ∀ c ∈ l, c.isDigit = true) :
    l.dropWhile isPySpace = l := by
  cases l with
  | nil => rfl
  | cons c rest =>
    have := isDigit_not_pySpace c (h c (by simp))
    simp [List.dropWhile_cons, this]

theorem digitsUndGo_digits (ds : List Char) :
    ∀ (acc : Nat), (∀ c ∈ ds, c.isDigit = true) →
      digitsUndGo acc false ds =
        some (ds.foldl (fun a c => a * 10 + (c.toNat - 48)) acc) := by
  induction ds with
  | nil => intro acc _; rfl
  | cons c rest ih =>
    intro acc hd
    have hc := hd c (by simp)
    rw [List.foldl_cons]
    simp only [digitsUndGo, if_pos hc]
    exact ih _ (fun c2 h2 => hd c2 (by simp [h2]))

theorem digitsUnd_digits (ds : List Char) (hne : ds ≠ [])
    (hd : ∀ c ∈ ds, c.isDigit = true) :
    digitsUnd ds = some (natOfDigits ds) := by
  match ds, hne with
  | c :: rest, _ =>
    have hc := hd c (by simp)
    simp only [digitsUnd, if_pos hc]
    rw [digitsUndGo_digits rest _ (fun c2 h2 => hd c2 (by simp [h2]))]
    simp [natOfDigits, List.foldl_cons]

theorem pyToInt_digits (ds : List Char) (hne : ds ≠ [])
    (hd : ∀ c ∈ ds, c.isDigit = true) :
    pyToInt (String.mk ds) = some ((natOfDigits ds : Nat) : Int) := by
  have hdrop1 : ds.dropWhile isPySpace = ds :=
    dropWhile_pySpace_of_digits ds hd
  have hdrop2 : ds.reverse.dropWhile isPySpace = ds.reverse :=
    dropWhile_pySpace_of_digits ds.reverse
      (fun c hc => hd c (List.mem_reverse.mp hc))
  match ds, hne with
  | c :: rest, _ =>
    have hc := hd c (by simp)
    simp only [pyToInt, hdrop1, hdrop2, List.reverse_reverse,
      if_neg (isDigit_ne_plus c hc), if_neg (isDigit_ne_minus c hc)]
    rw [digitsUnd_digits (c :: rest) (by simp) hd]
    rfl

theorem splitDot_ne_nil (cs : List Char) : splitDot cs ≠ [] := by
  cases cs with
  | nil => simp [splitDot]
  | cons c rest =>
    simp only [splitDot]
    split
    · simp
    · cases h : splitDot rest <;> simp

theorem splitDot_append_dotfree (xs ys : List Char) (h : '.' ∉ xs) :
    splitDot (xs ++ ys) = (splitDot ys).modifyHead (fun t => xs ++ t) := by
  induction xs with
  | nil =>
    simp only [List.nil_append]
    obtain ⟨h0, t0, hsd⟩ := List.exists_cons_of_ne_nil (splitDot_ne_nil ys)
    rw [hsd]
    simp [List.modifyHead]
  | cons c rest ih =>
    have hc : ¬(c = '.') := by
      intro he; exact h (by simp [he])
    have hrest : '.' ∉ rest := fun hm => h (by simp [hm])
    simp only [List.cons_append, splitDot, if_neg hc, List.append_eq]
    rw [ih hrest]
    obtain ⟨h0, t0, hsd⟩ := List.exists_cons_of_ne_nil (splitDot_ne_nil ys)
    rw [hsd]
    simp [List.modifyHead]

theorem splitDot_no_dot (cs : List Char) (h : '.' ∉ cs) :
    splitDot cs = [cs] := by
  have := splitDot_append_dotfree cs [] h
  simpa [splitDot] using this

theorem parseChars_append_dot (A T : List Char) (h : '.' ∉ A) :
    parseChars (A ++ '.' :: T) =
      (expandPiece A).map convertPiece ++ parseChars T := by
  unfold parseChars
  rw [splitDot_append_dotfree A ('.' :: T) h]
  rw [show splitDot ('.' :: T) = [] :: splitDot T by simp [splitDot]]
  simp [List.modifyHead]

theorem parseChars_no_dot (A : List Char) (h : '.' ∉ A) :
    parseChars A = (expandPiece A).map convertPiece := by
  unfold parseChars
  rw [splitDot_no_dot A h]
  simp

theorem takeWhile_all_append (p : Char → Bool) (xs : List Char) (y : Char)
    (ys : List Char) (hall : ∀ c ∈ xs, p c = true) (hy : p y = false) :
    (xs ++ y :: ys).takeWhile p = xs := by
  induction xs with
  | nil => simp [List.takeWhile_cons, hy]
  | cons c rest ih =>
    simp only [List.cons_append, List.takeWhile_cons, hall c (by simp)]
    simp only [if_true]
    rw [ih (fun c2 hc2 => hall c2 (by simp [hc2]))]

theorem bracketSplit_append (x ds : List Char) (hne : ds ≠ [])
    (hd : ∀ c ∈ ds, c.isDigit = true) :
    bracketSplit (x ++ '[' :: (ds ++ [']'])) = some (x, ds) := by
  unfold bracketSplit
  have hrev : (x ++ '[' :: (ds ++ [']'])).reverse =
      ']' :: (ds.reverse ++ '[' :: x.reverse) := by
    simp
  rw [hrev]
  simp only [if_pos rfl]
  have ht : (ds.reverse ++ '[' :: x.reverse).takeWhile Char.isDigit =
      ds.reverse :=
    takeWhile_all_append _ _ _ _
      (fun c hc => hd c (List.mem_reverse.mp hc)) (by decide)
  rw [ht]
  rw [List.drop_left]
  have hemp : ds.reverse.isEmpty = false := by
    cases hx : ds.reverse with
    | nil => exact absurd (by simpa using hx) hne
    | cons a b => rfl
  simp [hemp]

theorem bracketSplit_no_lbracket (cs : List Char) (h : '[' ∉ cs) :
    bracketSplit cs = none := by
  unfold bracketSplit
  cases hrev : cs.reverse with
  | nil => rfl
  | cons c rest =>
    by_cases hc : c = ']'
    · subst hc
      simp only [if_pos rfl]
      cases hdrop :
          rest.drop ((rest.takeWhile Char.isDigit).length) with
      | nil => rfl
      | cons c2 pre =>
        have hc2 : ¬(c2 = '[') := by
          intro he
          subst he
          have h1 : '[' ∈ rest := by
            have : '[' ∈ rest.drop ((rest.takeWhile Char.isDigit).length) := by
              rw [hdrop]; simp
            exact List.mem_of_mem_drop this
          have h2 : '[' ∈ cs.reverse := by rw [hrev]; simp [h1]
          exact h (List.mem_reverse.mp h2)
        simp [hc2]
    · simp [hc]

theorem goodName_no_dot (s : String) (h : goodName s = true) :
    '.' ∉ s.data := by
  simp only [goodName, Bool.and_eq_true, Bool.not_eq_true',
    decide_eq_false_iff_not] at h
  exact h.1.1.2

theorem goodName_no_lbracket (s : String) (h : goodName s = true) :
    '[' ∉ s.data := by
  simp only [goodName, Bool.and_eq_true, Bool.not_eq_true',
    decide_eq_false_iff_not] at h
  exact h.1.2

theorem expandPiece_of_goodName (s : String) (h : goodName s = true) :
    expandPiece s.data = [s.data] := by
  unfold expandPiece
  rw [bracketSplit_no_lbracket s.data (goodName_no_lbracket s h)]

theorem convertPiece_of_goodName (s : String) (h : goodName s = true) :
    convertPiece s.data = .name s := by
  unfold convertPiece
  have hmk : String.mk s.data = s := rfl
  rw [hmk]
  simp only [goodName, Bool.and_eq_true] at h
  have hnone : pyToInt s = none := Option.isNone_iff_eq_none.mp h.2
  rw [hnone]

theorem convertPiece_digits (n : Int) (h : 0 ≤ n) :
    convertPiece (natDigits n.toNat) = .idx n := by
  have hp := pyToInt_digits (natDigits n.toNat)
    (by simp [natDigits, natRevDigits_ne_nil])
    (fun c hc => natRevDigits_all_digit _ c (List.mem_reverse.mp hc))
  rw [natOfDigits_natDigits] at hp
  simp only [convertPiece, hp, Int.toNat_of_nonneg h]

theorem natDigits_ne_nil (m : Nat) : natDigits m ≠ [] := by
  simp [natDigits, natRevDigits_ne_nil]

theorem natDigits_all_digit (m : Nat) :
    ∀ c ∈ natDigits m, c.isDigit = true :=
  fun c hc => natRevDigits_all_digit m c (List.mem_reverse.mp hc)

theorem dot_not_in_name_bracket (s : String) (hs : goodName s = true)
    (m : Nat) : '.' ∉ s.data ++ '[' :: (natDigits m ++ [']']) := by
  intro hm
  rcases List.mem_append.mp hm with h1 | h1
  · exact goodName_no_dot s hs h1
  · rcases List.mem_cons.mp h1 with h2 | h2
    · exact absurd h2 (by decide)
    · rcases List.mem_append.mp h2 with h3 | h3
      · exact absurd (natDigits_all_digit m '.' h3) (by decide)
      · simp at h3

theorem expandPiece_name_bracket (s : String) (m : Nat) :
    expandPiece (s.data ++ '[' :: (natDigits m ++ [']'])) =
      [s.data, natDigits m] := by
  unfold expandPiece
  rw [bracketSplit_append s.data (natDigits m) (natDigits_ne_nil m)
    (natDigits_all_digit m)]

theorem parseChars_serializeTail :
    (rest : List PathEl) → (s : String) → goodName s = true →
      serOkTail rest = true →
      parseChars (s.data ++ serializeTail rest) = .name s :: rest
  | [], s, hs, _ => by
    rw [serializeTail, List.append_nil]
    rw [parseChars_no_dot s.data (goodName_no_dot s hs)]
    rw [expandPiece_of_goodName s hs]
    simp [convertPiece_of_goodName s hs]
  | .name s2 :: rest2, s, hs, ht => by
    have ht2 : goodName s2 = true ∧ serOkTail rest2 = true := by
      simpa [serOkTail] using ht
    rw [serializeTail]
    rw [show s.data ++ '.' :: (s2.data ++ serializeTail rest2) =
        s.data ++ ('.' :: (s2.data ++ serializeTail rest2)) from rfl]
    rw [parseChars_append_dot s.data (s2.data ++ serializeTail rest2)
      (goodName_no_dot s hs)]
    rw [expandPiece_of_goodName s hs]
    rw [parseChars_serializeTail rest2 s2 ht2.1 ht2.2]
    simp [convertPiece_of_goodName s hs]
  | .idx n :: rest2, s, hs, ht =>
    match rest2, ht with
    | [], ht => by
      have hn0 : 0 ≤ n := by
        simp only [serOkTail, Bool.and_eq_true, decide_eq_true_eq] at ht
        exact ht.1
      rw [serializeTail, serializeTail]
      rw [parseChars_no_dot _ (dot_not_in_name_bracket s hs n.toNat)]
      rw [expandPiece_name_bracket s n.toNat]
      simp [convertPiece_of_goodName s hs, convertPiece_digits n hn0]
    | .name s3 :: rest3, ht => by
      have parts : (0 ≤ n) ∧ goodName s3 = true ∧ serOkTail rest3 = true := by
        simp only [serOkTail, Bool.and_eq_true, decide_eq_true_eq] at ht
        exact ⟨ht.1, ht.2⟩
      rw [serializeTail, serializeTail]
      have hassoc :
          s.data ++ '[' :: (natDigits n.toNat ++
              (']' :: ('.' :: (s3.data ++ serializeTail rest3)))) =
            (s.data ++ '[' :: (natDigits n.toNat ++ [']'])) ++
              '.' :: (s3.data ++ serializeTail rest3) := by
        simp
      rw [hassoc]
      rw [parseChars_append_dot _ _ (dot_not_in_name_bracket s hs n.toNat)]
      rw [expandPiece_name_bracket s n.toNat]
      rw [parseChars_serializeTail rest3 s3 parts.2.1 parts.2.2]
      simp [convertPiece_of_goodName s hs, convertPiece_digits n parts.1]
    | .idx m :: rest3, ht => by
      exact absurd ht (by simp [serOkTail])

/-- C8 (corrected) — counterexample to the claim as stated: the path
`['a', 0, 1]` (no ambiguous numeric field names) serialises to
`"a[0][1]"`, but the greedy bracket regex of `_str_to_dict_path` peels
only the last bracket group, parsing it back as `('a[0]', 1)`, not
`('a', 0, 1)`. -/
theorem parse_serialize_consecutive_idx :
    strToDictPath (serializePath [.name "a", .idx 0, .idx 1]) =
        [.name "a[0]", .idx 1] ∧
      [PathEl.name "a[0]", PathEl.idx 1] ≠
        [PathEl.name "a", PathEl.idx 0, PathEl.idx 1] :=
  ⟨rfl, by decide⟩

/-- C8 (amended): for every property path whose first segment is a field
name, whose field names are ASCII, contain neither `.` nor `[`, and do
not parse as Python ints (the claim's non-ambiguity condition; ASCII so
that those two tests are unambiguous — Python `int()` and the regex `\d`
additionally accept Unicode digit and whitespace forms), whose indices
are non-negative, and in which no index segment immediately follows
another index segment, parsing the serialised form with
`_str_to_dict_path` yields exactly the original path. -/
theorem strToDictPath_serializePath (p : List PathEl) (h : serOk p = true) :
    strToDictPath (serializePath p) = p := by
  match p, h with
  | .name s :: rest, h =>
    have hp : goodName s = true ∧ serOkTail rest = true := by
      simpa [serOk] using h
    exact parseChars_serializeTail rest s hp.1 hp.2
  | [], h => simp [serOk] at h
  | .idx n :: rest, h => simp [serOk] at h

/-- C8 witness: the amended round trip applied to the concrete path
`['xaxis', 'range', 0]` (serialised form `"xaxis.range[0]"`). -/
theorem strToDictPath_serializePath_witness :
    strToDictPath (serializePath [.name "xaxis", .name "range", .idx 0]) =
      [.name "xaxis", .name "range", .idx 0] :=
  strToDictPath_serializePath [.name "xaxis", .name "range", .idx 0] rfl

/-! ## Restyle targeting, value cycling and the out-of-range check -/

/-- C10 (confirmed): inside `_perform_plotly_restyle`, reaching a
targeted trace index that is `>= len(self._data)` raises the
`Trace index out of range` ValueError immediately — the check precedes
the `Undefined` guard, so it fires for any value, and the trace dicts
updated by earlier edit keys / earlier positions are kept (the error
carries the partially updated data, as the Python code mutates in
place); the third conjunct exhibits a run in which the value destined
for the offending index is the `Undefined` sentinel and an earlier edit
persists. -/
theorem restyle_index_out_of_range :
    (∀ (tc : Nat → List PathEl → Bool) (k : String) (v : JVal)
        (data : List JVal) (i : Nat) (ti : Int) (rest : List Int) (acc : Bool),
        (data.length : Int) ≤ ti →
        restyleKeyStep tc k v data i (ti :: rest) acc =
          (data, Except.error "ValueError: Trace index out of range")) ∧
    (∀ (tc : Nat → List PathEl → Bool) (data d2 : List JVal) (k : String)
        (v : JVal) (restKeys : List (String × JVal)) (tis : List Int)
        (ch : List (String × JVal)) (e : String),
        restyleKeyStep tc k v data 0 tis false = (d2, Except.error e) →
        performRestyleGo tc data ((k, v) :: restKeys) tis ch =
          (d2, Except.error e)) ∧
    (performRestyle (fun _ _ => true) [.jdict [], .jdict []]
        [("a", .jlist [.ji 9, .undefined])] [0, 5] =
      ([.jdict [(.name "a", .ji 9)], .jdict []],
        Except.error "ValueError: Trace index out of range")) := by
  refine ⟨?_, ?_, rfl⟩
  · intro tc k v data i ti rest acc h
    simp only [restyleKeyStep, if_pos h]
  · intro tc data d2 k v restKeys tis ch e h
    simp only [performRestyleGo, h]

/-- C10 witness: the out-of-range error at concrete inputs, with the
destined value being the `Undefined` sentinel itself. -/
theorem restyle_index_out_of_range_witness :
    restyleKeyStep (fun _ _ => true) "a" JVal.undefined [.jdict []] 0 [3]
        false =
      ([.jdict []], Except.error "ValueError: Trace index out of range") ∧
    performRestyleGo (fun _ _ => true) [.jdict []] [("a", JVal.undefined)]
        [3] [] =
      ([.jdict []], Except.error "ValueError: Trace index out of range") :=
  ⟨restyle_index_out_of_range.1 (fun _ _ => true) "a" JVal.undefined
      [.jdict []] 0 3 [] false (by decide),
    restyle_index_out_of_range.2.1 (fun _ _ => true) [.jdict []] [.jdict []]
      "a" JVal.undefined [] [3] [] "ValueError: Trace index out of range"
      (restyle_index_out_of_range.1 (fun _ _ => true) "a" JVal.undefined
        [.jdict []] 0 3 [] false (by decide))⟩

theorem cycledValue_non_list (v : JVal) (hv : ∀ xs, v ≠ .jlist xs) (i : Nat) :
    cycledValue v i = Except.ok v := by
  cases v <;> first | rfl | exact absurd rfl (hv _)

theorem cycledValue_singleton (v : JVal) (i : Nat) :
    cycledValue (.jlist [v]) i = Except.ok v := by
  simp [cycledValue, Nat.mod_one]

theorem restyleKeyStep_scalar_singleton (tc : Nat → List PathEl → Bool)
    (k : String) (v : JVal) (hv : ∀ xs, v ≠ .jlist xs) :
    ∀ (tis : List Int) (data : List JVal) (i : Nat) (acc : Bool),
      restyleKeyStep tc k v data i tis acc =
        restyleKeyStep tc k (.jlist [v]) data i tis acc := by
  intro tis
  induction tis with
  | nil => intro data i acc; rfl
  | cons ti rest ih =>
    intro data i acc
    simp only [restyleKeyStep, cycledValue_non_list v hv,
      cycledValue_singleton v]
    simp only [ih]

theorem cycledValue_shift (vs : List JVal) (hne : vs ≠ []) (i : Nat) :
    cycledValue (.jlist vs) (i + vs.length) = cycledValue (.jlist vs) i := by
  match vs, hne with
  | v :: rest, _ => simp [cycledValue, Nat.add_mod_right]

theorem restyleKeyStep_cycle_shift (tc : Nat → List PathEl → Bool)
    (k : String) (vs : List JVal) (hne : vs ≠ []) :
    ∀ (tis : List Int) (data : List JVal) (i : Nat) (acc : Bool),
      restyleKeyStep tc k (.jlist vs) data (i + vs.length) tis acc =
        restyleKeyStep tc k (.jlist vs) data i tis acc := by
  intro tis
  induction tis with
  | nil => intro data i acc; rfl
  | cons ti rest ih =>
    intro data i acc
    simp only [restyleKeyStep, cycledValue_shift vs hne]
    have harr : i + vs.length + 1 = (i + 1) + vs.length := by omega
    simp only [harr, ih]

theorem performRestyleGo_spec (tc : Nat → List PathEl → Bool) :
    ∀ (rd : List (String × JVal)) (data : List JVal) (tis : List Int)
      (acc : List (String × JVal)),
      performRestyleGo tc data rd tis acc =
        ((restyleSpecGo tc data rd tis).1,
          match (restyleSpecGo tc data rd tis).2 with
          | Except.error e => Except.error e
          | Except.ok ch => Except.ok (acc ++ ch)) := by
  intro rd
  induction rd with
  | nil => intro data tis acc; simp [performRestyleGo, restyleSpecGo]
  | cons kv restKeys ih =>
    intro data tis acc
    obtain ⟨k, v⟩ := kv
    simp only [performRestyleGo, restyleSpecGo]
    rcases hstep : restyleKeyStep tc k v data 0 tis false with ⟨d2, res⟩
    cases res with
    | error e => simp
    | ok flag =>
      simp only []
      rw [ih d2 tis]
      rcases hspec : restyleSpecGo tc d2 restKeys tis with ⟨d3, res2⟩
      cases res2 with
      | error e => simp
      | ok ch =>
        cases flag <;> simp

/-- C4 (corrected) — counterexample: restyling `{'a[0]': None}` on a
trace whose data is `{'a': [None]}` leaves the trace data byte-for-byte
unchanged yet produces the nonempty changeset `{'a[0]': None}` (the
`_set_in` null-assignment into an occupied list slot reports a change),
so the changeset does not contain "exactly the edit keys for which at
least one targeted trace's data actually changed". -/
theorem restyle_changeset_without_change :
    performRestyle (fun _ _ => true)
        [.jdict [(.name "a", .jlist [JVal.null])]] [("a[0]", JVal.null)]
        [0] =
      ([.jdict [(.name "a", .jlist [JVal.null])]],
        Except.ok [("a[0]", JVal.null)]) := by
  rfl

/-- C4 (amended): a scalar edit value behaves identically to a
one-element list value (so it is applied to every targeted trace); a
list value is cycled modulo its length across the enumerated target
positions (shifting the enumeration by the list length changes nothing);
trace indexes default to all traces in order; and the changeset is the
subsequence of the edit items whose pass had at least one `_set_in`
application report a change (which can differ from the trace data
actually changing). -/
theorem restyle_cycling_and_changeset :
    (∀ n, normalizeTraceIndexes n .noneArg =
        (List.range n).map (fun j => (j : Int))) ∧
    (∀ (tc : Nat → List PathEl → Bool) (k : String) (v : JVal),
        (∀ xs, v ≠ .jlist xs) →
        ∀ (tis : List Int) (data : List JVal) (i : Nat) (acc : Bool),
          restyleKeyStep tc k v data i tis acc =
            restyleKeyStep tc k (.jlist [v]) data i tis acc) ∧
    (∀ (tc : Nat → List PathEl → Bool) (k : String) (vs : List JVal),
        vs ≠ [] →
        ∀ (tis : List Int) (data : List JVal) (i : Nat) (acc : Bool),
          restyleKeyStep tc k (.jlist vs) data (i + vs.length) tis acc =
            restyleKeyStep tc k (.jlist vs) data i tis acc) ∧
    (∀ (tc : Nat → List PathEl → Bool) (rd : List (String × JVal))
        (data : List JVal) (tis : List Int),
        performRestyle tc data rd tis =
          ((restyleSpecGo tc data rd tis).1,
            match (restyleSpecGo tc data rd tis).2 with
            | Except.error e => Except.error e
            | Except.ok ch => Except.ok ch)) := by
  refine ⟨fun n => rfl, restyleKeyStep_scalar_singleton,
    restyleKeyStep_cycle_shift, ?_⟩
  intro tc rd data tis
  have h := performRestyleGo_spec tc rd data tis []
  simpa [performRestyle] using h

/-- C4 witness: the amended statement applied at concrete inputs. -/
theorem restyle_cycling_and_changeset_witness :
    normalizeTraceIndexes 2 .noneArg = [(0 : Int), 1] ∧
    restyleKeyStep (fun _ _ => true) "a" (.ji 7) [.jdict [], .jdict []] 0
        [0, 1] false =
      restyleKeyStep (fun _ _ => true) "a" (.jlist [.ji 7])
        [.jdict [], .jdict []] 0 [0, 1] false ∧
    restyleKeyStep (fun _ _ => true) "a" (.jlist [.ji 1, .ji 2])
        [.jdict []] 2 [0] false =
      restyleKeyStep (fun _ _ => true) "a" (.jlist [.ji 1, .ji 2])
        [.jdict []] 0 [0] false ∧
    performRestyle (fun _ _ => true) [.jdict []] [("a", .ji 7)] [0] =
      ((restyleSpecGo (fun _ _ => true) [.jdict []] [("a", .ji 7)] [0]).1,
        match (restyleSpecGo (fun _ _ => true) [.jdict []] [("a", .ji 7)]
            [0]).2 with
        | Except.error e => Except.error e
        | Except.ok ch => Except.ok ch) :=
  ⟨restyle_cycling_and_changeset.1 2,
    restyle_cycling_and_changeset.2.1 (fun _ _ => true) "a" (.ji 7)
      (fun xs h => JVal.noConfusion h) [0, 1] [.jdict [], .jdict []] 0 false,
    restyle_cycling_and_changeset.2.2.1 (fun _ _ => true) "a"
      [.ji 1, .ji 2] (by simp) [0] [.jdict []] 0 false,
    restyle_cycling_and_changeset.2.2.2 (fun _ _ => true) [("a", .ji 7)]
      [.jdict []] [0]⟩

/-! ## Event shape of the three mutation operations (C1) -/

theorem isSyncMsg_false_of_invoke (e : Ev) (h : isInvokeEv e = true) :
    isSyncMsg e = false := by
  cases e <;> simp_all [isInvokeEv, isSyncMsg]

theorem dispatchRegsAt_all_invoke (regs : List Reg) (sfx : List (List PathEl))
    (root : JVal) (pre : List PathEl) :
    (dispatchRegsAt regs sfx root pre).all isInvokeEv = true := by
  rw [List.all_eq_true]
  intro e he
  rw [dispatchRegsAt] at he
  obtain ⟨reg, _, he2⟩ := List.mem_flatMap.mp he
  split at he2
  · obtain ⟨c, _, hc⟩ := List.mem_map.mp he2
    subst hc
    rfl
  · simp at he2

theorem dispatchLayoutCbs_all_invoke (ctx : FigCtx) (keys : List String)
    (layout : JVal) :
    (dispatchLayoutCbs ctx keys layout).all isInvokeEv = true := by
  rw [List.all_eq_true]
  intro e he
  rw [dispatchLayoutCbs] at he
  obtain ⟨pc, _, he2⟩ := List.mem_flatMap.mp he
  have := dispatchRegsAt_all_invoke (regsAt ctx.layoutRegs pc.1) pc.2 layout pc.1
  rw [List.all_eq_true] at this
  exact this e he2

theorem dispatchTraceCbs_all_invoke (ctx : FigCtx) (keys : List String)
    (tis : List Int) (data : List JVal) :
    (dispatchTraceCbs ctx keys tis data).all isInvokeEv = true := by
  rw [List.all_eq_true]
  intro e he
  rw [dispatchTraceCbs] at he
  obtain ⟨pc, _, he2⟩ := List.mem_flatMap.mp he
  obtain ⟨ti, _, he3⟩ := List.mem_flatMap.mp he2
  split at he3
  · rename_i pos hres
    have := dispatchRegsAt_all_invoke
      (regsAt (ctx.traceRegs.getD pos []) pc.1) pc.2
      (data.getD pos (.jdict [])) pc.1
    rw [List.all_eq_true] at this
    exact this e he3
  · simp at he3

theorem syncPrecedesNotify_of_all_invoke (evs : List Ev)
    (h : evs.all isInvokeEv = true) : syncPrecedesNotify evs = true := by
  induction evs with
  | nil => rfl
  | cons e rest ih =>
    simp only [List.all_cons, Bool.and_eq_true] at h
    have hrest : rest.all (fun x => !isSyncMsg x) = true := by
      rw [List.all_eq_true]
      intro x hx
      rw [List.all_eq_true] at h
      simp [isSyncMsg_false_of_invoke x (h.2 x hx)]
    simp only [syncPrecedesNotify, Bool.and_eq_true]
    constructor
    · split
      · exact hrest
      · rfl
    · exact ih h.2

theorem syncPrecedesNotify_cons_of_all_invoke (e : Ev) (rest : List Ev)
    (h : rest.all isInvokeEv = true) :
    syncPrecedesNotify (e :: rest) = true := by
  simp only [syncPrecedesNotify, Bool.and_eq_true]
  constructor
  · split
    · rw [List.all_eq_true]
      intro x hx
      rw [List.all_eq_true] at h
      simp [isSyncMsg_false_of_invoke x (h x hx)]
    · rfl
  · exact syncPrecedesNotify_of_all_invoke rest h

theorem countP_sync_of_all_invoke (evs : List Ev)
    (h : evs.all isInvokeEv = true) : evs.countP isSyncMsg = 0 := by
  rw [List.countP_eq_zero]
  intro e he
  rw [List.all_eq_true] at h
  simp [isSyncMsg_false_of_invoke e (h e he)]

/-- C1 (corrected) — counterexample to the claimed order: a relayout of
`{'a': 1}` on a figure with a layout callback emits the relayout sync
message first and the callback invocation second, so observers are
notified after (not before) the sync message is emitted. -/
theorem relayout_notify_after_sync :
    (plotlyRelayout cexCtx cexFig [("a", .ji 1)]).events =
        [Ev.relayoutMsg [("a", .ji 1)], Ev.invoke 5 [some (.ji 1)]] ∧
      notifyPrecedesSync
          (plotlyRelayout cexCtx cexFig [("a", .ji 1)]).events = false := by
  exact ⟨rfl, rfl⟩

/-- C1 (amended): each of `plotly_restyle`, `plotly_relayout` and
`plotly_update` runs as (a) compute the changeset while applying the
changes to the authoritative state, then — exactly when the changeset is
non-trivial — (d) emit the corresponding sync message and afterwards (c)
notify the registered change observers: every sync message precedes
every callback invocation, there is at most one sync message, an empty
changeset produces no events at all, and a nonempty changeset produces
exactly the sync message followed by the dispatch events. -/
theorem op_sync_then_notify :
    (∀ (ctx : FigCtx) (f : Figure) (rd : List (String × JVal))
        (tia : TraceIndexArg),
        (plotlyRestyle ctx f rd tia).err = none →
        syncPrecedesNotify (plotlyRestyle ctx f rd tia).events = true ∧
        (plotlyRestyle ctx f rd tia).events.countP isSyncMsg ≤ 1 ∧
        (∀ changes,
          (performRestyle ctx.traceContains f.fdata rd
              (normalizeTraceIndexes f.fdata.length tia)).2 =
            Except.ok changes →
          (changes.isEmpty = true →
            (plotlyRestyle ctx f rd tia).events = []) ∧
          (changes.isEmpty = false →
            (plotlyRestyle ctx f rd tia).events =
              Ev.restyleMsg changes
                  (normalizeTraceIndexes f.fdata.length tia) ::
                dispatchTraceCbs ctx (changes.map (fun c => c.1))
                  (normalizeTraceIndexes f.fdata.length tia)
                  (performRestyle ctx.traceContains f.fdata rd
                    (normalizeTraceIndexes f.fdata.length tia)).1))) ∧
    (∀ (ctx : FigCtx) (f : Figure) (rld : List (String × JVal)),
        (plotlyRelayout ctx f rld).err = none →
        syncPrecedesNotify (plotlyRelayout ctx f rld).events = true ∧
        (plotlyRelayout ctx f rld).events.countP isSyncMsg ≤ 1 ∧
        (∀ changes,
          (performRelayout ctx.layoutContains f.flayout rld).2 =
            Except.ok changes →
          (changes.isEmpty = true →
            (plotlyRelayout ctx f rld).events = []) ∧
          (changes.isEmpty = false →
            (plotlyRelayout ctx f rld).events =
              Ev.relayoutMsg changes ::
                dispatchLayoutCbs ctx (changes.map (fun c => c.1))
                  (performRelayout ctx.layoutContains f.flayout rld).1))) ∧
    (∀ (ctx : FigCtx) (f : Figure) (rd rld : Option (List (String × JVal)))
        (tia : TraceIndexArg),
        (plotlyUpdate ctx f rd rld tia).err = none →
        syncPrecedesNotify (plotlyUpdate ctx f rd rld tia).events = true ∧
        (plotlyUpdate ctx f rd rld tia).events.countP isSyncMsg ≤ 1 ∧
        ((performUpdate ctx f rd rld tia).2 = Except.ok none →
          (plotlyUpdate ctx f rd rld tia).events = []) ∧
        (∀ rst rly tis,
          (performUpdate ctx f rd rld tia).2 =
            Except.ok (some (rst, rly, tis)) →
          ((rst.isEmpty = true ∧ rly.isEmpty = true) →
            (plotlyUpdate ctx f rd rld tia).events = []) ∧
          (¬(rst.isEmpty = true ∧ rly.isEmpty = true) →
            (plotlyUpdate ctx f rd rld tia).events =
              Ev.updateMsg rst rly tis ::
                ((if !rst.isEmpty then
                    dispatchTraceCbs ctx (rst.map (fun c => c.1)) tis
                      (performUpdate ctx f rd rld tia).1.fdata
                  else []) ++
                  (if !rly.isEmpty then
                    dispatchLayoutCbs ctx (rly.map (fun c => c.1))
                      (performUpdate ctx f rd rld tia).1.flayout
                  else []))))) := by
  refine ⟨?_, ?_, ?_⟩
  · intro ctx f rd tia herr
    rcases hperf : performRestyle ctx.traceContains f.fdata rd
        (normalizeTraceIndexes f.fdata.length tia) with ⟨data2, res⟩
    cases res with
    | error e =>
      exfalso
      simp only [plotlyRestyle, hperf] at herr
      simp at herr
    | ok changes =>
      by_cases hemp : changes.isEmpty
      · have hev : (plotlyRestyle ctx f rd tia).events = [] := by
          simp [plotlyRestyle, hperf, hemp]
        refine ⟨by simp [hev, syncPrecedesNotify], by simp [hev], ?_⟩
        intro changes2 hch
        simp only [hperf, Except.ok.injEq] at hch
        subst hch
        refine ⟨fun _ => hev, fun hne => ?_⟩
        rw [hemp] at hne
        cases hne
      · have hev : (plotlyRestyle ctx f rd tia).events =
            Ev.restyleMsg changes (normalizeTraceIndexes f.fdata.length tia) ::
              dispatchTraceCbs ctx (changes.map (fun c => c.1))
                (normalizeTraceIndexes f.fdata.length tia) data2 := by
          simp [plotlyRestyle, hperf, hemp]
        refine ⟨?_, ?_, ?_⟩
        · rw [hev]
          exact syncPrecedesNotify_cons_of_all_invoke _ _
            (dispatchTraceCbs_all_invoke ctx _ _ data2)
        · rw [hev, List.countP_cons]
          rw [countP_sync_of_all_invoke _
            (dispatchTraceCbs_all_invoke ctx _ _ data2)]
          simp [isSyncMsg]
        · intro changes2 hch
          simp only [hperf, Except.ok.injEq] at hch
          subst hch
          refine ⟨fun he => absurd he hemp, fun _ => ?_⟩
          exact hev
  · intro ctx f rld herr
    rcases hperf : performRelayout ctx.layoutContains f.flayout rld with
      ⟨l2, res⟩
    cases res with
    | error e =>
      exfalso
      simp only [plotlyRelayout, hperf] at herr
      simp at herr
    | ok changes =>
      by_cases hemp : changes.isEmpty
      · have hev : (plotlyRelayout ctx f rld).events = [] := by
          simp [plotlyRelayout, hperf, hemp]
        refine ⟨by simp [hev, syncPrecedesNotify], by simp [hev], ?_⟩
        intro changes2 hch
        simp only [hperf, Except.ok.injEq] at hch
        subst hch
        refine ⟨fun _ => hev, fun hne => ?_⟩
        rw [hemp] at hne
        cases hne
      · have hev : (plotlyRelayout ctx f rld).events =
            Ev.relayoutMsg changes ::
              dispatchLayoutCbs ctx (changes.map (fun c => c.1)) l2 := by
          simp [plotlyRelayout, hperf, hemp]
        refine ⟨?_, ?_, ?_⟩
        · rw [hev]
          exact syncPrecedesNotify_cons_of_all_invoke _ _
            (dispatchLayoutCbs_all_invoke ctx _ l2)
        · rw [hev, List.countP_cons]
          rw [countP_sync_of_all_invoke _
            (dispatchLayoutCbs_all_invoke ctx _ l2)]
          simp [isSyncMsg]
        · intro changes2 hch
          simp only [hperf, Except.ok.injEq] at hch
          subst hch
          refine ⟨fun he => absurd he hemp, fun _ => ?_⟩
          exact hev
  · intro ctx f rd rld tia herr
    rcases hperf : performUpdate ctx f rd rld tia with ⟨f2, res⟩
    cases res with
    | error e =>
      exfalso
      simp only [plotlyUpdate, hperf] at herr
      simp at herr
    | ok changes =>
      cases changes with
      | none =>
        have hev : (plotlyUpdate ctx f rd rld tia).events = [] := by
          simp [plotlyUpdate, hperf]
        refine ⟨by simp [hev, syncPrecedesNotify], by simp [hev],
          fun _ => hev, ?_⟩
        intro rst rly tis hch
        simp [hperf] at hch
      | some tr =>
        obtain ⟨rst, rly, tis⟩ := tr
        have hev : (plotlyUpdate ctx f rd rld tia).events =
            (if !rst.isEmpty || !rly.isEmpty then
                [Ev.updateMsg rst rly tis] else []) ++
              ((if !rst.isEmpty then
                  dispatchTraceCbs ctx (rst.map (fun c => c.1)) tis f2.fdata
                else []) ++
                (if !rly.isEmpty then
                  dispatchLayoutCbs ctx (rly.map (fun c => c.1)) f2.flayout
                else [])) := by
          simp [plotlyUpdate, hperf, List.append_assoc]
        have hall :
            ((if !rst.isEmpty then
                dispatchTraceCbs ctx (rst.map (fun c => c.1)) tis f2.fdata
              else []) ++
              (if !rly.isEmpty then
                dispatchLayoutCbs ctx (rly.map (fun c => c.1)) f2.flayout
              else [])).all isInvokeEv = true := by
          rw [List.all_append, Bool.and_eq_true]
          constructor
          · split
            · exact dispatchTraceCbs_all_invoke ctx _ tis f2.fdata
            · rfl
          · split
            · exact dispatchLayoutCbs_all_invoke ctx _ f2.flayout
            · rfl
        refine ⟨?_, ?_, ?_, ?_⟩
        · rw [hev]
          split
          · rw [List.singleton_append]
            exact syncPrecedesNotify_cons_of_all_invoke _ _ hall
          · rw [List.nil_append]
            exact syncPrecedesNotify_of_all_invoke _ hall
        · rw [hev]
          split
          · rw [List.singleton_append, List.countP_cons,
              countP_sync_of_all_invoke _ hall]
            simp [isSyncMsg]
          · rw [List.nil_append, countP_sync_of_all_invoke _ hall]
            simp
        · intro hch
          simp [hperf] at hch
        · intro rst2 rly2 tis2 hch
          simp only [hperf, Except.ok.injEq, Option.some.injEq,
            Prod.mk.injEq] at hch
          obtain ⟨h1, h2, h3⟩ := hch
          subst h1
          subst h2
          subst h3
          constructor
          · rintro ⟨her, hel⟩
            rw [hev]
            simp [her, hel]
          · intro hne
            have hcond : (!rst.isEmpty || !rly.isEmpty) = true := by
              cases hr : rst.isEmpty <;> cases hl : rly.isEmpty <;>
                simp_all
            rw [hev, if_pos hcond]
            rfl

/-- C1 witness: the amended characterization applied to a concrete
restyle call. -/
theorem op_sync_then_notify_witness :
    syncPrecedesNotify
        (plotlyRestyle cexCtx cexFig [("a", .ji 1)] (.many [0])).events =
      true ∧
    (plotlyRestyle cexCtx cexFig [("a", .ji 1)]
        (.many [0])).events.countP isSyncMsg ≤ 1 ∧
    (∀ changes,
      (performRestyle cexCtx.traceContains cexFig.fdata [("a", .ji 1)]
          (normalizeTraceIndexes cexFig.fdata.length (.many [0]))).2 =
        Except.ok changes →
      (changes.isEmpty = true →
        (plotlyRestyle cexCtx cexFig [("a", .ji 1)] (.many [0])).events =
          []) ∧
      (changes.isEmpty = false →
        (plotlyRestyle cexCtx cexFig [("a", .ji 1)] (.many [0])).events =
          Ev.restyleMsg changes
              (normalizeTraceIndexes cexFig.fdata.length (.many [0])) ::
            dispatchTraceCbs cexCtx (changes.map (fun c => c.1))
              (normalizeTraceIndexes cexFig.fdata.length (.many [0]))
              (performRestyle cexCtx.traceContains cexFig.fdata
                [("a", .ji 1)]
                (normalizeTraceIndexes cexFig.fdata.length
                  (.many [0]))).1)) :=
  op_sync_then_notify.1 cexCtx cexFig [("a", .ji 1)] (.many [0]) rfl

/-! ## Dispatch-plan semantics and at-most-once dispatch (C5) -/

theorem list_contains_iff {α : Type} [DecidableEq α] (l : List α) (a : α) :
    l.contains a = true ↔ a ∈ l := by
  simp

theorem pathLeads_iff (a l : List PathEl) :
    pathLeads a l = true ↔ ∃ t, a ++ t = l := by
  induction a generalizing l with
  | nil => simp [pathLeads]
  | cons x xs ih =>
    cases l with
    | nil => simp [pathLeads]
    | cons y ys =>
      simp only [pathLeads, Bool.and_eq_true, decide_eq_true_eq, ih]
      constructor
      · rintro ⟨rfl, t, rfl⟩; exact ⟨t, rfl⟩
      · rintro ⟨t, h⟩
        injection h with h1 h2
        exact ⟨h1, t, h2⟩

theorem count_flatMap_le {α : Type} (f : α → List Nat) (L : List α) (e : α)
    (he : e ∈ L) (c : Nat) : (f e).count c ≤ (L.flatMap f).count c := by
  induction L with
  | nil => cases he
  | cons a rest ih =>
    rw [List.flatMap_cons, List.count_append]
    rcases List.mem_cons.mp he with rfl | hmem
    · exact Nat.le_add_right _ _
    · exact (ih hmem).trans (Nat.le_add_left _ _)

theorem count_flatMap_two_le {α : Type} (f : α → List Nat) (L : List α)
    (e e2 : α) (he : e ∈ L) (he2 : e2 ∈ L) (hne : e ≠ e2) (c : Nat) :
    (f e).count c + (f e2).count c ≤ (L.flatMap f).count c := by
  induction L with
  | nil => cases he
  | cons a rest ih =>
    rw [List.flatMap_cons, List.count_append]
    rcases List.mem_cons.mp he with rfl | hmem
    · rcases List.mem_cons.mp he2 with rfl | hmem2
      · exact absurd rfl hne
      · exact Nat.add_le_add_left (count_flatMap_le f rest e2 hmem2 c) _
    · rcases List.mem_cons.mp he2 with rfl | hmem2
      · have h1 := count_flatMap_le f rest e hmem c
        omega
      · exact (ih hmem hmem2).trans (Nat.le_add_left _ _)

theorem countInvoke_map_invoke (cids : List Nat) (args : List (Option JVal))
    (cid : Nat) :
    countInvoke (cids.map (fun c => Ev.invoke c args)) cid = cids.count cid := by
  induction cids with
  | nil => rfl
  | cons c rest ih =>
    simp only [List.map_cons, countInvoke, List.countP_cons, invokeCid,
      List.count_cons] at *
    rw [ih]
    by_cases hc : c = cid
    · subst hc; simp
    · simp [hc]

theorem dispatchRegsAt_cons (reg : Reg) (rest : List Reg)
    (sfx : List (List PathEl)) (root : JVal) (pre : List PathEl) :
    dispatchRegsAt (reg :: rest) sfx root pre =
      (if reg.argPaths.any (fun a => sfx.contains a) then
        reg.cids.map (fun c =>
          Ev.invoke c (reg.argPaths.map (fun a => getIn root (pre ++ a))))
      else []) ++ dispatchRegsAt rest sfx root pre := by
  simp [dispatchRegsAt]

theorem countInvoke_dispatchRegsAt_le (regs : List Reg)
    (sfx : List (List PathEl)) (root : JVal) (pre : List PathEl) (cid : Nat) :
    countInvoke (dispatchRegsAt regs sfx root pre) cid ≤
      (regs.flatMap (fun r => r.cids)).count cid := by
  induction regs with
  | nil => simp [countInvoke, dispatchRegsAt]
  | cons reg rest ih =>
    rw [List.flatMap_cons, List.count_append, dispatchRegsAt_cons,
      countInvoke, List.countP_append]
    have h1 : List.countP (fun e => invokeCid e == some cid)
        (if reg.argPaths.any (fun a => sfx.contains a) then
          reg.cids.map (fun c =>
            Ev.invoke c (reg.argPaths.map (fun a => getIn root (pre ++ a))))
        else []) ≤ reg.cids.count cid := by
      split
      · exact Nat.le_of_eq (countInvoke_map_invoke reg.cids _ cid)
      · simp
    exact Nat.add_le_add h1 ih

theorem countInvoke_dispatchRegsAt_zero (regs : List Reg)
    (sfx : List (List PathEl)) (root : JVal) (pre : List PathEl) (cid : Nat)
    (h : cid ∉ regs.flatMap (fun r => r.cids)) :
    countInvoke (dispatchRegsAt regs sfx root pre) cid = 0 := by
  have h2 := countInvoke_dispatchRegsAt_le regs sfx root pre cid
  rw [List.count_eq_zero.mpr h] at h2
  exact Nat.le_zero.mp h2

theorem cid_mem_of_invoke_mem (regs : List Reg) (sfx : List (List PathEl))
    (root : JVal) (pre : List PathEl) (e : Ev) (cid : Nat)
    (he : e ∈ dispatchRegsAt regs sfx root pre)
    (hc : invokeCid e = some cid) :
    cid ∈ regs.flatMap (fun r => r.cids) := by
  simp only [dispatchRegsAt] at he
  rcases List.mem_flatMap.mp he with ⟨reg, hreg, hmem⟩
  rw [List.mem_flatMap]
  refine ⟨reg, hreg, ?_⟩
  split at hmem
  · rcases List.mem_map.mp hmem with ⟨c, hcmem, rfl⟩
    simp only [invokeCid, Option.some.injEq] at hc
    exact hc ▸ hcmem
  · cases hmem

theorem alGet_alAppend_self {κ β : Type} [DecidableEq κ]
    (plan : List (κ × List β)) (k : κ) (vs : List β) :
    alGet (alAppend plan k vs) k = some ((alGet plan k).getD [] ++ vs) := by
  induction plan with
  | nil => simp [alAppend, alGet]
  | cons pc rest ih =>
    obtain ⟨k2, l⟩ := pc
    by_cases hk : k2 = k
    · subst hk; simp [alAppend, alGet]
    · simp [alAppend, alGet, hk, ih]

theorem alGet_alAppend_ne {κ β : Type} [DecidableEq κ]
    (plan : List (κ × List β)) (k k2 : κ) (vs : List β) (hne : k2 ≠ k) :
    alGet (alAppend plan k vs) k2 = alGet plan k2 := by
  induction plan with
  | nil => simp [alAppend, alGet, show ¬(k = k2) from fun h => hne h.symm]
  | cons pc rest ih =>
    obtain ⟨k3, l⟩ := pc
    by_cases hk : k3 = k
    · subst hk
      simp [alAppend, alGet, show ¬(k3 = k2) from fun h => hne h.symm]
    · simp [alAppend, alGet, hk, ih]

theorem planMem_alAppend (plan : DispatchPlan) (k : List PathEl)
    (vs : List (List PathEl)) (pre a : List PathEl) :
    planMem (alAppend plan k vs) pre a = true ↔
      (planMem plan pre a = true ∨ (pre = k ∧ a ∈ vs)) := by
  by_cases hpk : pre = k
  · subst hpk
    rw [planMem, alGet_alAppend_self]
    cases hget : alGet plan pre with
    | none => simp [planMem, hget]
    | some sfx => simp [planMem, hget]
  · simp only [planMem, alGet_alAppend_ne _ _ _ _ hpk]
    simp [hpk]

theorem nePrefixes_mem (l a : List PathEl) :
    a ∈ nePrefixes l ↔ (a ≠ [] ∧ pathLeads a l = true) := by
  rw [nePrefixes]
  constructor
  · intro h
    rcases List.mem_map.mp h with ⟨i, hi, rfl⟩
    have hil : i < l.length := List.mem_range.mp hi
    constructor
    · have hlt : (l.take (i + 1)).length = i + 1 := by
        rw [List.length_take]
        omega
      intro hemp
      rw [hemp] at hlt
      simp at hlt
    · rw [pathLeads_iff]
      exact ⟨l.drop (i + 1), List.take_append_drop _ _⟩
  · rintro ⟨hne, hpl⟩
    rcases (pathLeads_iff a l).mp hpl with ⟨t, rfl⟩
    have hlen : 1 ≤ a.length := by
      cases a with
      | nil => exact absurd rfl hne
      | cons x xs => simp
    refine List.mem_map.mpr ⟨a.length - 1, ?_, ?_⟩
    · rw [List.mem_range, List.length_append]
      omega
    · rw [show a.length - 1 + 1 = a.length by omega]
      simp

theorem buildPlanGo_mem (left : List PathEl) :
    ∀ (pre0 : List PathEl) (plan : DispatchPlan) (pre a : List PathEl),
    planMem (buildPlanGo plan pre0 left) pre a = true ↔
      (planMem plan pre a = true ∨
        ∃ l1 l2, l1 ++ l2 = left ∧ pre = pre0 ++ l1 ∧ a ∈ nePrefixes l2) := by
  induction left with
  | nil =>
    intro pre0 plan pre a
    simp only [buildPlanGo]
    constructor
    · intro h; exact Or.inl h
    · rintro (h | ⟨l1, l2, hsplit, _, hmem⟩)
      · exact h
      · have h2 : l2 = [] := (List.append_eq_nil.mp hsplit).2
        subst h2
        simp [nePrefixes] at hmem
  | cons next rest ih =>
    intro pre0 plan pre a
    simp only [buildPlanGo]
    rw [ih, planMem_alAppend]
    constructor
    · rintro ((h | ⟨hpre, hmem⟩) | ⟨l1, l2, hsplit, hpre, hmem⟩)
      · exact Or.inl h
      · exact Or.inr ⟨[], next :: rest, rfl, by simpa using hpre, hmem⟩
      · refine Or.inr ⟨next :: l1, l2, ?_, ?_, hmem⟩
        · rw [List.cons_append, hsplit]
        · rw [hpre]
          simp
    · rintro (h | ⟨l1, l2, hsplit, hpre, hmem⟩)
      · exact Or.inl (Or.inl h)
      · cases l1 with
        | nil =>
          simp only [List.nil_append] at hsplit
          subst hsplit
          exact Or.inl (Or.inr ⟨by simpa using hpre, hmem⟩)
        | cons x l1t =>
          rw [List.cons_append] at hsplit
          injection hsplit with hx ht
          subst hx
          refine Or.inr ⟨l1t, l2, ht, ?_, hmem⟩
          rw [hpre]
          simp

theorem buildDispatchPlan_mem (keys : List String) (pre a : List PathEl) :
    planMem (buildDispatchPlan keys) pre a = true ↔
      (a ≠ [] ∧ ∃ k ∈ keys, pathLeads (pre ++ a) (strToDictPath k) = true) := by
  have hadd : ∀ kp : List PathEl,
      ((∃ l1 l2, l1 ++ l2 = kp ∧ pre = [] ++ l1 ∧ a ∈ nePrefixes l2) ↔
        (a ≠ [] ∧ pathLeads (pre ++ a) kp = true)) := by
    intro kp
    constructor
    · rintro ⟨l1, l2, hsplit, hpre, hmem⟩
      rcases (nePrefixes_mem l2 a).mp hmem with ⟨hne, hpl⟩
      rcases (pathLeads_iff a l2).mp hpl with ⟨t, rfl⟩
      refine ⟨hne, ?_⟩
      rw [pathLeads_iff]
      refine ⟨t, ?_⟩
      rw [List.nil_append] at hpre
      subst hpre
      rw [List.append_assoc]
      exact hsplit
    · rintro ⟨hne, hpl⟩
      rcases (pathLeads_iff _ _).mp hpl with ⟨t, hsplit⟩
      refine ⟨pre, a ++ t, ?_, by simp, ?_⟩
      · rw [← List.append_assoc]
        exact hsplit
      · rw [nePrefixes_mem]
        exact ⟨hne, (pathLeads_iff _ _).mpr ⟨t, rfl⟩⟩
  have hfold : ∀ (ks : List String) (plan : DispatchPlan),
      planMem (ks.foldl (fun pl k => buildPlanGo pl [] (strToDictPath k)) plan)
          pre a = true ↔
        (planMem plan pre a = true ∨
          ∃ k ∈ ks, a ≠ [] ∧ pathLeads (pre ++ a) (strToDictPath k) = true) := by
    intro ks
    induction ks with
    | nil => intro plan; simp
    | cons k rest ih =>
      intro plan
      rw [List.foldl_cons, ih, buildPlanGo_mem]
      constructor
      · rintro ((h | hadd2) | ⟨k2, hk2, hrest⟩)
        · exact Or.inl h
        · rcases (hadd _).mp hadd2 with ⟨hne, hpl⟩
          exact Or.inr ⟨k, List.mem_cons_self _ _, hne, hpl⟩
        · exact Or.inr ⟨k2, List.mem_cons_of_mem _ hk2, hrest⟩
      · rintro (h | ⟨k2, hk2, hne, hpl⟩)
        · exact Or.inl (Or.inl h)
        · rcases List.mem_cons.mp hk2 with rfl | hk2r
          · exact Or.inl (Or.inr ((hadd _).mpr ⟨hne, hpl⟩))
          · exact Or.inr ⟨k2, hk2r, hne, hpl⟩
  rw [buildDispatchPlan, hfold]
  have hempty : planMem [] pre a = false := by simp [planMem, alGet]
  rw [hempty]
  constructor
  · rintro (h | ⟨k, hk, hne, hpl⟩)
    · cases h
    · exact ⟨hne, k, hk, hpl⟩
  · rintro ⟨hne, k, hk, hpl⟩
    exact Or.inr ⟨k, hk, hne, hpl⟩

theorem alHas_alAppend {κ β : Type} [DecidableEq κ]
    (plan : List (κ × List β)) (k k2 : κ) (vs : List β) :
    alHas (alAppend plan k vs) k2 = (alHas plan k2 || decide (k2 = k)) := by
  by_cases hk : k2 = k
  · subst hk
    simp [alHas, alGet_alAppend_self]
  · simp [alHas, alGet_alAppend_ne _ _ _ _ hk, hk]

theorem nodupKeys_alAppend {κ β : Type} [DecidableEq κ]
    (plan : List (κ × List β)) (k : κ) (vs : List β)
    (h : nodupKeys plan = true) : nodupKeys (alAppend plan k vs) = true := by
  induction plan with
  | nil => simp [alAppend, nodupKeys, alHas, alGet]
  | cons pc rest ih =>
    obtain ⟨k2, l⟩ := pc
    simp only [nodupKeys, Bool.and_eq_true] at h
    by_cases hk : k2 = k
    · subst hk
      simp only [alAppend, if_pos rfl]
      simp only [nodupKeys, Bool.and_eq_true]
      exact ⟨h.1, h.2⟩
    · simp only [alAppend, if_neg hk]
      simp only [nodupKeys, Bool.and_eq_true]
      refine ⟨?_, ih h.2⟩
      rw [alHas_alAppend]
      have h1 : alHas rest k2 = false := by
        rcases h with ⟨hh, _⟩
        cases hr : alHas rest k2
        · rfl
        · rw [hr] at hh; cases hh
      rw [h1]
      simp [fun hkk : k2 = k => hk hkk]

theorem nodupKeys_buildPlanGo (left : List PathEl) :
    ∀ (pre : List PathEl) (plan : DispatchPlan),
    nodupKeys plan = true → nodupKeys (buildPlanGo plan pre left) = true := by
  induction left with
  | nil => intro pre plan h; simpa [buildPlanGo] using h
  | cons next rest ih =>
    intro pre plan h
    simp only [buildPlanGo]
    exact ih _ _ (nodupKeys_alAppend _ _ _ h)

theorem nodupKeys_buildDispatchPlan (keys : List String) :
    nodupKeys (buildDispatchPlan keys) = true := by
  rw [buildDispatchPlan]
  have hgen : ∀ (ks : List String) (plan : DispatchPlan),
      nodupKeys plan = true →
      nodupKeys
        (ks.foldl (fun pl k => buildPlanGo pl [] (strToDictPath k)) plan) =
        true := by
    intro ks
    induction ks with
    | nil => intro plan h; simpa using h
    | cons k rest ih =>
      intro plan h
      rw [List.foldl_cons]
      exact ih _ (nodupKeys_buildPlanGo _ _ _ h)
  exact hgen keys [] rfl

theorem alGet_mem {κ α : Type} [DecidableEq κ] (l : List (κ × α)) (k : κ)
    (v : α) (h : alGet l k = some v) : (k, v) ∈ l := by
  induction l with
  | nil => cases h
  | cons pc rest ih =>
    obtain ⟨k2, w⟩ := pc
    simp only [alGet] at h
    by_cases hk : k2 = k
    · subst hk
      rw [if_pos rfl] at h
      injection h with h
      exact h ▸ List.mem_cons_self _ _
    · rw [if_neg hk] at h
      exact List.mem_cons_of_mem _ (ih h)

theorem cidsAt_count_le_one (R : NodeRegs) (cid : Nat)
    (hn : (allCids R).Nodup) (p : List PathEl) :
    (cidsAt R p).count cid ≤ 1 := by
  rw [cidsAt, regsAt]
  cases hget : alGet R p with
  | none => simp
  | some regs =>
    have hmem : (p, regs) ∈ R := alGet_mem _ _ _ hget
    have h1 : (regs.flatMap (fun r => r.cids)).count cid ≤
        (allCids R).count cid :=
      count_flatMap_le (fun pr => pr.2.flatMap (fun r => r.cids)) R
        (p, regs) hmem cid
    have h2 := List.nodup_iff_count_le_one.mp hn cid
    simpa using h1.trans h2

theorem cidsAt_unique_node (R : NodeRegs) (cid : Nat)
    (hn : (allCids R).Nodup) (p p2 : List PathEl)
    (h1 : cid ∈ cidsAt R p) (h2 : cid ∈ cidsAt R p2) : p = p2 := by
  by_contra hne
  rw [cidsAt, regsAt] at h1 h2
  cases hg1 : alGet R p with
  | none => rw [hg1] at h1; simp at h1
  | some regs1 =>
    cases hg2 : alGet R p2 with
    | none => rw [hg2] at h2; simp at h2
    | some regs2 =>
      rw [hg1] at h1
      rw [hg2] at h2
      simp only [Option.getD_some] at h1 h2
      have hm1 : (p, regs1) ∈ R := alGet_mem _ _ _ hg1
      have hm2 : (p2, regs2) ∈ R := alGet_mem _ _ _ hg2
      have hpair : (p, regs1) ≠ (p2, regs2) := by
        intro h
        exact hne (congrArg Prod.fst h)
      have hcount := count_flatMap_two_le
        (fun pr => pr.2.flatMap (fun r => r.cids)) R (p, regs1) (p2, regs2)
        hm1 hm2 hpair cid
      have hz1 : (regs1.flatMap (fun r => r.cids)).count cid ≠ 0 :=
        fun h => (List.count_eq_zero.mp h) h1
      have hz2 : (regs2.flatMap (fun r => r.cids)).count cid ≠ 0 :=
        fun h => (List.count_eq_zero.mp h) h2
      have hall : (R.flatMap (fun pr => pr.2.flatMap (fun r => r.cids))).count
          cid ≤ 1 := List.nodup_iff_count_le_one.mp hn cid
      simp only at hcount
      omega

theorem countInvoke_flatMap_zero {α : Type} (L : List α) (g : α → List Ev)
    (cid : Nat) (h : ∀ x ∈ L, countInvoke (g x) cid = 0) :
    countInvoke (L.flatMap g) cid = 0 := by
  induction L with
  | nil => rfl
  | cons x rest ih =>
    simp only [List.flatMap_cons, countInvoke, List.countP_append]
    have h1 := h x (List.mem_cons_self _ _)
    rw [countInvoke] at h1
    rw [h1]
    have h2 := ih (fun y hy => h y (List.mem_cons_of_mem _ hy))
    rw [countInvoke] at h2
    rw [h2]

theorem countInvoke_plan_le_one (plan : DispatchPlan) (R : NodeRegs)
    (cid : Nat) (d : List PathEl × List (List PathEl) → List Ev)
    (hkeys : nodupKeys plan = true)
    (hb : ∀ pc, countInvoke (d pc) cid ≤ (cidsAt R pc.1).count cid)
    (hz : ∀ pc, cid ∉ cidsAt R pc.1 → countInvoke (d pc) cid = 0)
    (huniq : ∀ p, (cidsAt R p).count cid ≤ 1)
    (hone : ∀ p p2, cid ∈ cidsAt R p → cid ∈ cidsAt R p2 → p = p2) :
    countInvoke (plan.flatMap d) cid ≤ 1 := by
  induction plan with
  | nil => simp [countInvoke]
  | cons pc rest ih =>
    simp only [nodupKeys, Bool.and_eq_true] at hkeys
    simp only [List.flatMap_cons, countInvoke, List.countP_append]
    by_cases hin : cid ∈ cidsAt R pc.1
    · have hhead : countInvoke (d pc) cid ≤ 1 := (hb pc).trans (huniq pc.1)
      have hrest : countInvoke (rest.flatMap d) cid = 0 := by
        apply countInvoke_flatMap_zero
        intro pc2 hm
        apply hz
        intro hin2
        have hp : pc2.1 = pc.1 := hone _ _ hin2 hin
        have hhas : alHas rest pc2.1 = true := alHas_of_mem (v := pc2.2) (by simpa using hm)
        rw [hp] at hhas
        rcases hkeys with ⟨hk1, _⟩
        rw [hhas] at hk1
        cases hk1
      rw [countInvoke] at hhead hrest
      omega
    · have hhead := hz pc hin
      have hrest := ih hkeys.2
      rw [countInvoke] at hhead hrest
      omega

theorem countInvoke_dispatchLayoutCbs_le_one (ctx : FigCtx)
    (keys : List String) (layout : JVal) (cid : Nat)
    (hn : (allCids ctx.layoutRegs).Nodup) :
    countInvoke (dispatchLayoutCbs ctx keys layout) cid ≤ 1 := by
  rw [dispatchLayoutCbs]
  apply countInvoke_plan_le_one _ ctx.layoutRegs
  · exact nodupKeys_buildDispatchPlan keys
  · intro pc
    exact countInvoke_dispatchRegsAt_le _ _ _ _ _
  · intro pc h
    exact countInvoke_dispatchRegsAt_zero _ _ _ _ _ h
  · exact cidsAt_count_le_one _ _ hn
  · exact cidsAt_unique_node _ _ hn

theorem countInvoke_append (a b : List Ev) (cid : Nat) :
    countInvoke (a ++ b) cid = countInvoke a cid + countInvoke b cid := by
  simp [countInvoke, List.countP_append]

theorem cidsAt_subset_allCids (R : NodeRegs) (p : List PathEl) (cid : Nat)
    (h : cid ∈ cidsAt R p) : cid ∈ allCids R := by
  rw [cidsAt, regsAt] at h
  cases hget : alGet R p with
  | none => rw [hget] at h; simp at h
  | some regs =>
    rw [hget] at h
    simp only [Option.getD_some] at h
    rw [allCids]
    exact List.mem_flatMap.mpr ⟨(p, regs), alGet_mem _ _ _ hget, h⟩

theorem countInvoke_resolved_le {γ : Type} (tis : List γ) (g : γ → List Ev)
    (res : γ → Option Nat) (cid : Nat) (bound : Nat) (t0 : Nat)
    (hb : ∀ ti pos, res ti = some pos → pos = t0 →
      countInvoke (g ti) cid ≤ bound)
    (hz : ∀ ti, (∀ pos, res ti = some pos → pos ≠ t0) →
      countInvoke (g ti) cid = 0)
    (h4 : (tis.filterMap res).Nodup) :
    countInvoke (tis.flatMap g) cid ≤ bound := by
  induction tis with
  | nil => simp [countInvoke]
  | cons ti rest ih =>
    rw [List.flatMap_cons, countInvoke_append]
    rw [List.filterMap_cons] at h4
    cases hres : res ti with
    | none =>
      simp only [hres] at h4
      have h0 := hz ti (fun pos hp => by rw [hres] at hp; cases hp)
      rw [h0]
      simpa using ih h4
    | some pos =>
      simp only [hres] at h4
      rcases List.nodup_cons.mp h4 with ⟨hpos, hnd⟩
      by_cases hpt : pos = t0
      · have hh := hb ti pos hres hpt
        have hrest : countInvoke (rest.flatMap g) cid = 0 := by
          apply countInvoke_flatMap_zero
          intro ti2 hm
          apply hz
          intro pos2 hp2 hpeq
          apply hpos
          refine List.mem_filterMap.mpr ⟨ti2, hm, ?_⟩
          rw [hp2, hpeq, hpt]
        rw [hrest]
        simpa using hh
      · have h0 := hz ti (fun pos2 hp2 => by
          rw [hres] at hp2
          injection hp2 with h
          exact h ▸ hpt)
        rw [h0]
        simpa using ih hnd

theorem countInvoke_dispatchTraceCbs_le_one (ctx : FigCtx)
    (keys : List String) (tis : List Int) (data : List JVal) (cid t0 : Nat)
    (hn : (allCids (ctx.traceRegs.getD t0 [])).Nodup)
    (h3 : ∀ t, t ≠ t0 → cid ∉ allCids (ctx.traceRegs.getD t []))
    (h4 : (tis.filterMap (fun ti => pyResolveIdx data.length ti)).Nodup) :
    countInvoke (dispatchTraceCbs ctx keys tis data) cid ≤ 1 := by
  rw [dispatchTraceCbs]
  apply countInvoke_plan_le_one _ (ctx.traceRegs.getD t0 [])
  · exact nodupKeys_buildDispatchPlan keys
  · intro pc
    apply countInvoke_resolved_le _ _ (fun ti => pyResolveIdx data.length ti)
      _ _ t0 _ _ h4
    · intro ti pos hres hpt
      subst hpt
      simp only [hres]
      exact countInvoke_dispatchRegsAt_le _ _ _ _ _
    · intro ti hno
      cases hres : pyResolveIdx data.length ti with
      | none =>
        simp only [hres]
        rfl
      | some pos =>
        simp only [hres]
        by_cases hpt : pos = t0
        · exact absurd hpt (hno pos hres)
        · exact countInvoke_dispatchRegsAt_zero _ _ _ _ _
            (fun hc => h3 pos hpt (cidsAt_subset_allCids _ _ _ hc))
  · intro pc hnotin
    apply countInvoke_flatMap_zero
    intro ti _
    cases hres : pyResolveIdx data.length ti with
    | none =>
      simp only [hres]
      rfl
    | some pos =>
      simp only [hres]
      by_cases hpt : pos = t0
      · subst hpt
        exact countInvoke_dispatchRegsAt_zero _ _ _ _ _ hnotin
      · exact countInvoke_dispatchRegsAt_zero _ _ _ _ _
          (fun hc => h3 pos hpt (cidsAt_subset_allCids _ _ _ hc))
  · exact cidsAt_count_le_one _ _ hn
  · exact cidsAt_unique_node _ _ hn

theorem alGet_of_mem_nodup {κ α : Type} [DecidableEq κ] (l : List (κ × α))
    (k : κ) (v : α) (hnd : nodupKeys l = true) (h : (k, v) ∈ l) :
    alGet l k = some v := by
  induction l with
  | nil => cases h
  | cons pc rest ih =>
    obtain ⟨k2, w⟩ := pc
    simp only [nodupKeys, Bool.and_eq_true] at hnd
    rcases List.mem_cons.mp h with heq | hmem
    · injection heq with h1 h2
      subst h1
      subst h2
      simp [alGet]
    · by_cases hk : k2 = k
      · subst hk
        have hhas := alHas_of_mem (v := v) hmem
        rcases hnd with ⟨h1, _⟩
        rw [hhas] at h1
        cases h1
      · simp only [alGet, if_neg hk]
        exact ih hnd.2 hmem

theorem invoke_mem_dispatchLayoutCbs (ctx : FigCtx) (keys : List String)
    (layout : JVal) (pre : List PathEl) (reg : Reg) (cid : Nat)
    (hreg : reg ∈ regsAt ctx.layoutRegs pre) (hcid : cid ∈ reg.cids)
    (a : List PathEl) (hap : a ∈ reg.argPaths)
    (hpm : planMem (buildDispatchPlan keys) pre a = true) :
    Ev.invoke cid (reg.argPaths.map (fun p2 => getIn layout (pre ++ p2))) ∈
      dispatchLayoutCbs ctx keys layout := by
  simp only [planMem] at hpm
  cases hget : alGet (buildDispatchPlan keys) pre with
  | none =>
    rw [hget] at hpm
    cases hpm
  | some sfx =>
    rw [hget] at hpm
    rw [dispatchLayoutCbs]
    refine List.mem_flatMap.mpr ⟨(pre, sfx), alGet_mem _ _ _ hget, ?_⟩
    simp only [dispatchRegsAt, List.mem_flatMap]
    refine ⟨reg, hreg, ?_⟩
    have hfire : reg.argPaths.any (fun p2 => sfx.contains p2) = true :=
      List.any_eq_true.mpr ⟨a, hap, hpm⟩
    rw [if_pos hfire]
    exact List.mem_map.mpr ⟨cid, hcid, rfl⟩

theorem countInvoke_dispatchLayoutCbs_zero (ctx : FigCtx)
    (keys : List String) (layout : JVal) (pre : List PathEl) (cid : Nat)
    (hwhere : ∀ p, cid ∈ cidsAt ctx.layoutRegs p → p = pre)
    (hnof : ∀ reg, reg ∈ regsAt ctx.layoutRegs pre → cid ∈ reg.cids →
      ∀ a ∈ reg.argPaths, planMem (buildDispatchPlan keys) pre a = false) :
    countInvoke (dispatchLayoutCbs ctx keys layout) cid = 0 := by
  rw [dispatchLayoutCbs, countInvoke, List.countP_eq_zero]
  intro e he hp
  have hcide : invokeCid e = some cid := by simpa using hp
  rcases List.mem_flatMap.mp he with ⟨pc, hpc, hme⟩
  have hcid2 : cid ∈ cidsAt ctx.layoutRegs pc.1 :=
    cid_mem_of_invoke_mem _ _ _ _ _ _ hme hcide
  have hpre : pc.1 = pre := hwhere _ hcid2
  simp only [dispatchRegsAt] at hme
  rcases List.mem_flatMap.mp hme with ⟨reg, hreg, hmem⟩
  split at hmem
  · rename_i hfire
    rcases List.mem_map.mp hmem with ⟨c, hc, rfl⟩
    simp only [invokeCid, Option.some.injEq] at hcide
    subst hcide
    rcases List.any_eq_true.mp hfire with ⟨a, hap, hcont⟩
    have hkeysnd := nodupKeys_buildDispatchPlan keys
    have hget : alGet (buildDispatchPlan keys) pc.1 = some pc.2 := by
      have hm2 : (pc.1, pc.2) ∈ buildDispatchPlan keys := by simpa using hpc
      exact alGet_of_mem_nodup _ _ _ hkeysnd hm2
    have hpmem : planMem (buildDispatchPlan keys) pc.1 a = true := by
      simp only [planMem, hget]
      exact hcont
    rw [hpre] at hreg hpmem
    have hfalse := hnof reg hreg hc a hap
    rw [hfalse] at hpmem
    cases hpmem
  · cases hmem

theorem countInvoke_cons_sync (e : Ev) (evs : List Ev) (cid : Nat)
    (h : invokeCid e = none) :
    countInvoke (e :: evs) cid = countInvoke evs cid := by
  simp [countInvoke, List.countP_cons, h]

theorem countInvoke_dispatchLayoutCbs_absent (ctx : FigCtx)
    (keys : List String) (layout : JVal) (cid : Nat)
    (h : cid ∉ allCids ctx.layoutRegs) :
    countInvoke (dispatchLayoutCbs ctx keys layout) cid = 0 := by
  rw [dispatchLayoutCbs]
  apply countInvoke_flatMap_zero
  intro pc _
  exact countInvoke_dispatchRegsAt_zero _ _ _ _ _
    (fun hc => h (cidsAt_subset_allCids _ _ _ hc))

theorem countInvoke_dispatchTraceCbs_absent (ctx : FigCtx)
    (keys : List String) (tis : List Int) (data : List JVal) (cid : Nat)
    (h : ∀ t, cid ∉ allCids (ctx.traceRegs.getD t [])) :
    countInvoke (dispatchTraceCbs ctx keys tis data) cid = 0 := by
  rw [dispatchTraceCbs]
  apply countInvoke_flatMap_zero
  intro pc _
  apply countInvoke_flatMap_zero
  intro ti _
  cases hres : pyResolveIdx data.length ti with
  | none =>
    simp only [hres]
    rfl
  | some pos =>
    simp only [hres]
    exact countInvoke_dispatchRegsAt_zero _ _ _ _ _
      (fun hc => h pos (cidsAt_subset_allCids _ _ _ hc))

theorem countInvoke_plotlyRelayout_le_one (ctx : FigCtx) (f : Figure)
    (rld : List (String × JVal)) (cid : Nat)
    (hn : (allCids ctx.layoutRegs).Nodup) :
    countInvoke (plotlyRelayout ctx f rld).events cid ≤ 1 := by
  rcases hperf : performRelayout ctx.layoutContains f.flayout rld with
    ⟨l2, res⟩
  cases res with
  | error e =>
    have hev : (plotlyRelayout ctx f rld).events = [] := by
      simp [plotlyRelayout, hperf]
    simp [hev, countInvoke]
  | ok changes =>
    by_cases hemp : changes.isEmpty
    · have hev : (plotlyRelayout ctx f rld).events = [] := by
        simp [plotlyRelayout, hperf, hemp]
      simp [hev, countInvoke]
    · have hev : (plotlyRelayout ctx f rld).events =
          Ev.relayoutMsg changes ::
            dispatchLayoutCbs ctx (changes.map (fun c => c.1)) l2 := by
        simp [plotlyRelayout, hperf, hemp]
      rw [hev, countInvoke_cons_sync (Ev.relayoutMsg changes) _ cid rfl]
      exact countInvoke_dispatchLayoutCbs_le_one _ _ _ _ hn

theorem countInvoke_plotlyRestyle_le_one (ctx : FigCtx) (f : Figure)
    (rd : List (String × JVal)) (tia : TraceIndexArg) (cid t0 : Nat)
    (hn : (allCids (ctx.traceRegs.getD t0 [])).Nodup)
    (h3 : ∀ t, t ≠ t0 → cid ∉ allCids (ctx.traceRegs.getD t []))
    (h4 : ((normalizeTraceIndexes f.fdata.length tia).filterMap
        (fun ti => pyResolveIdx
          (plotlyRestyle ctx f rd tia).fig.fdata.length ti)).Nodup) :
    countInvoke (plotlyRestyle ctx f rd tia).events cid ≤ 1 := by
  rcases hperf : performRestyle ctx.traceContains f.fdata rd
      (normalizeTraceIndexes f.fdata.length tia) with ⟨data2, res⟩
  cases res with
  | error e =>
    have hev : (plotlyRestyle ctx f rd tia).events = [] := by
      simp [plotlyRestyle, hperf]
    simp [hev, countInvoke]
  | ok changes =>
    by_cases hemp : changes.isEmpty
    · have hev : (plotlyRestyle ctx f rd tia).events = [] := by
        simp [plotlyRestyle, hperf, hemp]
      simp [hev, countInvoke]
    · have hev : (plotlyRestyle ctx f rd tia).events =
          Ev.restyleMsg changes (normalizeTraceIndexes f.fdata.length tia) ::
            dispatchTraceCbs ctx (changes.map (fun c => c.1))
              (normalizeTraceIndexes f.fdata.length tia) data2 := by
        simp [plotlyRestyle, hperf, hemp]
      have hdata : (plotlyRestyle ctx f rd tia).fig.fdata = data2 := by
        simp [plotlyRestyle, hperf, hemp]
      rw [hdata] at h4
      rw [hev, countInvoke_cons_sync
        (Ev.restyleMsg changes (normalizeTraceIndexes f.fdata.length tia)) _
        cid rfl]
      exact countInvoke_dispatchTraceCbs_le_one _ _ _ _ _ t0 hn h3 h4

theorem countInvoke_plotlyUpdate_le_one (ctx : FigCtx) (f : Figure)
    (rd rld : Option (List (String × JVal))) (tia : TraceIndexArg)
    (cid : Nat) (hn : (allCids ctx.layoutRegs).Nodup)
    (habs : ∀ t, cid ∉ allCids (ctx.traceRegs.getD t [])) :
    countInvoke (plotlyUpdate ctx f rd rld tia).events cid ≤ 1 := by
  rcases hperf : performUpdate ctx f rd rld tia with ⟨f2, res⟩
  cases res with
  | error e =>
    have hev : (plotlyUpdate ctx f rd rld tia).events = [] := by
      simp [plotlyUpdate, hperf]
    simp [hev, countInvoke]
  | ok changes =>
    cases changes with
    | none =>
      have hev : (plotlyUpdate ctx f rd rld tia).events = [] := by
        simp [plotlyUpdate, hperf]
      simp [hev, countInvoke]
    | some tr =>
      obtain ⟨rst, rly, tis⟩ := tr
      have hev : (plotlyUpdate ctx f rd rld tia).events =
          (if !rst.isEmpty || !rly.isEmpty then
              [Ev.updateMsg rst rly tis] else []) ++
            ((if !rst.isEmpty then
                dispatchTraceCbs ctx (rst.map (fun c => c.1)) tis f2.fdata
              else []) ++
              (if !rly.isEmpty then
                dispatchLayoutCbs ctx (rly.map (fun c => c.1)) f2.flayout
              else [])) := by
        simp [plotlyUpdate, hperf, List.append_assoc]
      rw [hev, countInvoke_append, countInvoke_append]
      have hmsg : countInvoke
          (if !rst.isEmpty || !rly.isEmpty then
            [Ev.updateMsg rst rly tis] else []) cid = 0 := by
        split <;> simp [countInvoke, invokeCid]
      have htr : countInvoke
          (if !rst.isEmpty then
            dispatchTraceCbs ctx (rst.map (fun c => c.1)) tis f2.fdata
          else []) cid = 0 := by
        split
        · exact countInvoke_dispatchTraceCbs_absent _ _ _ _ _ habs
        · simp [countInvoke]
      have hly : countInvoke
          (if !rly.isEmpty then
            dispatchLayoutCbs ctx (rly.map (fun c => c.1)) f2.flayout
          else []) cid ≤ 1 := by
        split
        · exact countInvoke_dispatchLayoutCbs_le_one _ _ _ _ hn
        · simp [countInvoke]
      omega

theorem invoke_mem_dispatchTraceCbs (ctx : FigCtx) (keys : List String)
    (tis : List Int) (data : List JVal) (ti : Int) (pos : Nat)
    (pre : List PathEl) (reg : Reg) (cid : Nat)
    (hti : ti ∈ tis) (hres : pyResolveIdx data.length ti = some pos)
    (hreg : reg ∈ regsAt (ctx.traceRegs.getD pos []) pre)
    (hcid : cid ∈ reg.cids)
    (a : List PathEl) (hap : a ∈ reg.argPaths)
    (hpm : planMem (buildDispatchPlan keys) pre a = true) :
    Ev.invoke cid
        (reg.argPaths.map (fun p2 =>
          getIn (data.getD pos (JVal.jdict [])) (pre ++ p2))) ∈
      dispatchTraceCbs ctx keys tis data := by
  simp only [planMem] at hpm
  cases hget : alGet (buildDispatchPlan keys) pre with
  | none =>
    rw [hget] at hpm
    cases hpm
  | some sfx =>
    rw [hget] at hpm
    rw [dispatchTraceCbs]
    refine List.mem_flatMap.mpr ⟨(pre, sfx), alGet_mem _ _ _ hget, ?_⟩
    refine List.mem_flatMap.mpr ⟨ti, hti, ?_⟩
    simp only [hres]
    simp only [dispatchRegsAt, List.mem_flatMap]
    refine ⟨reg, hreg, ?_⟩
    have hfire : reg.argPaths.any (fun p2 => sfx.contains p2) = true :=
      List.any_eq_true.mpr ⟨a, hap, hpm⟩
    rw [if_pos hfire]
    exact List.mem_map.mpr ⟨cid, hcid, rfl⟩

theorem countInvoke_dispatchTraceCbs_zero (ctx : FigCtx)
    (keys : List String) (tis : List Int) (data : List JVal)
    (t0 : Nat) (pre : List PathEl) (cid : Nat)
    (hwhere : ∀ t p, cid ∈ cidsAt (ctx.traceRegs.getD t []) p →
      t = t0 ∧ p = pre)
    (hnof : ∀ reg, reg ∈ regsAt (ctx.traceRegs.getD t0 []) pre →
      cid ∈ reg.cids →
      ∀ a ∈ reg.argPaths, planMem (buildDispatchPlan keys) pre a = false) :
    countInvoke (dispatchTraceCbs ctx keys tis data) cid = 0 := by
  rw [dispatchTraceCbs, countInvoke, List.countP_eq_zero]
  intro e he hp
  have hcide : invokeCid e = some cid := by simpa using hp
  rcases List.mem_flatMap.mp he with ⟨pc, hpc, hme⟩
  rcases List.mem_flatMap.mp hme with ⟨ti, hti, hme2⟩
  cases hres : pyResolveIdx data.length ti with
  | none =>
    rw [hres] at hme2
    cases hme2
  | some pos =>
    rw [hres] at hme2
    have hcid2 : cid ∈ cidsAt (ctx.traceRegs.getD pos []) pc.1 :=
      cid_mem_of_invoke_mem _ _ _ _ _ _ hme2 hcide
    obtain ⟨ht, hp1⟩ := hwhere pos pc.1 hcid2
    subst ht
    simp only [dispatchRegsAt] at hme2
    rcases List.mem_flatMap.mp hme2 with ⟨reg, hreg, hmem⟩
    split at hmem
    · rename_i hfire
      rcases List.mem_map.mp hmem with ⟨c, hc, rfl⟩
      simp only [invokeCid, Option.some.injEq] at hcide
      subst hcide
      rcases List.any_eq_true.mp hfire with ⟨a, hap, hcont⟩
      have hkeysnd := nodupKeys_buildDispatchPlan keys
      have hget : alGet (buildDispatchPlan keys) pc.1 = some pc.2 := by
        have hm2 : (pc.1, pc.2) ∈ buildDispatchPlan keys := by simpa using hpc
        exact alGet_of_mem_nodup _ _ _ hkeysnd hm2
      have hpmem : planMem (buildDispatchPlan keys) pc.1 a = true := by
        simp only [planMem, hget]
        exact hcont
      rw [hp1] at hreg hpmem
      have hfalse := hnof reg hreg hc a hap
      rw [hfalse] at hpmem
      cases hpmem
    · cases hmem

theorem performUpdate_tis (ctx : FigCtx) (f : Figure)
    (rd rld : Option (List (String × JVal))) (tia : TraceIndexArg)
    (rst rly : List (String × JVal)) (tis : List Int)
    (h : (performUpdate ctx f rd rld tia).2 =
      Except.ok (some (rst, rly, tis))) :
    tis = normalizeTraceIndexes f.fdata.length tia := by
  simp only [performUpdate] at h
  split at h
  · simp at h
  · split at h
    · simp at h
    · split at h
      · simp at h
      · simp only [Except.ok.injEq, Option.some.injEq, Prod.mk.injEq] at h
        exact h.2.2.symm

theorem countInvoke_plotlyUpdate_trace_le_one (ctx : FigCtx) (f : Figure)
    (rd rld : Option (List (String × JVal))) (tia : TraceIndexArg)
    (cid t0 : Nat)
    (hn : (allCids (ctx.traceRegs.getD t0 [])).Nodup)
    (h3 : ∀ t, t ≠ t0 → cid ∉ allCids (ctx.traceRegs.getD t []))
    (hly : cid ∉ allCids ctx.layoutRegs)
    (h4 : ((normalizeTraceIndexes f.fdata.length tia).filterMap
        (fun ti => pyResolveIdx
          (plotlyUpdate ctx f rd rld tia).fig.fdata.length ti)).Nodup) :
    countInvoke (plotlyUpdate ctx f rd rld tia).events cid ≤ 1 := by
  rcases hperf : performUpdate ctx f rd rld tia with ⟨f2, res⟩
  cases res with
  | error e =>
    have hev : (plotlyUpdate ctx f rd rld tia).events = [] := by
      simp [plotlyUpdate, hperf]
    simp [hev, countInvoke]
  | ok changes =>
    cases changes with
    | none =>
      have hev : (plotlyUpdate ctx f rd rld tia).events = [] := by
        simp [plotlyUpdate, hperf]
      simp [hev, countInvoke]
    | some tr =>
      obtain ⟨rst, rly, tis⟩ := tr
      have htis : tis = normalizeTraceIndexes f.fdata.length tia :=
        performUpdate_tis ctx f rd rld tia rst rly tis (by rw [hperf])
      have hfig : (plotlyUpdate ctx f rd rld tia).fig.fdata = f2.fdata := by
        simp [plotlyUpdate, hperf]
      rw [hfig, ← htis] at h4
      have hev : (plotlyUpdate ctx f rd rld tia).events =
          (if !rst.isEmpty || !rly.isEmpty then
              [Ev.updateMsg rst rly tis] else []) ++
            ((if !rst.isEmpty then
                dispatchTraceCbs ctx (rst.map (fun c => c.1)) tis f2.fdata
              else []) ++
              (if !rly.isEmpty then
                dispatchLayoutCbs ctx (rly.map (fun c => c.1)) f2.flayout
              else [])) := by
        simp [plotlyUpdate, hperf, List.append_assoc]
      rw [hev, countInvoke_append, countInvoke_append]
      have hmsg : countInvoke
          (if !rst.isEmpty || !rly.isEmpty then
            [Ev.updateMsg rst rly tis] else []) cid = 0 := by
        split <;> simp [countInvoke, invokeCid]
      have htr : countInvoke
          (if !rst.isEmpty then
            dispatchTraceCbs ctx (rst.map (fun c => c.1)) tis f2.fdata
          else []) cid ≤ 1 := by
        split
        · exact countInvoke_dispatchTraceCbs_le_one _ _ _ _ _ t0 hn h3 h4
        · simp [countInvoke]
      have hlay : countInvoke
          (if !rly.isEmpty then
            dispatchLayoutCbs ctx (rly.map (fun c => c.1)) f2.flayout
          else []) cid = 0 := by
        split
        · exact countInvoke_dispatchLayoutCbs_absent _ _ _ _ hly
        · simp [countInvoke]
      omega

/-- C5 (corrected) — counterexample to "every callback registered via
on_change fires at most once per operation": restyling `{'a': 1}` with the
duplicated trace-index list `[0, 0]` dispatches on trace 0 once per
occurrence, so the callback registered there (id 7) fires twice. -/
theorem restyle_callback_double_fire :
    countInvoke
      (plotlyRestyle cexCtx cexFig [("a", JVal.ji 1)]
        (TraceIndexArg.many [0, 0])).events 7 = 2 :=
  rfl

/-- C5 (amended): (1) the dispatch plan built from the changed keys maps a
node prefix to exactly the nonempty suffixes `a` such that `pre ++ a` is an
initial segment of some changed key path — so a registration is matched
exactly when some changed path lies at or strictly below a registered path,
at any depth; (2) a registration whose path set meets the plan's suffixes
at its node fires, receiving the values freshly re-read from the
post-change root at its originally registered paths; (3) a callback
registered at one node fires zero times when none of its registered paths
is touched; (4) in a `plotly_relayout`, a callback id appearing exactly
once in the layout registries fires at most once; (5) in a
`plotly_restyle` whose targeted trace indexes resolve to pairwise-distinct
trace positions, a callback id appearing exactly once in one trace's
registries (and in no other trace's) fires at most once; (6) likewise in a
`plotly_update` for a layout-registered callback id absent from every
trace registry; (7) on the trace side, a registration on a targeted trace
whose path set meets the plan's suffixes at its node fires, with the
values freshly re-read from that trace's post-change dict at its
originally registered paths; (8) a callback registered at a single node of
a single trace fires zero times when none of its registered paths is
touched; (9) in a `plotly_update` whose targeted trace indexes resolve to
pairwise-distinct trace positions, a callback id appearing exactly once in
one trace's registries, in no other trace's and not in the layout
registries, fires at most once. -/
theorem dispatch_at_most_once_fresh :
    (∀ (keys : List String) (pre a : List PathEl),
      planMem (buildDispatchPlan keys) pre a = true ↔
        (a ≠ [] ∧ ∃ k ∈ keys,
          pathLeads (pre ++ a) (strToDictPath k) = true)) ∧
    (∀ (ctx : FigCtx) (keys : List String) (layout : JVal)
        (pre : List PathEl) (reg : Reg) (cid : Nat),
      reg ∈ regsAt ctx.layoutRegs pre → cid ∈ reg.cids →
      ∀ a ∈ reg.argPaths, planMem (buildDispatchPlan keys) pre a = true →
      Ev.invoke cid (reg.argPaths.map (fun p2 => getIn layout (pre ++ p2))) ∈
        dispatchLayoutCbs ctx keys layout) ∧
    (∀ (ctx : FigCtx) (keys : List String) (layout : JVal)
        (pre : List PathEl) (cid : Nat),
      (∀ p, cid ∈ cidsAt ctx.layoutRegs p → p = pre) →
      (∀ reg, reg ∈ regsAt ctx.layoutRegs pre → cid ∈ reg.cids →
        ∀ a ∈ reg.argPaths,
          planMem (buildDispatchPlan keys) pre a = false) →
      countInvoke (dispatchLayoutCbs ctx keys layout) cid = 0) ∧
    (∀ (ctx : FigCtx) (f : Figure) (rld : List (String × JVal)) (cid : Nat),
      (allCids ctx.layoutRegs).Nodup →
      countInvoke (plotlyRelayout ctx f rld).events cid ≤ 1) ∧
    (∀ (ctx : FigCtx) (f : Figure) (rd : List (String × JVal))
        (tia : TraceIndexArg) (cid t0 : Nat),
      (allCids (ctx.traceRegs.getD t0 [])).Nodup →
      (∀ t, t ≠ t0 → cid ∉ allCids (ctx.traceRegs.getD t [])) →
      ((normalizeTraceIndexes f.fdata.length tia).filterMap
          (fun ti => pyResolveIdx
            (plotlyRestyle ctx f rd tia).fig.fdata.length ti)).Nodup →
      countInvoke (plotlyRestyle ctx f rd tia).events cid ≤ 1) ∧
    (∀ (ctx : FigCtx) (f : Figure) (rd rld : Option (List (String × JVal)))
        (tia : TraceIndexArg) (cid : Nat),
      (allCids ctx.layoutRegs).Nodup →
      (∀ t, cid ∉ allCids (ctx.traceRegs.getD t [])) →
      countInvoke (plotlyUpdate ctx f rd rld tia).events cid ≤ 1) ∧
    (∀ (ctx : FigCtx) (keys : List String) (tis : List Int)
        (data : List JVal) (ti : Int) (pos : Nat) (pre : List PathEl)
        (reg : Reg) (cid : Nat),
      ti ∈ tis → pyResolveIdx data.length ti = some pos →
      reg ∈ regsAt (ctx.traceRegs.getD pos []) pre → cid ∈ reg.cids →
      ∀ a ∈ reg.argPaths, planMem (buildDispatchPlan keys) pre a = true →
      Ev.invoke cid
          (reg.argPaths.map (fun p2 =>
            getIn (data.getD pos (JVal.jdict [])) (pre ++ p2))) ∈
        dispatchTraceCbs ctx keys tis data) ∧
    (∀ (ctx : FigCtx) (keys : List String) (tis : List Int)
        (data : List JVal) (t0 : Nat) (pre : List PathEl) (cid : Nat),
      (∀ t p, cid ∈ cidsAt (ctx.traceRegs.getD t []) p →
        t = t0 ∧ p = pre) →
      (∀ reg, reg ∈ regsAt (ctx.traceRegs.getD t0 []) pre →
        cid ∈ reg.cids →
        ∀ a ∈ reg.argPaths,
          planMem (buildDispatchPlan keys) pre a = false) →
      countInvoke (dispatchTraceCbs ctx keys tis data) cid = 0) ∧
    (∀ (ctx : FigCtx) (f : Figure) (rd rld : Option (List (String × JVal)))
        (tia : TraceIndexArg) (cid t0 : Nat),
      (allCids (ctx.traceRegs.getD t0 [])).Nodup →
      (∀ t, t ≠ t0 → cid ∉ allCids (ctx.traceRegs.getD t [])) →
      cid ∉ allCids ctx.layoutRegs →
      ((normalizeTraceIndexes f.fdata.length tia).filterMap
          (fun ti => pyResolveIdx
            (plotlyUpdate ctx f rd rld tia).fig.fdata.length ti)).Nodup →
      countInvoke (plotlyUpdate ctx f rd rld tia).events cid ≤ 1) :=
  ⟨buildDispatchPlan_mem,
   fun ctx keys layout pre reg cid hreg hcid a hap hpm =>
     invoke_mem_dispatchLayoutCbs ctx keys layout pre reg cid hreg hcid
       a hap hpm,
   fun ctx keys layout pre cid hwhere hnof =>
     countInvoke_dispatchLayoutCbs_zero ctx keys layout pre cid hwhere hnof,
   countInvoke_plotlyRelayout_le_one,
   fun ctx f rd tia cid t0 hn h3 h4 =>
     countInvoke_plotlyRestyle_le_one ctx f rd tia cid t0 hn h3 h4,
   fun ctx f rd rld tia cid hn habs =>
     countInvoke_plotlyUpdate_le_one ctx f rd rld tia cid hn habs,
   fun ctx keys tis data ti pos pre reg cid hti hres hreg hcid a hap hpm =>
     invoke_mem_dispatchTraceCbs ctx keys tis data ti pos pre reg cid
       hti hres hreg hcid a hap hpm,
   fun ctx keys tis data t0 pre cid hwhere hnof =>
     countInvoke_dispatchTraceCbs_zero ctx keys tis data t0 pre cid
       hwhere hnof,
   fun ctx f rd rld tia cid t0 hn h3 hly h4 =>
     countInvoke_plotlyUpdate_trace_le_one ctx f rd rld tia cid t0 hn h3
       hly h4⟩

/-- C5 witness: the at-most-once bound for a relayout on the concrete
figure, with the single layout registration (id 5) pairwise distinct. -/
theorem dispatch_at_most_once_fresh_witness :
    (allCids cexCtx.layoutRegs).Nodup ∧
    countInvoke (plotlyRelayout cexCtx cexFig [("a", JVal.ji 1)]).events 5 ≤
      1 :=
  ⟨by decide,
   dispatch_at_most_once_fresh.2.2.2.1 cexCtx cexFig [("a", JVal.ji 1)] 5
     (by decide)⟩

/-! ## Batch transactions commit as one combined update (C2, C9) -/

theorem setTargetRoot_inBatch (f : Figure) (tgt : PropTarget) (root : JVal) :
    (setTargetRoot f tgt root).inBatch = f.inBatch := by
  cases tgt <;> rfl

theorem propSetChildRoot_inBatch (ctx : FigCtx) (f : Figure)
    (tgt : PropTarget) (kps : String) (val : JVal) :
    (propSetChildRoot ctx f tgt kps val).1.inBatch = f.inBatch := by
  cases tgt <;> (simp only [propSetChildRoot]; split <;> rfl)

theorem propSetChildRoot_batch_events (ctx : FigCtx) (f : Figure)
    (tgt : PropTarget) (kps : String) (val : JVal) (h : f.inBatch = true) :
    (propSetChildRoot ctx f tgt kps val).2 = [] := by
  cases tgt <;> simp [propSetChildRoot, h]

theorem setProp_inBatch (ctx : FigCtx) (f : Figure) (tgt : PropTarget)
    (np : List PathEl) (prop : String) (v : JVal) :
    (setProp ctx f tgt np prop v).1.inBatch = f.inBatch := by
  cases v
  case undefined => rfl
  all_goals (simp only [setProp]; split <;>
    simp [propSetChildRoot_inBatch, apply_ite, setTargetRoot_inBatch])

theorem setProp_batch_events (ctx : FigCtx) (f : Figure) (tgt : PropTarget)
    (np : List PathEl) (prop : String) (v : JVal) (h : f.inBatch = true) :
    (setProp ctx f tgt np prop v).2 = [] := by
  cases v
  case undefined => rfl
  all_goals (simp only [setProp]; split <;>
    simp [propSetChildRoot_batch_events, h, setTargetRoot_inBatch])

theorem applyBatchOp_inBatch (ctx : FigCtx) (f : Figure) (op : BatchOp) :
    (applyBatchOp ctx f op).1.inBatch = f.inBatch := by
  cases op <;> exact setProp_inBatch _ _ _ _ _ _

theorem applyBatchOp_batch_events (ctx : FigCtx) (f : Figure) (op : BatchOp)
    (h : f.inBatch = true) : (applyBatchOp ctx f op).2 = [] := by
  cases op <;> exact setProp_batch_events _ _ _ _ _ _ h

theorem applyBatchOps_inBatch_aux (ctx : FigCtx) (ops : List BatchOp) :
    ∀ (f : Figure) (evs0 : List Ev), f.inBatch = true →
      (ops.foldl (fun acc op =>
          let r := applyBatchOp ctx acc.1 op
          (r.1, acc.2 ++ r.2)) (f, evs0)).1.inBatch = true ∧
      (ops.foldl (fun acc op =>
          let r := applyBatchOp ctx acc.1 op
          (r.1, acc.2 ++ r.2)) (f, evs0)).2 = evs0 := by
  induction ops with
  | nil => intro f evs0 h; exact ⟨h, rfl⟩
  | cons op rest ih =>
    intro f evs0 h
    rw [List.foldl_cons]
    have hin : (applyBatchOp ctx f op).1.inBatch = true :=
      (applyBatchOp_inBatch ctx f op).trans h
    rcases ih (applyBatchOp ctx f op).1
        (evs0 ++ (applyBatchOp ctx f op).2) hin with ⟨ih1, ih2⟩
    refine ⟨ih1, ih2.trans ?_⟩
    rw [applyBatchOp_batch_events ctx f op h, List.append_nil]

theorem applyBatchOps_inBatch (ctx : FigCtx) (ops : List BatchOp)
    (f : Figure) (h : f.inBatch = true) :
    (applyBatchOps ctx f ops).1.inBatch = true ∧
    (applyBatchOps ctx f ops).2 = [] := by
  have haux := applyBatchOps_inBatch_aux ctx ops f [] h
  rw [applyBatchOps]
  exact haux

theorem performUpdate_inBatch (ctx : FigCtx) (f : Figure)
    (rd rld : Option (List (String × JVal))) (tia : TraceIndexArg) :
    (performUpdate ctx f rd rld tia).1.inBatch = f.inBatch := by
  rw [performUpdate]
  split
  · rfl
  · rcases hrly : performRelayout ctx.layoutContains f.flayout (rld.getD [])
      with ⟨l2, res⟩
    cases res with
    | error e => simp [hrly]
    | ok rlyChanges =>
      rcases hrst : performRestyle ctx.traceContains f.fdata (rd.getD [])
          (normalizeTraceIndexes f.fdata.length tia) with ⟨data2, res2⟩
      cases res2 <;> simp [hrly, hrst]

theorem plotlyUpdate_fig_inBatch (ctx : FigCtx) (f : Figure)
    (rd rld : Option (List (String × JVal))) (tia : TraceIndexArg) :
    (plotlyUpdate ctx f rd rld tia).fig.inBatch = f.inBatch := by
  have hperf2 := performUpdate_inBatch ctx f rd rld tia
  rcases hperf : performUpdate ctx f rd rld tia with ⟨f2, res⟩
  rw [hperf] at hperf2
  cases res with
  | error e => simpa [plotlyUpdate, hperf] using hperf2
  | ok changes =>
    cases changes with
    | none => simpa [plotlyUpdate, hperf] using hperf2
    | some tr =>
      obtain ⟨rst, rly, tis⟩ := tr
      simpa [plotlyUpdate, hperf] using hperf2

theorem countP_sync_plotlyUpdate_le_one (ctx : FigCtx) (f : Figure)
    (rd rld : Option (List (String × JVal))) (tia : TraceIndexArg) :
    (plotlyUpdate ctx f rd rld tia).events.countP isSyncMsg ≤ 1 := by
  rcases hperf : performUpdate ctx f rd rld tia with ⟨f2, res⟩
  cases res with
  | error e =>
    have hev : (plotlyUpdate ctx f rd rld tia).events = [] := by
      simp [plotlyUpdate, hperf]
    simp [hev]
  | ok changes =>
    cases changes with
    | none =>
      have hev : (plotlyUpdate ctx f rd rld tia).events = [] := by
        simp [plotlyUpdate, hperf]
      simp [hev]
    | some tr =>
      obtain ⟨rst, rly, tis⟩ := tr
      have hev : (plotlyUpdate ctx f rd rld tia).events =
          (if !rst.isEmpty || !rly.isEmpty then
              [Ev.updateMsg rst rly tis] else []) ++
            ((if !rst.isEmpty then
                dispatchTraceCbs ctx (rst.map (fun c => c.1)) tis f2.fdata
              else []) ++
              (if !rly.isEmpty then
                dispatchLayoutCbs ctx (rly.map (fun c => c.1)) f2.flayout
              else [])) := by
        simp [plotlyUpdate, hperf, List.append_assoc]
      rw [hev, List.countP_append, List.countP_append]
      have h1 : (if !rst.isEmpty || !rly.isEmpty then
          [Ev.updateMsg rst rly tis] else []).countP isSyncMsg ≤ 1 := by
        split <;> simp [isSyncMsg]
      have h2 : (if !rst.isEmpty then
          dispatchTraceCbs ctx (rst.map (fun c => c.1)) tis f2.fdata
        else []).countP isSyncMsg = 0 := by
        split
        · exact countP_sync_of_all_invoke _
            (dispatchTraceCbs_all_invoke ctx _ _ f2.fdata)
        · rfl
      have h3 : (if !rly.isEmpty then
          dispatchLayoutCbs ctx (rly.map (fun c => c.1)) f2.flayout
        else []).countP isSyncMsg = 0 := by
        split
        · exact countP_sync_of_all_invoke _
            (dispatchLayoutCbs_all_invoke ctx _ f2.flayout)
        · rfl
      omega

/-- C2 (corrected) — counterexample to "N property writes yield exactly
one outbound update sync message": a batch whose single write stores the
value already present records no pending edit, so the commit's
`plotly_update` has an empty changeset and the block emits no message at
all. -/
theorem batch_noop_write_no_message :
    (batchUpdateRun cexCtx
        {cexFig with fdata := [JVal.jdict [(PathEl.name "a", JVal.ji 1)]]}
        [BatchOp.traceWrite 0 [] "a" (JVal.ji 1)]).2.1 = [] ∧
    ((batchUpdateRun cexCtx
        {cexFig with fdata := [JVal.jdict [(PathEl.name "a", JVal.ji 1)]]}
        [BatchOp.traceWrite 0 [] "a" (JVal.ji 1)]).2.1.countP isSyncMsg =
      0) :=
  ⟨rfl, rfl⟩

/-- C2 (amended): entering `batch_update` while a batch is already open is
a pass-through that emits nothing and does not commit; on outermost exit
the block's events are exactly those of the single combined
`plotly_update` call on the accumulated edits (so there is at most one
update sync message and one dispatch pass — and none when every write was
a no-op), the block's error is that call's error, and on success the
batch flag is cleared and the pending edit collections are emptied. -/
theorem batch_commit_single_update :
    (∀ (ctx : FigCtx) (f : Figure) (ops : List BatchOp),
      f.inBatch = true →
      batchUpdateRun ctx f ops =
        ((applyBatchOps ctx f ops).1, ([] : List Ev), none)) ∧
    (∀ (ctx : FigCtx) (f : Figure) (ops : List BatchOp),
      f.inBatch = false →
      (batchUpdateRun ctx f ops).2.1 =
        (plotlyUpdate ctx (batchBody ctx f ops)
          (some (buildUpdateParamsFromBatch (batchBody ctx f ops)).1)
          (some (buildUpdateParamsFromBatch (batchBody ctx f ops)).2.1)
          (TraceIndexArg.many
            (buildUpdateParamsFromBatch (batchBody ctx f ops)).2.2)).events ∧
      (batchUpdateRun ctx f ops).2.1.countP isSyncMsg ≤ 1 ∧
      (batchUpdateRun ctx f ops).2.2 =
        (plotlyUpdate ctx (batchBody ctx f ops)
          (some (buildUpdateParamsFromBatch (batchBody ctx f ops)).1)
          (some (buildUpdateParamsFromBatch (batchBody ctx f ops)).2.1)
          (TraceIndexArg.many
            (buildUpdateParamsFromBatch (batchBody ctx f ops)).2.2)).err ∧
      ((batchUpdateRun ctx f ops).2.2 = none →
        (batchUpdateRun ctx f ops).1.inBatch = false ∧
        (batchUpdateRun ctx f ops).1.batchTraceEdits = [] ∧
        (batchUpdateRun ctx f ops).1.batchLayoutEdits = [])) := by
  constructor
  · intro ctx f ops h
    rcases happ : applyBatchOps ctx f ops with ⟨f2, evs⟩
    have h8 := applyBatchOps_inBatch ctx ops f h
    rw [happ] at h8
    have h82 : evs = [] := h8.2
    subst h82
    simp [batchUpdateRun, h, happ]
  · intro ctx f ops h
    rcases happ : applyBatchOps ctx {f with inBatch := true} ops with
      ⟨f2, evs⟩
    have h8 := applyBatchOps_inBatch ctx ops {f with inBatch := true} rfl
    rw [happ] at h8
    have h82 : evs = [] := h8.2
    subst h82
    have hbb : batchBody ctx f ops = {f2 with inBatch := false} := by
      rw [batchBody, happ]
    rcases hupd : plotlyUpdate ctx {f2 with inBatch := false}
        (some (buildUpdateParamsFromBatch {f2 with inBatch := false}).1)
        (some (buildUpdateParamsFromBatch {f2 with inBatch := false}).2.1)
        (TraceIndexArg.many
          (buildUpdateParamsFromBatch
            {f2 with inBatch := false}).2.2) with ⟨fu, evu, erru⟩
    have hcount := countP_sync_plotlyUpdate_le_one ctx
      {f2 with inBatch := false}
      (some (buildUpdateParamsFromBatch {f2 with inBatch := false}).1)
      (some (buildUpdateParamsFromBatch {f2 with inBatch := false}).2.1)
      (TraceIndexArg.many
        (buildUpdateParamsFromBatch {f2 with inBatch := false}).2.2)
    rw [hupd] at hcount
    have hflag := plotlyUpdate_fig_inBatch ctx {f2 with inBatch := false}
      (some (buildUpdateParamsFromBatch {f2 with inBatch := false}).1)
      (some (buildUpdateParamsFromBatch {f2 with inBatch := false}).2.1)
      (TraceIndexArg.many
        (buildUpdateParamsFromBatch {f2 with inBatch := false}).2.2)
    rw [hupd] at hflag
    cases erru with
    | some e =>
      have hexit : batchUpdateExit ctx f2 = (fu, evu, some e) := by
        simp [batchUpdateExit, hupd]
      have hrun : batchUpdateRun ctx f ops = (fu, [] ++ evu, some e) := by
        simp [batchUpdateRun, h, happ, hexit]
      refine ⟨?_, ?_, ?_, ?_⟩
      · rw [hrun, hbb, hupd]
        simp
      · rw [hrun]
        simpa using hcount
      · rw [hrun, hbb, hupd]
      · intro hnone
        rw [hrun] at hnone
        simp at hnone
    | none =>
      have hexit : batchUpdateExit ctx f2 =
          ({fu with batchTraceEdits := [], batchLayoutEdits := []}, evu,
            none) := by
        simp [batchUpdateExit, hupd]
      have hrun : batchUpdateRun ctx f ops =
          ({fu with batchTraceEdits := [], batchLayoutEdits := []},
            [] ++ evu, none) := by
        simp [batchUpdateRun, h, happ, hexit]
      refine ⟨?_, ?_, ?_, ?_⟩
      · rw [hrun, hbb, hupd]
        simp
      · rw [hrun]
        simpa using hcount
      · rw [hrun, hbb, hupd]
      · intro _
        rw [hrun]
        refine ⟨?_, rfl, rfl⟩
        simpa using hflag

/-- C2 witness: the corrected statement applied to a concrete outermost
batch performing one trace write and one layout write. -/
theorem batch_commit_single_update_witness :
    cexFig.inBatch = false ∧
    ((batchUpdateRun cexCtx cexFig
        [BatchOp.traceWrite 0 [] "a" (JVal.ji 2),
          BatchOp.layoutWrite [] "a" (JVal.ji 3)]).2.1 =
      (plotlyUpdate cexCtx
        (batchBody cexCtx cexFig
          [BatchOp.traceWrite 0 [] "a" (JVal.ji 2),
            BatchOp.layoutWrite [] "a" (JVal.ji 3)])
        (some (buildUpdateParamsFromBatch
          (batchBody cexCtx cexFig
            [BatchOp.traceWrite 0 [] "a" (JVal.ji 2),
              BatchOp.layoutWrite [] "a" (JVal.ji 3)])).1)
        (some (buildUpdateParamsFromBatch
          (batchBody cexCtx cexFig
            [BatchOp.traceWrite 0 [] "a" (JVal.ji 2),
              BatchOp.layoutWrite [] "a" (JVal.ji 3)])).2.1)
        (TraceIndexArg.many
          (buildUpdateParamsFromBatch
            (batchBody cexCtx cexFig
              [BatchOp.traceWrite 0 [] "a" (JVal.ji 2),
                BatchOp.layoutWrite [] "a" (JVal.ji 3)])).2.2)).events ∧
      (batchUpdateRun cexCtx cexFig
        [BatchOp.traceWrite 0 [] "a" (JVal.ji 2),
          BatchOp.layoutWrite [] "a" (JVal.ji 3)]).2.1.countP isSyncMsg ≤
        1 ∧
      (batchUpdateRun cexCtx cexFig
        [BatchOp.traceWrite 0 [] "a" (JVal.ji 2),
          BatchOp.layoutWrite [] "a" (JVal.ji 3)]).2.2 =
        (plotlyUpdate cexCtx
          (batchBody cexCtx cexFig
            [BatchOp.traceWrite 0 [] "a" (JVal.ji 2),
              BatchOp.layoutWrite [] "a" (JVal.ji 3)])
          (some (buildUpdateParamsFromBatch
            (batchBody cexCtx cexFig
              [BatchOp.traceWrite 0 [] "a" (JVal.ji 2),
                BatchOp.layoutWrite [] "a" (JVal.ji 3)])).1)
          (some (buildUpdateParamsFromBatch
            (batchBody cexCtx cexFig
              [BatchOp.traceWrite 0 [] "a" (JVal.ji 2),
                BatchOp.layoutWrite [] "a" (JVal.ji 3)])).2.1)
          (TraceIndexArg.many
            (buildUpdateParamsFromBatch
              (batchBody cexCtx cexFig
                [BatchOp.traceWrite 0 [] "a" (JVal.ji 2),
                  BatchOp.layoutWrite [] "a" (JVal.ji 3)])).2.2)).err ∧
      ((batchUpdateRun cexCtx cexFig
          [BatchOp.traceWrite 0 [] "a" (JVal.ji 2),
            BatchOp.layoutWrite [] "a" (JVal.ji 3)]).2.2 = none →
        (batchUpdateRun cexCtx cexFig
          [BatchOp.traceWrite 0 [] "a" (JVal.ji 2),
            BatchOp.layoutWrite [] "a" (JVal.ji 3)]).1.inBatch = false ∧
        (batchUpdateRun cexCtx cexFig
          [BatchOp.traceWrite 0 [] "a" (JVal.ji 2),
            BatchOp.layoutWrite [] "a" (JVal.ji 3)]).1.batchTraceEdits =
          [] ∧
        (batchUpdateRun cexCtx cexFig
          [BatchOp.traceWrite 0 [] "a" (JVal.ji 2),
            BatchOp.layoutWrite [] "a" (JVal.ji 3)]).1.batchLayoutEdits =
          [])) :=
  ⟨rfl,
   batch_commit_single_update.2 cexCtx cexFig
     [BatchOp.traceWrite 0 [] "a" (JVal.ji 2),
       BatchOp.layoutWrite [] "a" (JVal.ji 3)] rfl⟩

/-- C9 (corrected) — counterexample to "only afterwards are the batch
flag and pending edit collections cleared": the `finally` block clears
`_in_batch_mode` as its first statement, before the commit.  On a batch
whose pending edit targets a trace index out of range, the commit's
`plotly_update` raises, yet the exit leaves the flag already cleared
while the pending edits are still in place — so the flag clearing does
not come after the commit. -/
theorem batch_flag_cleared_despite_commit_error :
    ((batchUpdateRun cexCtx
        {cexFig with batchTraceEdits := [(5, [("a", JVal.ji 1)])]}
        []).2.2).isSome = true ∧
    (batchUpdateRun cexCtx
        {cexFig with batchTraceEdits := [(5, [("a", JVal.ji 1)])]}
        []).1.inBatch = false ∧
    (batchUpdateRun cexCtx
        {cexFig with batchTraceEdits := [(5, [("a", JVal.ji 1)])]}
        []).1.batchTraceEdits = [(5, [("a", JVal.ji 1)])] :=
  ⟨rfl, rfl, rfl⟩

/-- C9 (amended): a `batch_update` body that raises still commits: the
resulting figure state and event stream are exactly those of the normal
(non-raising) exit over the same accumulated edits; the `finally` block
first clears the batch flag, then performs the one combined
`plotly_update` (whose events the block emits), and clears the pending
edit collections only when that call succeeds.  The propagated error is
the body's exception, unless the commit's `plotly_update` itself raises,
in which case the commit's exception supersedes the body's. -/
theorem batch_exception_commit :
    ∀ (ctx : FigCtx) (f : Figure) (ops : List BatchOp) (exc : String),
      (batchUpdateRaise ctx f ops exc).1 = (batchUpdateRun ctx f ops).1 ∧
      (batchUpdateRaise ctx f ops exc).2.1 =
        (batchUpdateRun ctx f ops).2.1 ∧
      (f.inBatch = true →
        (batchUpdateRaise ctx f ops exc).2.2 = some exc) ∧
      (f.inBatch = false →
        ((batchUpdateRun ctx f ops).2.2 = none →
          (batchUpdateRaise ctx f ops exc).2.2 = some exc) ∧
        (∀ e, (batchUpdateRun ctx f ops).2.2 = some e →
          (batchUpdateRaise ctx f ops exc).2.2 = some e) ∧
        (batchUpdateRaise ctx f ops exc).1.inBatch = false ∧
        (batchUpdateRaise ctx f ops exc).2.1 =
          (plotlyUpdate ctx (batchBody ctx f ops)
            (some (buildUpdateParamsFromBatch (batchBody ctx f ops)).1)
            (some (buildUpdateParamsFromBatch (batchBody ctx f ops)).2.1)
            (TraceIndexArg.many
              (buildUpdateParamsFromBatch
                (batchBody ctx f ops)).2.2)).events) := by
  intro ctx f ops exc
  cases hb : f.inBatch with
  | true =>
    rcases happ : applyBatchOps ctx f ops with ⟨f2, evs⟩
    refine ⟨?_, ?_, ?_, ?_⟩
    · simp [batchUpdateRaise, batchUpdateRun, hb, happ]
    · simp [batchUpdateRaise, batchUpdateRun, hb, happ]
    · intro _
      simp [batchUpdateRaise, hb, happ]
    · intro hfalse
      cases hfalse
  | false =>
    rcases happ : applyBatchOps ctx {f with inBatch := true} ops with
      ⟨f2, evs⟩
    have h8 := applyBatchOps_inBatch ctx ops {f with inBatch := true} rfl
    rw [happ] at h8
    have h82 : evs = [] := h8.2
    subst h82
    have hbb : batchBody ctx f ops = {f2 with inBatch := false} := by
      rw [batchBody, happ]
    rcases hupd : plotlyUpdate ctx {f2 with inBatch := false}
        (some (buildUpdateParamsFromBatch {f2 with inBatch := false}).1)
        (some (buildUpdateParamsFromBatch {f2 with inBatch := false}).2.1)
        (TraceIndexArg.many
          (buildUpdateParamsFromBatch
            {f2 with inBatch := false}).2.2) with ⟨fu, evu, erru⟩
    have hflag := plotlyUpdate_fig_inBatch ctx {f2 with inBatch := false}
      (some (buildUpdateParamsFromBatch {f2 with inBatch := false}).1)
      (some (buildUpdateParamsFromBatch {f2 with inBatch := false}).2.1)
      (TraceIndexArg.many
        (buildUpdateParamsFromBatch {f2 with inBatch := false}).2.2)
    rw [hupd] at hflag
    cases erru with
    | some e =>
      have hexit : batchUpdateExit ctx f2 = (fu, evu, some e) := by
        simp [batchUpdateExit, hupd]
      have hrun : batchUpdateRun ctx f ops = (fu, [] ++ evu, some e) := by
        simp [batchUpdateRun, hb, happ, hexit]
      have hraise : batchUpdateRaise ctx f ops exc =
          (fu, [] ++ evu, some e) := by
        simp [batchUpdateRaise, hb, happ, hexit]
      refine ⟨?_, ?_, ?_, ?_⟩
      · rw [hraise, hrun]
      · rw [hraise, hrun]
      · intro htrue
        cases htrue
      · intro _
        refine ⟨?_, ?_, ?_, ?_⟩
        · intro hnone
          rw [hrun] at hnone
          simp at hnone
        · intro e2 he2
          rw [hrun] at he2
          simp only at he2
          rw [hraise]
          simp only
          rw [he2]
        · rw [hraise]
          simpa using hflag
        · rw [hraise, hbb, hupd]
          simp
    | none =>
      have hexit : batchUpdateExit ctx f2 =
          ({fu with batchTraceEdits := [], batchLayoutEdits := []}, evu,
            none) := by
        simp [batchUpdateExit, hupd]
      have hrun : batchUpdateRun ctx f ops =
          ({fu with batchTraceEdits := [], batchLayoutEdits := []},
            [] ++ evu, none) := by
        simp [batchUpdateRun, hb, happ, hexit]
      have hraise : batchUpdateRaise ctx f ops exc =
          ({fu with batchTraceEdits := [], batchLayoutEdits := []},
            [] ++ evu, some exc) := by
        simp [batchUpdateRaise, hb, happ, hexit]
      refine ⟨?_, ?_, ?_, ?_⟩
      · rw [hraise, hrun]
      · rw [hraise, hrun]
      · intro htrue
        cases htrue
      · intro _
        refine ⟨?_, ?_, ?_, ?_⟩
        · intro _
          rw [hraise]
        · intro e2 he2
          rw [hrun] at he2
          simp at he2
        · rw [hraise]
          simpa using hflag
        · rw [hraise, hbb, hupd]
          simp

/-- C9 witness: a concrete raising batch still emits the events of the
one combined update built from its accumulated edit. -/
theorem batch_exception_commit_witness :
    cexFig.inBatch = false ∧
    (batchUpdateRaise cexCtx cexFig
        [BatchOp.traceWrite 0 [] "a" (JVal.ji 2)] "boom").2.1 =
      (plotlyUpdate cexCtx
        (batchBody cexCtx cexFig [BatchOp.traceWrite 0 [] "a" (JVal.ji 2)])
        (some (buildUpdateParamsFromBatch
          (batchBody cexCtx cexFig
            [BatchOp.traceWrite 0 [] "a" (JVal.ji 2)])).1)
        (some (buildUpdateParamsFromBatch
          (batchBody cexCtx cexFig
            [BatchOp.traceWrite 0 [] "a" (JVal.ji 2)])).2.1)
        (TraceIndexArg.many
          (buildUpdateParamsFromBatch
            (batchBody cexCtx cexFig
              [BatchOp.traceWrite 0 [] "a" (JVal.ji 2)])).2.2)).events :=
  ⟨rfl,
   ((batch_exception_commit cexCtx cexFig
       [BatchOp.traceWrite 0 [] "a" (JVal.ji 2)] "boom").2.2.2 rfl).2.2.2⟩

/-! ## The `data` setter validates fully before mutating (C6) -/

/-- C6 (confirmed): when the current traces' uids resolve, the `data`
setter rejects exactly the assignments that are not a sequence, contain a
non-trace element, contain a uid absent from the current traces, or
contain duplicate uids — so only a duplicate-free selection of the
current traces (matched by uid) is accepted — and every rejection leaves
the figure unchanged and emits nothing. -/
theorem data_setter_validation :
    ∀ (f : Figure) (arg : DataArg),
      (∀ origU, origUidsOf f.fdata = Except.ok origU →
        ((setData f arg).2.2.isSome = true ↔
          (arg = DataArg.notSeq ∨
            ∃ elems, arg = DataArg.seq elems ∧
              (DataElem.notTrace ∈ elems ∨
                (∃ u, DataElem.traceElem u ∈ elems ∧ ¬u ∈ origU) ∨
                hasDup (elems.filterMap (fun e =>
                  match e with
                  | DataElem.traceElem u => some u
                  | _ => none)) = true)))) ∧
      ((setData f arg).2.2.isSome = true →
        (setData f arg).1 = f ∧ (setData f arg).2.1 = []) := by
  intro f arg
  cases arg with
  | notSeq =>
    constructor
    · intro origU horig
      simp [setData]
    · intro _
      exact ⟨rfl, rfl⟩
  | seq elems =>
    constructor
    · intro origU horig
      by_cases hnt : (elems.any (fun e => match e with
          | DataElem.notTrace => true
          | _ => false)) = true
      · have hred : setData f (DataArg.seq elems) =
            (f, [],
              some "ValueError: received element that is not a trace") := by
          simp only [setData]
          rw [if_pos hnt]
        rw [hred]
        constructor
        · intro _
          refine Or.inr ⟨elems, rfl, Or.inl ?_⟩
          rcases List.any_eq_true.mp hnt with ⟨e, he, hpe⟩
          cases e with
          | notTrace => exact he
          | traceElem u => simp at hpe
        · intro _
          rfl
      · by_cases hall : ((elems.filterMap (fun e => match e with
            | DataElem.traceElem u => some u
            | _ => none)).all (fun u => origU.contains u)) = true
        · by_cases hdup : hasDup (elems.filterMap (fun e => match e with
              | DataElem.traceElem u => some u
              | _ => none)) = true
          · have hred : setData f (DataArg.seq elems) =
                (f, [], some "ValueError: duplicated trace uids") := by
              simp only [setData]
              rw [if_neg hnt]
              simp only [horig]
              rw [if_neg (show ¬((!(elems.filterMap (fun e => match e with
                  | DataElem.traceElem u => some u
                  | _ => none)).all (fun u => origU.contains u)) = true)
                from by rw [hall]; decide)]
              rw [if_pos hdup]
            rw [hred]
            constructor
            · intro _
              exact Or.inr ⟨elems, rfl, Or.inr (Or.inr hdup)⟩
            · intro _
              rfl
          · have hred : (setData f (DataArg.seq elems)).2.2 = none := by
              simp only [setData]
              rw [if_neg hnt]
              simp only [horig]
              rw [if_neg (show ¬((!(elems.filterMap (fun e => match e with
                  | DataElem.traceElem u => some u
                  | _ => none)).all (fun u => origU.contains u)) = true)
                from by rw [hall]; decide)]
              rw [if_neg hdup]
            rw [hred]
            simp only [Option.isSome_none]
            constructor
            · intro hfalse
              cases hfalse
            · rintro (hns | ⟨elems2, heq, hcase⟩)
              · cases hns
              · injection heq with he2
                subst he2
                rcases hcase with hmem | ⟨u, humem, hunot⟩ | hdup2
                · exact absurd
                    (List.any_eq_true.mpr ⟨DataElem.notTrace, hmem, rfl⟩) hnt
                · have humem2 : u ∈ elems.filterMap (fun e => match e with
                      | DataElem.traceElem u => some u
                      | _ => none) :=
                    List.mem_filterMap.mpr ⟨DataElem.traceElem u, humem, rfl⟩
                  have hcont := List.all_eq_true.mp hall u humem2
                  exact absurd ((list_contains_iff _ _).mp hcont) hunot
                · exact absurd hdup2 hdup
        · have hallf : ((elems.filterMap (fun e => match e with
              | DataElem.traceElem u => some u
              | _ => none)).all (fun u => origU.contains u)) = false := by
            rw [← Bool.not_eq_true]
            exact hall
          have hred : setData f (DataArg.seq elems) =
              (f, [], some "ValueError: invalid trace uids") := by
            simp only [setData]
            rw [if_neg hnt]
            simp only [horig]
            rw [if_pos (show (!(elems.filterMap (fun e => match e with
                | DataElem.traceElem u => some u
                | _ => none)).all (fun u => origU.contains u)) = true
              from by rw [hallf]; rfl)]
          rw [hred]
          constructor
          · intro _
            have hnall : ¬ (∀ u ∈ elems.filterMap (fun e => match e with
                | DataElem.traceElem u => some u
                | _ => none), origU.contains u = true) :=
              fun hx => hall (List.all_eq_true.mpr hx)
            push_neg at hnall
            rcases hnall with ⟨u, humem, hncont⟩
            rcases List.mem_filterMap.mp humem with ⟨e, hemem, hesome⟩
            cases e with
            | notTrace => simp at hesome
            | traceElem u2 =>
              simp only [Option.some.injEq] at hesome
              subst hesome
              refine Or.inr ⟨elems, rfl, Or.inr (Or.inl ⟨u2, hemem, ?_⟩)⟩
              intro humem0
              exact hncont ((list_contains_iff _ _).mpr humem0)
          · intro _
            rfl
    · intro hsome
      by_cases hnt : (elems.any (fun e => match e with
          | DataElem.notTrace => true
          | _ => false)) = true
      · have hred : setData f (DataArg.seq elems) =
            (f, [],
              some "ValueError: received element that is not a trace") := by
          simp only [setData]
          rw [if_pos hnt]
        rw [hred]
        exact ⟨rfl, rfl⟩
      · obtain ⟨res, hres⟩ : ∃ r, origUidsOf f.fdata = r := ⟨_, rfl⟩
        cases res with
        | error e =>
          have hred : setData f (DataArg.seq elems) = (f, [], some e) := by
            simp only [setData]
            rw [if_neg hnt]
            simp only [hres]
          rw [hred]
          exact ⟨rfl, rfl⟩
        | ok origU0 =>
          by_cases hall : ((elems.filterMap (fun e => match e with
              | DataElem.traceElem u => some u
              | _ => none)).all (fun u => origU0.contains u)) = true
          · by_cases hdup : hasDup (elems.filterMap (fun e => match e with
                | DataElem.traceElem u => some u
                | _ => none)) = true
            · have hred : setData f (DataArg.seq elems) =
                  (f, [], some "ValueError: duplicated trace uids") := by
                simp only [setData]
                rw [if_neg hnt]
                simp only [hres]
                rw [if_neg (show ¬((!(elems.filterMap (fun e => match e with
                    | DataElem.traceElem u => some u
                    | _ => none)).all (fun u => origU0.contains u)) = true)
                  from by rw [hall]; decide)]
                rw [if_pos hdup]
              rw [hred]
              exact ⟨rfl, rfl⟩
            · have hred : (setData f (DataArg.seq elems)).2.2 = none := by
                simp only [setData]
                rw [if_neg hnt]
                simp only [hres]
                rw [if_neg (show ¬((!(elems.filterMap (fun e => match e with
                    | DataElem.traceElem u => some u
                    | _ => none)).all (fun u => origU0.contains u)) = true)
                  from by rw [hall]; decide)]
                rw [if_neg hdup]
              rw [hred] at hsome
              simp at hsome
          · have hallf : ((elems.filterMap (fun e => match e with
                | DataElem.traceElem u => some u
                | _ => none)).all (fun u => origU0.contains u)) = false := by
              rw [← Bool.not_eq_true]
              exact hall
            have hred : setData f (DataArg.seq elems) =
                (f, [], some "ValueError: invalid trace uids") := by
              simp only [setData]
              rw [if_neg hnt]
              simp only [hres]
              rw [if_pos (show (!(elems.filterMap (fun e => match e with
                  | DataElem.traceElem u => some u
                  | _ => none)).all (fun u => origU0.contains u)) = true
                from by rw [hallf]; rfl)]
            rw [hred]
            exact ⟨rfl, rfl⟩

/-- C6 witness: assigning a sequence holding an unknown uid to a figure
with one trace of uid `u1` errors, leaving the state untouched. -/
theorem data_setter_validation_witness :
    (setData
        {cexFig with fdata := [JVal.jdict [(PathEl.name "uid", JVal.js "u1")]]}
        (DataArg.seq [DataElem.traceElem "zz"])).2.2.isSome = true ∧
    (setData
        {cexFig with fdata := [JVal.jdict [(PathEl.name "uid", JVal.js "u1")]]}
        (DataArg.seq [DataElem.traceElem "zz"])).1 =
      {cexFig with fdata := [JVal.jdict [(PathEl.name "uid", JVal.js "u1")]]} ∧
    (setData
        {cexFig with fdata := [JVal.jdict [(PathEl.name "uid", JVal.js "u1")]]}
        (DataArg.seq [DataElem.traceElem "zz"])).2.1 = [] :=
  ⟨((data_setter_validation
        {cexFig with fdata := [JVal.jdict [(PathEl.name "uid", JVal.js "u1")]]}
        (DataArg.seq [DataElem.traceElem "zz"])).1 ["u1"] rfl).mpr
      (Or.inr ⟨[DataElem.traceElem "zz"], rfl,
        Or.inr (Or.inl ⟨"zz", by decide, by decide⟩)⟩),
   ((data_setter_validation
        {cexFig with fdata := [JVal.jdict [(PathEl.name "uid", JVal.js "u1")]]}
        (DataArg.seq [DataElem.traceElem "zz"])).2 rfl).1,
   ((data_setter_validation
        {cexFig with fdata := [JVal.jdict [(PathEl.name "uid", JVal.js "u1")]]}
        (DataArg.seq [DataElem.traceElem "zz"])).2 rfl).2⟩

end PlotlyModel
